import Mathlib

/-!
# Verification of the BA_Aurora2 production scheduler

Shallow embedding of `src/scheduler.py` (class `ProductionScheduler`).

Modelling conventions:
* Time is measured in whole minutes (`Int`) since an epoch chosen so that
  day 0 is a Monday; `2025-08-22` (the hard-coded scheduling start date,
  a Friday) is day 4.  All times the program manipulates are whole minutes
  (the start is 06:00 sharp, durations are integer minutes, on-dock dates
  are midnights), so minute granularity is exact.
* Python dicts are association lists in insertion order (`List (k × v)`),
  looked up with `List.lookup` (first match).  Python sets are dup-free
  lists in insertion order; CPython iterates sets in hash-table order,
  which is implementation defined, so no settled result below depends on
  the iteration order of a set.
* Python floats are modelled as `ℚ`.  The quantities involved (priority
  scores, utilization ratios) are far from the rounding granularity at
  every point a settled claim depends on.
* `datetime.now()` is an explicit field `now` of the state.
* Exceptions are modelled with `Except PyErr`; the loader guarantees the
  shapes assumed here (e.g. rework rows always carry a relationship).
* Unbounded `while` loops are embedded with the very iteration caps the
  source carries (`max_iterations = total_tasks * 10`, window search cap
  5000); genuinely unbounded recursions (critical path, DFS, transitive
  successors) receive fuel provably sufficient on acyclic data, with fuel
  exhaustion mapped to `PyErr.recursionError` mirroring Python's
  `RecursionError`.
-/

set_option maxHeartbeats 4000000
set_option maxRecDepth 100000

namespace Aurora

inductive PyErr where
  | keyError
  | valueError
  | runtimeError
  | recursionError
deriving Repr, DecidableEq

instance {α : Type} [DecidableEq α] : DecidableEq (Except PyErr α) :=
  fun a b =>
    match a, b with
    | .ok x, .ok y =>
      if h : x = y then .isTrue (by rw [h]) else
        .isFalse (fun he => h (Except.ok.inj he))
    | .ok _, .error _ => .isFalse (fun he => Except.noConfusion he)
    | .error _, .ok _ => .isFalse (fun he => Except.noConfusion he)
    | .error e, .error f =>
      if h : e = f then .isTrue (by rw [h]) else
        .isFalse (fun he => h (Except.error.inj he))

/-- One row of a (raw or synthesized) precedence table: `First`, `Second`,
and the relationship string, one of `"Finish <= Start"`, `"Finish = Start"`,
`"Start <= Start"` (arbitrary strings are tolerated, as in the source). -/
structure Constraint where
  first : Nat
  second : Nat
  rel : String
deriving Repr, DecidableEq

/-- A raw base-precedence row; the relationship may be missing
(`constraint.get('Relationship Type') or constraint.get('Relationship')`
yielding a falsy value), in which case the builder skips the row. -/
structure PrecRow where
  first : Nat
  second : Nat
  rel : Option String
deriving Repr, DecidableEq

/-- A loaded late-part relationship row (relationship is always
`"Finish <= Start"`, stored by the loader). -/
structure LatePartRow where
  first : Nat
  second : Nat
  on_dock : Int
  product : Option String
deriving Repr, DecidableEq

/-- A loaded rework relationship row; the loader defaults a missing
relationship to `"Finish <= Start"`. -/
structure ReworkRow where
  first : Nat
  second : Nat
  rel : String
  product : Option String
deriving Repr, DecidableEq

/-- `self.tasks[task_id]` entries. -/
structure TaskInfo where
  duration : Int
  team : Option String
  mechanics_required : Int
  is_quality : Bool
  task_type : String
  primary_task : Option Nat
deriving Repr, DecidableEq

/-- The loaded data of a `ProductionScheduler` (everything
`load_data_from_csv` populates that the scheduling engine reads).
`task_schedule` is not a field: `schedule_tasks` clears it on entry, so the
embedding passes schedules around explicitly. -/
structure Sched where
  tasks : List (Nat × TaskInfo)
  quality_requirements : List (Nat × Nat)
  quality_inspections : List (Nat × Nat)
  precedence_constraints : List PrecRow
  late_part_constraints : List LatePartRow
  rework_constraints : List ReworkRow
  late_part_tasks : List Nat
  rework_tasks : List Nat
  on_dock_dates : List (Nat × Int)
  task_to_product : List (Nat × String)
  team_shifts : List (String × List String)
  quality_team_shifts : List (String × List String)
  team_capacity : List (String × Int)
  quality_team_capacity : List (String × Int)
  delivery_dates : List (String × Int)
  holidays : List (String × List Int)
  product_tasks : List (String × List Nat)
  late_part_delay_min : Int
  now : Int
deriving Repr, DecidableEq

/-- One value of `self.task_schedule`. -/
structure Entry where
  start_time : Int
  end_time : Int
  team : Option String
  product_line : String
  duration : Int
  mechanics_required : Int
  is_quality : Bool
  task_type : String
  shift : String
deriving Repr, DecidableEq

abbrev Schedule := List (Nat × Entry)

/-! ## Calendar helpers -/

/-- Minutes in a day. -/
def minutesPerDay : Int := 1440

/-- Calendar day of a time (floor division, as Python date extraction). -/
def dayOf (t : Int) : Int := t.fdiv 1440

/-- Minute within the day, `0 ≤ _ < 1440` (`hour * 60 + minute`). -/
def minutesOfDay (t : Int) : Int := t.emod 1440

/-- Python `weekday()`: Monday = 0 … Sunday = 6; the epoch day 0 is a
Monday. -/
def weekdayOf (t : Int) : Int := (dayOf t).emod 7

/-- `datetime(2025, 8, 22, 6, 0)`: day 4 (Friday) at 06:00. -/
def start_date : Int := 4 * 1440 + 360

/-- `is_working_day(date, product_line)`: False on Saturday/Sunday and on
the product's holidays, True otherwise. -/
def is_working_day (s : Sched) (t : Int) (product_line : String) : Bool :=
  if 5 ≤ weekdayOf t then false
  else if ((List.lookup product_line s.holidays).getD []).any
      (fun h => dayOf h == dayOf t) then false
  else true

/-! ## Dependency graph builder (`build_dynamic_dependencies`) -/

/-- Stage 1 step: one raw base-precedence row, with quality-inspection
interposition (translated from the loop body at scheduler.py:618-653). -/
def interposeBase (qreq : List (Nat × Nat)) (acc : List Constraint)
    (r : PrecRow) : List Constraint :=
  match r.rel with
  | none => acc
  | some rel =>
    match List.lookup r.first qreq with
    | some qi =>
      let acc' := if acc.any (fun c => c.first == r.first && c.second == qi)
        then acc
        else acc ++ [⟨r.first, qi, "Finish = Start"⟩]
      acc' ++ [⟨qi, r.second, rel⟩]
    | none => acc ++ [⟨r.first, r.second, rel⟩]

/-- Stage 1: baseline constraints with QI redirection. -/
def bdd_stage1 (s : Sched) : List Constraint :=
  s.precedence_constraints.foldl (interposeBase s.quality_requirements) []

/-- Stage 2: late-part constraints, always `Finish <= Start`. -/
def bdd_stage2 (s : Sched) (acc : List Constraint) : List Constraint :=
  acc ++ s.late_part_constraints.map
    (fun r => ⟨r.first, r.second, "Finish <= Start"⟩)

/-- Stage 3 step: one rework row, redirected through its QI when present. -/
def interposeRework (qreq : List (Nat × Nat)) (acc : List Constraint)
    (r : ReworkRow) : List Constraint :=
  match List.lookup r.first qreq with
  | some qi =>
    let acc' := if acc.any (fun c => c.first == r.first && c.second == qi)
      then acc
      else acc ++ [⟨r.first, qi, "Finish = Start"⟩]
    acc' ++ [⟨qi, r.second, r.rel⟩]
  | none => acc ++ [⟨r.first, r.second, r.rel⟩]

/-- Stage 3: rework constraints. -/
def bdd_stage3 (s : Sched) (acc : List Constraint) : List Constraint :=
  s.rework_constraints.foldl (interposeRework s.quality_requirements) acc

/-- Stage 4: residual primary → QI constraints not already present. -/
def bdd_stage4 (s : Sched) (acc : List Constraint) : List Constraint :=
  s.quality_requirements.foldl
    (fun a pr =>
      if a.any (fun c => c.first == pr.1 && c.second == pr.2) then a
      else a ++ [⟨pr.1, pr.2, "Finish = Start"⟩]) acc

/-- `build_dynamic_dependencies` (pure function of the loaded data; the
`_dynamic_constraints_cache` only memoizes it). -/
def build_dynamic_dependencies (s : Sched) : List Constraint :=
  bdd_stage4 s (bdd_stage3 s (bdd_stage2 s (bdd_stage1 s)))

/-- `get_earliest_start_for_late_part`: on-dock date plus the configured
delay, then `replace(hour=6, minute=0)` — i.e. 06:00 on the day where
`on_dock + delay` falls. -/
def get_earliest_start_for_late_part (s : Sched) (task_id : Nat) : Int :=
  match List.lookup task_id s.on_dock_dates with
  | none => start_date
  | some od => dayOf (od + s.late_part_delay_min) * 1440 + 360

/-! ## Capacity timeline -/

/-- `self.team_capacity.get(team, 0) or self.quality_team_capacity.get(team, 0)`
(Python `or` yields the second operand when the first is falsy, i.e. 0). -/
def capOfTeam (s : Sched) (team : Option String) : Int :=
  let a := (team.bind (fun t => List.lookup t s.team_capacity)).getD 0
  if a ≠ 0 then a
  else (team.bind (fun t => List.lookup t s.quality_team_capacity)).getD 0

/-- Worker count a team's schedule entries demand at minute `m`
(interval membership is `start_time <= m < end_time`, as in
`check_team_capacity_at_time`). -/
def usageAt (entries : Schedule) (m : Int) : Int :=
  entries.foldl
    (fun acc p =>
      if p.2.start_time ≤ m ∧ m < p.2.end_time then
        acc + p.2.mechanics_required
      else acc) 0

/-- The minute-by-minute scan of `check_team_capacity_at_time`:
`fuel` is the number of minutes still to check. -/
def capCheckLoop (entries : Schedule) (needed cap : Int) :
    Nat → Int → Bool
  | 0, _ => true
  | n + 1, cur =>
    if usageAt entries cur + needed > cap then false
    else capCheckLoop entries needed cap n (cur + 1)

/-- `check_team_capacity_at_time(team, start_time, end_time, mechanics_needed)`. -/
def check_team_capacity_at_time (s : Sched) (schedule : Schedule)
    (team : Option String) (startT endT needed : Int) : Bool :=
  let entries := schedule.filter (fun p => p.2.team == team)
  capCheckLoop entries needed (capOfTeam s team) (endT - startT).toNat startT

/-! ## Shift windows -/

/-- Whether minute-of-day `cm` falls in the named shift's window
(1st 06:00–14:30, 2nd 14:30–23:00, 3rd 23:00–06:00 wrapping midnight),
exactly the comparisons in `get_next_working_time_with_capacity`. -/
def shiftMatches (sh : String) (cm : Int) : Bool :=
  (sh == "1st" && 360 ≤ cm && cm < 870) ||
  (sh == "2nd" && 870 ≤ cm && cm < 1380) ||
  (sh == "3rd" && (1380 ≤ cm || cm < 360))

/-- Shift list a mechanic team works (`self.team_shifts.get(team, [])`;
`get(None, [])` is `[]`). -/
def teamShiftsOf (s : Sched) (team : Option String) : List String :=
  (team.bind (fun t => List.lookup t s.team_shifts)).getD []

/-- Mechanic branch of the shift scan: the first of the team's shifts whose
window contains `cm`. -/
def mechShiftAt (s : Sched) (team : Option String) (cm : Int) :
    Option String :=
  (teamShiftsOf s team).find? (fun sh => shiftMatches sh cm)

/-- Quality branch of the shift scan: the shift (tried in order
1st, 2nd, 3rd) whose window contains `cm`, provided at least one quality
team works that shift (the code checks `self.quality_team_shifts`, not the
candidate team). -/
def qualityShiftAt (s : Sched) (cm : Int) : Option String :=
  ["1st", "2nd", "3rd"].find?
    (fun sh => shiftMatches sh cm &&
      s.quality_team_shifts.any (fun p => p.2.contains sh))

/-! ## Window search (`get_next_working_time_with_capacity`) -/

/-- One jump of the no-available-shift branch: advance to the next shift
start (or to 06:00 next day). -/
def nextShiftJump (cur : Int) : Int :=
  let cm := minutesOfDay cur
  if cm < 360 then dayOf cur * 1440 + 360
  else if cm < 870 then dayOf cur * 1440 + 870
  else if cm < 1380 then dayOf cur * 1440 + 1380
  else dayOf cur * 1440 + 360 + 1440

/-- The `while iterations < max_iterations` loop; `fuel` is the number of
iterations left (started at 5000).  On success it returns the found start
time, the available shift, and the remaining fuel (so the number of
iterations consumed is `5000 - fuel`).  Fuel exhaustion is the
`RuntimeError` the source raises. -/
def gnwtAux (s : Sched) (schedule : Schedule) (product_line : String)
    (team : Option String) (needed duration : Int) (is_quality : Bool) :
    Nat → Int → Except PyErr (Int × String × Nat)
  | 0, _ => .error .runtimeError
  | fuel + 1, cur =>
    if ¬ is_working_day s cur product_line then
      gnwtAux s schedule product_line team needed duration is_quality fuel
        (dayOf cur * 1440 + 360 + 1440)
    else
      let cm := minutesOfDay cur
      let avail := if is_quality then qualityShiftAt s cm
                   else mechShiftAt s team cm
      match avail with
      | some sh =>
        if check_team_capacity_at_time s schedule team cur (cur + duration)
            needed then
          .ok (cur, sh, fuel)
        else
          gnwtAux s schedule product_line team needed duration is_quality
            fuel (cur + 1)
      | none =>
        gnwtAux s schedule product_line team needed duration is_quality
          fuel (nextShiftJump cur)

/-- `get_next_working_time_with_capacity` with its cap of 5000 iterations. -/
def get_next_working_time_with_capacity (s : Sched) (schedule : Schedule)
    (current_time : Int) (product_line : String) (team : Option String)
    (mechanics_needed duration : Int) (is_quality : Bool) :
    Except PyErr (Int × String × Nat) :=
  gnwtAux s schedule product_line team mechanics_needed duration is_quality
    5000 current_time

/-! ## Quality team selector (`assign_quality_team_balanced`) -/

/-- Cumulative scheduled worker-minutes of a team
(`sum duration * mechanics_required over its entries`). -/
def teamLoad (schedule : Schedule) (team : String) : Int :=
  schedule.foldl
    (fun acc p =>
      if p.2.team == some team then acc + p.2.duration * p.2.mechanics_required
      else acc) 0

/-- The `team_loads` dict of `assign_quality_team_balanced`: quality
teams working `shift` with capacity at least `mechanics_needed`, paired
with their loads, in map-insertion order. -/
def qualityTeamLoads (s : Sched) (schedule : Schedule) (shift : String)
    (mechanics_needed : Int) : List (String × Int) :=
  (s.quality_team_shifts.filter (fun p => p.2.contains shift)).filterMap
    (fun p =>
      let cap := (List.lookup p.1 s.quality_team_capacity).getD 0
      if cap < mechanics_needed then none
      else some (p.1, teamLoad schedule p.1))

/-- `assign_quality_team_balanced(shift, mechanics_needed)`: among quality
teams working `shift` with capacity at least `mechanics_needed`, the one
with the smallest load; Python `min` over dict items keeps the first
minimum in insertion order. -/
def assign_quality_team_balanced (s : Sched) (schedule : Schedule)
    (shift : String) (mechanics_needed : Int) : Option String :=
  match qualityTeamLoads s schedule shift mechanics_needed with
  | [] => none
  | x :: xs =>
    some (xs.foldl (fun best q => if q.2 < best.2 then q else best) x).1

/-! ## Critical path and priority -/

/-- `calculate_critical_path_length`: longest duration-sum over paths
starting at the task.  The memo cache only speeds the recursion up;
values are as computed here.  Fuel exhaustion plays the role of Python's
`RecursionError` on cyclic data (any acyclic chain through the constraint
list is shorter than the fuel supplied below). -/
def cplAux (s : Sched) (cons : List Constraint) :
    Nat → Nat → Except PyErr Int
  | 0, _ => .error .recursionError
  | fuel + 1, t =>
    match List.lookup t s.tasks with
    | none => .error .keyError
    | some info =>
      (cons.foldlM
        (fun (acc : Int) (c : Constraint) =>
          if c.first == t ∧ (List.lookup c.second s.tasks).isSome then do
            let p ← cplAux s cons fuel c.second
            pure (max acc p)
          else pure acc) 0).map
        (fun m => info.duration + m)

def calculate_critical_path_length (s : Sched) (t : Nat) :
    Except PyErr Int :=
  cplAux s (build_dynamic_dependencies s) (s.tasks.length + 1) t

/-- Product-line resolution inside `calculate_task_priority`: explicit
`task_to_product` first, else the first product whose task list contains
the task. -/
def priorityProductOf (s : Sched) (t : Nat) : Option String :=
  match List.lookup t s.task_to_product with
  | some p => some p
  | none => (s.product_tasks.find? (fun pr => pr.2.contains t)).map (·.1)

/-- `calculate_task_priority` (lower = scheduled sooner). -/
def calculate_task_priority (s : Sched) (t : Nat) : Except PyErr ℚ :=
  if s.late_part_tasks.contains t then .ok (-2000)
  else if (List.lookup t s.quality_inspections).isSome then .ok (-1000)
  else if s.rework_tasks.contains t then .ok (-500)
  else
    match priorityProductOf s t with
    | none => .ok 999999
    | some product_line =>
      match List.lookup product_line s.delivery_dates with
      | none => .error .keyError
      | some dd => do
        let days_to_delivery : Int := (dd - s.now).fdiv 1440
        let cpl ← calculate_critical_path_length s t
        let cons := build_dynamic_dependencies s
        let dependent_count : Int := (cons.filter (fun c => c.first == t)).length
        match List.lookup t s.tasks with
        | none => .error .keyError
        | some info =>
          .ok ((100 - (days_to_delivery : ℚ)) * 10 +
               (10000 - (cpl : ℚ)) * 5 +
               (100 - (dependent_count : ℚ)) * 3 +
               (100 - (info.duration : ℚ) / 10) * 2)

/-! ## DAG validation (`validate_dag`) -/

/-- Python set insertion: append if absent (insertion-ordered model). -/
def addToSetList (l : List Nat) (v : Nat) : List Nat :=
  if l.contains v then l else l ++ [v]

/-- `defaultdict(set)` edge insertion `m[k].add(v)`. -/
def addEdge (m : List (Nat × List Nat)) (k v : Nat) :
    List (Nat × List Nat) :=
  match List.lookup k m with
  | none => m ++ [(k, [v])]
  | some l =>
    if l.contains v then m
    else m.map (fun p => if p.1 == k then (k, l ++ [v]) else p)

/-- Adjacency of `validate_dag` (`graph[first].add(second)`). -/
def vdGraph (cons : List Constraint) : List (Nat × List Nat) :=
  cons.foldl (fun g c => addEdge g c.first c.second) []

/-- `all_tasks_in_constraints`, in first-appearance order. -/
def vdNodes (cons : List Constraint) : List Nat :=
  cons.foldl (fun ns c => addToSetList (addToSetList ns c.first) c.second) []

mutual

/-- `has_cycle_dfs`: enter a node (mark visited, push on the recursion
stack) and scan its successors.  `fuel` bounds the recursion depth; each
nested call is on an unvisited node, so depth never exceeds the number of
distinct nodes and the fuel supplied in `validate_dag` cannot run out. -/
def dfsCycle (adj : Nat → List Nat) (fuel : Nat)
    (visited stack : List Nat) (node : Nat) : Bool × List Nat :=
  match fuel with
  | 0 => (true, visited)
  | fuel' + 1 =>
    dfsSuccs adj fuel' (addToSetList visited node) (stack ++ [node])
      (adj node)
termination_by (fuel, 0)

/-- The `for neighbor in graph.get(node, [])` loop of `has_cycle_dfs`. -/
def dfsSuccs (adj : Nat → List Nat) (fuel : Nat)
    (visited stack succs : List Nat) : Bool × List Nat :=
  match succs with
  | [] => (false, visited)
  | succ :: rest =>
    if ¬ visited.contains succ then
      match dfsCycle adj fuel visited stack succ with
      | (true, v) => (true, v)
      | (false, v) => dfsSuccs adj fuel v stack rest
    else if stack.contains succ then (true, visited)
    else dfsSuccs adj fuel visited stack rest
termination_by (fuel, succs.length + 1)

end

/-- `validate_dag`: False on a dangling task reference or a cycle, True
otherwise (unreachable-task and orphan checks only emit warnings). -/
def validate_dag (s : Sched) : Bool :=
  let cons := build_dynamic_dependencies s
  let graph := vdGraph cons
  let nodes := vdNodes cons
  if nodes.any (fun t => (List.lookup t s.tasks).isNone) then false
  else
    let scan := nodes.foldl
      (fun (acc : Bool × List Nat) node =>
        if acc.1 then acc
        else if acc.2.contains node then acc
        else dfsCycle (fun n => (List.lookup n graph).getD [])
          (nodes.length + 1) acc.2 [] node)
      (false, [])
    ¬ scan.1

/-! ## The list scheduler (`schedule_tasks`) -/

/-- `dependencies` / `dependents` maps: every constraint with one of the
three known relationship strings contributes to both
(`dependencies[Second].add(First)`, `dependents[First].add(Second)`). -/
def buildDepMaps (cons : List Constraint) :
    List (Nat × List Nat) × List (Nat × List Nat) :=
  cons.foldl
    (fun m c =>
      if c.rel == "Finish <= Start" || c.rel == "Finish = Start" ||
         c.rel == "Start <= Start" then
        (addEdge m.1 c.second c.first, addEdge m.2 c.first c.second)
      else m)
    ([], [])

def depsOf (m : List (Nat × List Nat)) (t : Nat) : List Nat :=
  (List.lookup t m).getD []

/-- Remove the lexicographically least `(priority, task)` pair — the
observable behaviour of `heapq.heappop` (equal pairs are identical, so
which one is removed is immaterial). -/
def popMin : List (ℚ × Nat) → Option ((ℚ × Nat) × List (ℚ × Nat))
  | [] => none
  | x :: xs =>
    match popMin xs with
    | none => some (x, [])
    | some (m, rest) =>
      if x.1 < m.1 ∨ (x.1 = m.1 ∧ x.2 ≤ m.2) then some (x, xs)
      else some (m, x :: rest)

/-- Loop-local state of `schedule_tasks`. -/
structure LoopSt where
  ready : List (ℚ × Nat)
  schedule : Schedule
  failed : List Nat
  retry_counts : List (Nat × Nat)
  scheduled_count : Nat
  retry_count : Nat
  iteration_count : Nat
deriving Repr, DecidableEq

def getRetry (st : LoopSt) (t : Nat) : Nat :=
  (List.lookup t st.retry_counts).getD 0

/-- Python dict assignment `m[k] = v`. -/
def dictInsert {α : Type} (m : List (Nat × α)) (k : Nat) (v : α) :
    List (Nat × α) :=
  if (List.lookup k m).isSome then
    m.map (fun p => if p.1 == k then (k, v) else p)
  else m ++ [(k, v)]

/-- Python set add `failed_tasks.add(t)`. -/
def addFailedL (l : List Nat) (t : Nat) : List Nat :=
  if l.contains t then l else l ++ [t]

/-- Product-line resolution at placement time (scheduler.py:875-886):
for a quality task, the first product containing its primary or itself;
otherwise the first product containing the task. -/
def resolveProductLine (s : Sched) (task_id : Nat) : Option String :=
  match List.lookup task_id s.quality_inspections with
  | some primary =>
    (s.product_tasks.find?
      (fun pr => pr.2.contains primary || pr.2.contains task_id)).map (·.1)
  | none =>
    (s.product_tasks.find? (fun pr => pr.2.contains task_id)).map (·.1)

/-- The `earliest_start` computation (scheduler.py:900-929): the fixed
start instant, raised for late parts to the on-dock bound, then folded
over the task's placed predecessors — a `Finish = Start` predecessor
overwrites the accumulator with its end, any other tightens by `max`. -/
def computeEarliest (s : Sched) (cons : List Constraint)
    (schedule : Schedule) (deps : List Nat) (task_id : Nat) : Int :=
  let e0 := start_date
  let e1 := if s.late_part_tasks.contains task_id then
      max e0 (get_earliest_start_for_late_part s task_id)
    else e0
  deps.foldl
    (fun e dep =>
      match List.lookup dep schedule with
      | none => e
      | some depE =>
        if cons.any (fun c =>
            c.first == dep && c.second == task_id &&
            c.rel == "Finish = Start") then
          depE.end_time
        else max e depE.end_time)
    e1

/-- The quality placement scan (scheduler.py:941-953): shifts tried in
order, earliest candidate strictly wins; a window-search failure for one
candidate is swallowed (`except: continue`).  Returns
(start, team, try_shift) — note the recorded shift is the loop variable,
not the shift of the window actually found. -/
def tryQualityPlacement (s : Sched) (schedule : Schedule) (earliest : Int)
    (product_line : String) (needed duration : Int) :
    Option (Int × String × String) :=
  ["1st", "2nd", "3rd"].foldl
    (fun acc try_shift =>
      match assign_quality_team_balanced s schedule try_shift needed with
      | none => acc
      | some temp_team =>
        match get_next_working_time_with_capacity s schedule earliest
            product_line (some temp_team) needed duration true with
        | .error _ => acc
        | .ok (temp_start, _, _) =>
          match acc with
          | none => some (temp_start, temp_team, try_shift)
          | some a =>
            if temp_start < a.1 then some (temp_start, temp_team, try_shift)
            else acc)
    none

/-- Failed placement: bump the per-task retry counter, re-queue with a
0.1 priority penalty while under 3 attempts, else fail permanently. -/
def attemptRetry (st : LoopSt) (priority : ℚ) (task_id : Nat) : LoopSt :=
  let c := getRetry st task_id + 1
  let st' := { st with retry_counts := dictInsert st.retry_counts task_id c }
  if c < 3 then
    { st' with ready := (priority + 1/10, task_id) :: st'.ready }
  else
    { st' with failed := addFailedL st'.failed task_id }

/-- After a placement, push dependents whose predecessors are now all
placed or permanently failed (scheduler.py:1004-1012). -/
def pushDependents (s : Sched) (depsM dtsM : List (Nat × List Nat))
    (task_id : Nat) (st : LoopSt) : Except PyErr LoopSt :=
  (depsOf dtsM task_id).foldlM
    (fun (st : LoopSt) dependent =>
      if (List.lookup dependent st.schedule).isSome ∨
         st.failed.contains dependent then pure st
      else if (depsOf depsM dependent).all
          (fun d => (List.lookup d st.schedule).isSome ||
                    st.failed.contains d) then do
        let p ← calculate_task_priority s dependent
        pure { st with ready := (p, dependent) :: st.ready }
      else pure st)
    st

/-- The empty-heap rescan (scheduler.py:832-853): re-seed every
unscheduled, unfailed task all of whose predecessors are placed or
failed. -/
def rescanReseed (s : Sched) (depsM : List (Nat × List Nat)) (total : Nat)
    (st : LoopSt) : Except PyErr LoopSt :=
  if st.ready = [] ∧ st.scheduled_count + st.failed.length < total then
    ((s.tasks.map (·.1)).filter
      (fun t => (List.lookup t st.schedule).isNone ∧
                ¬ st.failed.contains t)).foldlM
      (fun (st : LoopSt) t =>
        if st.failed.contains t then pure st
        else if ((depsOf depsM t).filter
            (fun d => (List.lookup d st.schedule).isNone ∧
                      ¬ st.failed.contains d)) = [] then do
          let p ← calculate_task_priority s t
          pure { st with ready := (p, t) :: st.ready }
        else pure st)
      st
  else pure st

/-- The main `while` loop of `schedule_tasks`.  `fuel` is
`max_iterations - iteration_count` (it starts at `total_tasks * 10`);
when it reaches 0 the `iteration_count < max_iterations` conjunct of the
loop condition is false and the loop exits normally.  `retry_count` is
reset to 0 on success and never incremented anywhere in the source, so
the `retry_count < max_retries` conjunct is embedded as written but never
fires. -/
def scheduleLoop (s : Sched) (cons : List Constraint)
    (depsM dtsM : List (Nat × List Nat)) (total : Nat) :
    Nat → LoopSt → Except PyErr LoopSt
  | 0, st => .ok st
  | fuel + 1, st =>
    if ¬ (st.ready ≠ [] ∨ st.scheduled_count < total) then .ok st
    else if ¬ (st.retry_count < 5) then .ok st
    else do
      let st ← rescanReseed s depsM total
        { st with iteration_count := st.iteration_count + 1 }
      match popMin st.ready with
      | none => .ok st
      | some ((priority, task_id), rest) =>
        let st := { st with ready := rest }
        if 3 ≤ getRetry st task_id then
          scheduleLoop s cons depsM dtsM total fuel
            { st with failed := addFailedL st.failed task_id }
        else
          match resolveProductLine s task_id with
          | none => scheduleLoop s cons depsM dtsM total fuel st
          | some product_line =>
            match List.lookup task_id s.tasks with
            | none => .error .keyError
            | some info =>
              let earliest := computeEarliest s cons st.schedule
                (depsOf depsM task_id) task_id
              let placed : Option (Int × Option String × String) :=
                if info.is_quality then
                  (tryQualityPlacement s st.schedule earliest product_line
                    info.mechanics_required info.duration).map
                    (fun r => (r.1, some r.2.1, r.2.2))
                else
                  match get_next_working_time_with_capacity s st.schedule
                      earliest product_line info.team
                      info.mechanics_required info.duration false with
                  | .error _ => none
                  | .ok (t0, sh, _) => some (t0, info.team, sh)
              match placed with
              | none =>
                scheduleLoop s cons depsM dtsM total fuel
                  (attemptRetry st priority task_id)
              | some (schedStart, team, shift) =>
                let entry : Entry :=
                  { start_time := schedStart,
                    end_time := schedStart + info.duration,
                    team := team, product_line := product_line,
                    duration := info.duration,
                    mechanics_required := info.mechanics_required,
                    is_quality := info.is_quality,
                    task_type := info.task_type, shift := shift }
                let st := { st with
                  schedule := dictInsert st.schedule task_id entry,
                  scheduled_count := st.scheduled_count + 1,
                  retry_count := 0 }
                let st ← pushDependents s depsM dtsM task_id st
                scheduleLoop s cons depsM dtsM total fuel st

/-- `schedule_tasks` down to its final loop state.  The previous schedule
is cleared on entry, so only the loaded data matters.  With
`silent_mode = False` a failed `validate_dag` raises `ValueError`. -/
def schedule_tasks_state (s : Sched)
    (allow_late_delivery silent_mode : Bool) : Except PyErr LoopSt :=
  if ¬ silent_mode ∧ ¬ validate_dag s then .error .valueError
  else
    let cons := build_dynamic_dependencies s
    let maps := buildDepMaps cons
    let total := s.tasks.length
    ((List.foldlM
      (fun (r : List (ℚ × Nat)) t =>
        if (depsOf maps.1 t).isEmpty then do
          let p ← calculate_task_priority s t
          pure ((p, t) :: r)
        else pure r) [] (s.tasks.map (·.1)) :
      Except PyErr (List (ℚ × Nat)))).bind
      (fun ready0 =>
        scheduleLoop s cons maps.1 maps.2 total (total * 10)
          { ready := ready0, schedule := [], failed := [],
            retry_counts := [], scheduled_count := 0, retry_count := 0,
            iteration_count := 0 })

/-- `schedule_tasks`: the resulting `task_schedule`. -/
def schedule_tasks (s : Sched) (allow_late_delivery silent_mode : Bool) :
    Except PyErr Schedule :=
  (schedule_tasks_state s allow_late_delivery silent_mode).map (·.schedule)

/-! ## Metrics -/

/-- Whether any product (in `self.product_tasks`) has `d` as a working
day (`datetime.combine(current, datetime.min.time())` is midnight of the
day). -/
def anyProductWorkingDay (s : Sched) (d : Int) : Bool :=
  s.product_tasks.any (fun pr => is_working_day s (d * 1440) pr.1)

/-- The `while current <= end_date` day-count loop of
`calculate_makespan`. -/
def makespanLoop (s : Sched) : Nat → Int → Int → Int
  | 0, _, acc => acc
  | n + 1, d, acc =>
    makespanLoop s n (d + 1) (if anyProductWorkingDay s d then acc + 1 else acc)

/-- `calculate_makespan`: 0 on an empty schedule; 999999 when the
schedule is partial; otherwise the count of days in
[min start date, max end date] on which at least one product works. -/
def calculate_makespan (s : Sched) (schedule : Schedule) : Int :=
  match schedule with
  | [] => 0
  | e :: rest =>
    if schedule.length < s.tasks.length then 999999
    else
      let mn := rest.foldl (fun m p => min m p.2.start_time) e.2.start_time
      let mx := rest.foldl (fun m p => max m p.2.end_time) e.2.end_time
      makespanLoop s (dayOf mx - dayOf mn + 1).toNat (dayOf mn) 0

/-- One team's row of `_calculate_team_utilization`. -/
structure UtilInfo where
  utilValue : ℚ
  scheduled_minutes : Int
  available_minutes : ℚ
  max_concurrent : Int
deriving Repr, DecidableEq

/-- Worker-count concurrently demanded from `team` at instant `t0`
(the `concurrent_at_start` sum in `_calculate_team_utilization`). -/
def concurrentAtStart (schedule : Schedule) (team : Option String)
    (t0 : Int) : Int :=
  schedule.foldl
    (fun acc p =>
      if p.2.team == team ∧ p.2.start_time ≤ t0 ∧ t0 < p.2.end_time then
        acc + p.2.mechanics_required
      else acc) 0

/-- Utilization data for one team: scheduled worker-minutes over
`capacity * shifts_per_day * 510 * total_days`, or 0 when that
denominator is not positive.  No clamping is applied. -/
def teamUtilFor (s : Sched) (schedule : Schedule) (team : String)
    (cap : Int) (shifts_per_day : Nat) (total_days : Int) : UtilInfo :=
  let mine := schedule.filter (fun p => p.2.team == some team)
  let scheduled_minutes : Int :=
    mine.foldl (fun acc p => acc + p.2.duration * p.2.mechanics_required) 0
  let max_concurrent : Int :=
    mine.foldl
      (fun acc p => max acc (concurrentAtStart schedule (some team)
        p.2.start_time)) 0
  let available : ℚ := (cap : ℚ) * (shifts_per_day : ℚ) * 510 * (total_days : ℚ)
  { utilValue := if 0 < available then (scheduled_minutes : ℚ) / available else 0,
    scheduled_minutes := scheduled_minutes,
    available_minutes := available,
    max_concurrent := max_concurrent }

/-- `_calculate_team_utilization`: mechanic-team rows and quality-team
rows (`minutes_per_shift = 8.5 * 60 = 510`, exactly representable). -/
def calcTeamUtilization (s : Sched) (schedule : Schedule) :
    List (String × UtilInfo) × List (String × UtilInfo) :=
  let total_days := calculate_makespan s schedule
  (s.team_capacity.map
    (fun p => (p.1, teamUtilFor s schedule p.1 p.2
      ((List.lookup p.1 s.team_shifts).getD []).length total_days)),
   s.quality_team_capacity.map
    (fun p => (p.1, teamUtilFor s schedule p.1 p.2
      ((List.lookup p.1 s.quality_team_shifts).getD []).length total_days)))

/-! ## Slack (`calculate_slack_time`) -/

/-- Product resolution of `calculate_slack_time` (explicit mapping first,
then the quality-primary route, then containment). -/
def slackProductOf (s : Sched) (t : Nat) : Option String :=
  match List.lookup t s.task_to_product with
  | some p => some p
  | none =>
    match List.lookup t s.quality_inspections with
    | some primary =>
      match List.lookup primary s.task_to_product with
      | some p => some p
      | none =>
        (s.product_tasks.find? (fun pr => pr.2.contains primary)).map (·.1)
    | none =>
      (s.product_tasks.find? (fun pr => pr.2.contains t)).map (·.1)

/-- The transitive-successor worklist loop of `calculate_slack_time`.
Only the resulting set matters (its durations are summed in exact ℚ), so
the worklist is consumed from the head; the fuel supplied exceeds the
maximum possible number of pops. -/
def succClosureLoop (cons : List Constraint) :
    Nat → List Nat → List Nat → List Nat
  | 0, acc, _ => acc
  | _ + 1, acc, [] => acc
  | fuel + 1, acc, cur :: rest =>
    let step := cons.foldl
      (fun (p : List Nat × List Nat) c =>
        if c.first == cur ∧ ¬ p.1.contains c.second then
          (p.1 ++ [c.second], p.2 ++ [c.second])
        else p)
      (acc, rest)
    succClosureLoop cons fuel step.1 step.2

/-- `calculate_slack_time`; `none` stands for `float('inf')` (task without
a product).  Slack hours is
`(delivery - (Σ successor durations / 480 + 2) * 1440 - start) / 60`. -/
def calculate_slack_time (s : Sched) (schedule : Schedule) (t : Nat) :
    Except PyErr (Option ℚ) :=
  match slackProductOf s t with
  | none => .ok none
  | some product_line =>
    match List.lookup product_line s.delivery_dates with
    | none => .error .keyError
    | some delivery =>
      let cons := build_dynamic_dependencies s
      let succs := succClosureLoop cons (cons.length + 2) [] [t]
      let total_dur : Int := succs.foldl
        (fun acc u =>
          match List.lookup u s.tasks with
          | some i => acc + i.duration
          | none => acc) 0
      let buffer_days : ℚ := (total_dur : ℚ) / 480
      let latest_start : ℚ := (delivery : ℚ) - (buffer_days + 2) * 1440
      match List.lookup t schedule with
      | some e => .ok (some ((latest_start - (e.start_time : ℚ)) / 60))
      | none => .ok (some 0)

/-! ## Global priority list (`generate_global_priority_list`) -/

/-- One row of the global priority list. -/
structure PItem where
  task_id : Nat
  task_type : String
  display_name : String
  product_line : String
  team : Option String
  scheduled_start : Int
  scheduled_end : Int
  duration_minutes : Int
  mechanics_required : Int
  slack_hours : Option ℚ
  priority_score : ℚ
  shift : String
  global_priority : Nat
deriving Repr, DecidableEq

def displayNameFor (s : Sched) (task_id : Nat) (e : Entry) : String :=
  if e.task_type == "Quality Inspection" then
    match List.lookup task_id s.quality_inspections with
    | some primary => "QI for Task " ++ toString primary
    | none => "QI for Task " ++ toString task_id
  else if e.task_type == "Late Part" then
    "Late Part " ++ toString task_id ++ " (" ++ e.product_line ++ ")"
  else if e.task_type == "Rework" then
    "Rework " ++ toString task_id ++ " (" ++ e.product_line ++ ")"
  else "Task " ++ toString task_id

/-- `float` comparison on slack values where `none` is `+inf`. -/
def slackLe : Option ℚ → Option ℚ → Bool
  | _, none => true
  | none, some _ => false
  | some a, some b => a ≤ b

/-- The sort key `(scheduled_start, slack_hours)` as a total preorder. -/
def pitemKeyLe (x y : PItem) : Bool :=
  x.scheduled_start < y.scheduled_start ||
  (x.scheduled_start == y.scheduled_start &&
   slackLe x.slack_hours y.slack_hours)

/-- Stable insertion used to model Python's stable `list.sort`. -/
def insSortedBy (le : PItem → PItem → Bool) (x : PItem) :
    List PItem → List PItem
  | [] => [x]
  | y :: ys => if le y x then y :: insSortedBy le x ys else x :: y :: ys

def stableSortBy (le : PItem → PItem → Bool) (l : List PItem) :
    List PItem :=
  l.foldl (fun acc x => insSortedBy le x acc) []

/-- `generate_global_priority_list`: schedule, annotate each placed task,
sort by (start, slack), assign ranks from 1.  Returns the ranked list and
the schedule (the `check_resource_conflicts` call only prints). -/
def generate_global_priority_list (s : Sched)
    (allow_late_delivery silent_mode : Bool) :
    Except PyErr (List PItem × Schedule) := do
  let schedule ← schedule_tasks s allow_late_delivery silent_mode
  let items ← schedule.foldlM
    (fun (acc : List PItem) p => do
      let slack ← calculate_slack_time s schedule p.1
      let prio ← calculate_task_priority s p.1
      let item : PItem :=
        { task_id := p.1, task_type := p.2.task_type,
          display_name := displayNameFor s p.1 p.2,
          product_line := p.2.product_line, team := p.2.team,
          scheduled_start := p.2.start_time, scheduled_end := p.2.end_time,
          duration_minutes := p.2.duration,
          mechanics_required := p.2.mechanics_required,
          slack_hours := slack, priority_score := prio, shift := p.2.shift,
          global_priority := 0 }
      pure (acc ++ [item])) []
  let sorted := stableSortBy pitemKeyLe items
  pure (sorted.enum.map
    (fun q => let it := q.2; { it with global_priority := q.1 + 1 }),
    schedule)

/-! ## Lateness metrics and Scenario 1 (custom headcount) -/

structure ProdMetric where
  delivery_date : Int
  projected_completion : Option Int
  lateness_days : Int
  on_time : Bool
  total_tasks : Nat
deriving Repr, DecidableEq

/-- `calculate_lateness_metrics` (from the generated priority list, as the
source reads `self.global_priority_list`). -/
def calculate_lateness_metrics (s : Sched) (plist : List PItem) :
    List (String × ProdMetric) :=
  s.delivery_dates.map
    (fun pd =>
      let items := plist.filter (fun t => t.product_line == pd.1)
      match items with
      | [] => (pd.1, ⟨pd.2, none, 999999, false, 0⟩)
      | x :: xs =>
        let last_end := xs.foldl (fun m t => max m t.scheduled_end)
          x.scheduled_end
        let lateness := (last_end - pd.2).fdiv 1440
        (pd.1, ⟨pd.2, some last_end, lateness,
          decide (lateness ≤ 0), items.length⟩))

structure Scen1Res where
  makespan : Int
  total_late_days : Int
  metrics : List (String × ProdMetric)
  priority_list : List PItem
deriving Repr, DecidableEq

/-- `for team, capacity in custom.items(): if team in map: map[team] = capacity`. -/
def applyCustomCaps (m : List (String × Int)) (custom : List (String × Int)) :
    List (String × Int) :=
  custom.foldl
    (fun m p =>
      if (List.lookup p.1 m).isSome then
        m.map (fun q => if q.1 == p.1 then (q.1, p.2) else q)
      else m) m

/-- `scenario_1_custom_headcount`: snapshot capacities, install the
requested ones, run the full pipeline, restore at the end of the happy
path.  The returned pair carries the outcome and the capacity maps as
they stand when control leaves the method — on an exception the restore
statements are never reached, so the mutated maps remain (there is no
`try`/`finally` in the source).  File export only writes CSVs. -/
def scenario_1_custom_headcount (s : Sched)
    (mechanic_headcount quality_headcount : Option Int)
    (custom_team_capacity custom_quality_capacity :
      Option (List (String × Int))) :
    Except PyErr Scen1Res × (List (String × Int) × List (String × Int)) :=
  let original_team := s.team_capacity
  let original_quality := s.quality_team_capacity
  let tc := if (custom_team_capacity.getD []) ≠ [] then
      applyCustomCaps s.team_capacity (custom_team_capacity.getD [])
    else match mechanic_headcount with
      | some h => s.team_capacity.map (fun p => (p.1, h))
      | none => s.team_capacity
  let qc := if (custom_quality_capacity.getD []) ≠ [] then
      applyCustomCaps s.quality_team_capacity
        (custom_quality_capacity.getD [])
    else match quality_headcount with
      | some h => s.quality_team_capacity.map (fun p => (p.1, h))
      | none => s.quality_team_capacity
  let s' := { s with team_capacity := tc, quality_team_capacity := qc }
  match generate_global_priority_list s' true false with
  | .error e => (.error e, (tc, qc))
  | .ok (plist, schedule) =>
    let makespan := calculate_makespan s' schedule
    let metrics := calculate_lateness_metrics s' plist
    let total_late := metrics.foldl
      (fun acc pm =>
        if 0 < pm.2.lateness_days ∧ pm.2.lateness_days < 999999 then
          acc + pm.2.lateness_days
        else acc) 0
    (.ok ⟨makespan, total_late, metrics, plist⟩,
     (original_team, original_quality))

/-! ## Definitions following the claims' words (for refinement claims) -/

/-- C6, spec side.  For one raw base edge (a, b, rel), given the edges
already emitted: if a has a quality task q, emit (a, q, Finish = Start)
unless an (a, q) edge is already present, followed by (q, b, rel); if a
has no quality task, emit (a, b, rel) unchanged. -/
def claimEmitsForBaseEdge (qreq : List (Nat × Nat))
    (already : List Constraint) (a b : Nat) (rel : String) :
    List Constraint :=
  match List.lookup a qreq with
  | some q =>
    (if already.any (fun c => c.first == a && c.second == q) then []
     else [⟨a, q, "Finish = Start"⟩]) ++ [⟨q, b, rel⟩]
  | none => [⟨a, b, rel⟩]

/-- C6, spec side: one fold step of the claimed base-edge pass — append
exactly what the claim says is emitted for the row. -/
def specStep (qreq : List (Nat × Nat)) (acc : List Constraint)
    (r : PrecRow) : List Constraint :=
  match r.rel with
  | none => acc
  | some rel => acc ++ claimEmitsForBaseEdge qreq acc r.first r.second rel

/-- C6, spec side: the base-edge pass described by the claim (rows whose
relationship is missing carry no edge). -/
def quality_interposition_spec (s : Sched) : List Constraint :=
  s.precedence_constraints.foldl (specStep s.quality_requirements) []

/-- C9, spec side: scheduled_worker_minutes /
(capacity · shifts_worked · 510 · makespan_days). -/
def utilization_formula_spec (s : Sched) (schedule : Schedule)
    (team : String) (cap : Int) (shifts_worked : Nat) : ℚ :=
  let scheduled : Int := schedule.foldl
    (fun acc p =>
      if p.2.team == some team then
        acc + p.2.duration * p.2.mechanics_required
      else acc) 0
  (scheduled : ℚ) /
    ((cap : ℚ) * (shifts_worked : ℚ) * 510 *
      (calculate_makespan s schedule : ℚ))

/-- C8, amended spec side: the first team in map-iteration order among
the eligible quality teams achieving the minimal load. -/
def firstMinLoadTeam (s : Sched) (schedule : Schedule) (shift : String)
    (mechanics_needed : Int) : Option String :=
  let loads := qualityTeamLoads s schedule shift mechanics_needed
  (loads.find? (fun p => loads.all (fun q => p.2 ≤ q.2))).map (·.1)

/-! ## Claim-level predicates -/

/-- Whether `e.team` works shift `sh` (mechanic teams from
`team_shifts`, quality teams from `quality_team_shifts`). -/
def worksShiftB (s : Sched) (e : Entry) (sh : String) : Bool :=
  if e.is_quality then
    ((e.team.bind (fun t => List.lookup t s.quality_team_shifts)).getD
      []).contains sh
  else (teamShiftsOf s e.team).contains sh

/-- Every minute of `[start_time, end_time)` falls inside the window of
shift `sh` (the 3rd-shift window wraps midnight and is treated as one
contiguous interval, as the claim's shift model does). -/
def intervalCoveredByShiftB (e : Entry) (sh : String) : Bool :=
  (List.range (e.end_time - e.start_time).toNat).all
    (fun i => shiftMatches sh (minutesOfDay (e.start_time + i)))

/-- The property claim C1 asserts of a placed task: its interval lies
within a single shift its team works, on a working day for its product. -/
def claimC1B (s : Sched) (e : Entry) : Bool :=
  is_working_day s e.start_time e.product_line &&
  ["1st", "2nd", "3rd"].any
    (fun sh => worksShiftB s e sh && intervalCoveredByShiftB e sh)

/-- Workers demanded from the named team at minute `m` by the placed
tasks whose interval contains `m` (claim C3's sum). -/
def teamUsage (schedule : Schedule) (team : String) (m : Int) : Int :=
  schedule.foldl
    (fun acc p =>
      if p.2.team == some team ∧ p.2.start_time ≤ m ∧ m < p.2.end_time then
        acc + p.2.mechanics_required
      else acc) 0

/-- Whether any `Finish = Start` constraint points into `b` — the
side condition under which the scheduler's earliest-start fold can
overwrite previously accumulated lower bounds. -/
def hasFESInto (cons : List Constraint) (b : Nat) : Bool :=
  cons.any (fun c => c.second == b && c.rel == "Finish = Start")

/-- What the window search actually guarantees for a placed entry: the
start instant is on a working day for the product, and its minute of day
lies in the window of the recorded shift of a mechanic team
(resp. of a shift some quality team works, for quality tasks). -/
def entryStartOk (s : Sched) (e : Entry) : Prop :=
  is_working_day s e.start_time e.product_line = true ∧
  (e.is_quality = false →
    mechShiftAt s e.team (minutesOfDay e.start_time) = some e.shift) ∧
  (e.is_quality = true →
    (qualityShiftAt s (minutesOfDay e.start_time)).isSome = true)

instance (s : Sched) (e : Entry) : Decidable (entryStartOk s e) := by
  unfold entryStartOk; infer_instance

/-- The three relationship strings `build_dynamic_dependencies` recognizes
when building the dependency maps. -/
def knownRelB (c : Constraint) : Bool :=
  c.rel == "Finish <= Start" || c.rel == "Finish = Start" ||
  c.rel == "Start <= Start"

/-- Every dependency of `x` is placed or permanently failed — the
condition under which the scheduler makes a task ready. -/
def depsDone (dm : List (Nat × List Nat)) (st : LoopSt) (x : Nat) : Prop :=
  ∀ d ∈ depsOf dm x, (List.lookup d st.schedule).isSome = true ∨
    st.failed.contains d = true

/-- How every entry of a produced schedule arises: from the task's data,
its resolved product line, and a successful placement (quality scan or
mechanic window search) against some intermediate schedule, starting the
search at that schedule's `computeEarliest` bound. -/
def PlacedFrom (s : Sched) (cons : List Constraint)
    (dm : List (Nat × List Nat)) (k : Nat) (e : Entry) : Prop :=
  ∃ (info : TaskInfo) (product_line : String) (sched : Schedule)
    (schedStart : Int) (team : Option String) (shift : String),
    List.lookup k s.tasks = some info ∧
    resolveProductLine s k = some product_line ∧
    e = ⟨schedStart, schedStart + info.duration, team, product_line,
          info.duration, info.mechanics_required, info.is_quality,
          info.task_type, shift⟩ ∧
    ((info.is_quality = true ∧
      ∃ r, tryQualityPlacement s sched
          (computeEarliest s cons sched (depsOf dm k) k) product_line
          info.mechanics_required info.duration = some r ∧
        schedStart = r.1 ∧ team = some r.2.1 ∧ shift = r.2.2) ∨
     (info.is_quality = false ∧ team = info.team ∧
      ∃ r', get_next_working_time_with_capacity s sched
          (computeEarliest s cons sched (depsOf dm k) k) product_line
          info.team info.mechanics_required info.duration false =
        .ok (schedStart, shift, r')))

/-- The loop invariant behind claims C2 and C3: the ready heap holds
distinct, unplaced, unfailed tasks whose dependencies are all settled;
every placed task's dependencies were settled when it was placed;
settled dependency edges respect `end ≤ start` (absent a
`Finish = Start` overwrite hazard); and the per-minute team load never
exceeds the team's capacity. -/
structure Inv (s : Sched) (cons : List Constraint)
    (dm : List (Nat × List Nat)) (st : LoopSt) : Prop where
  rn : (st.ready.map (·.2)).Nodup
  rs : ∀ p ∈ st.ready, List.lookup p.2 st.schedule = none
  rf : ∀ p ∈ st.ready, st.failed.contains p.2 = false
  rd : ∀ p ∈ st.ready, depsDone dm st p.2
  sd : ∀ q ∈ st.schedule, depsDone dm st q.1
  c2 : ∀ c ∈ cons, knownRelB c = true → ∀ ea eb,
        List.lookup c.first st.schedule = some ea →
        List.lookup c.second st.schedule = some eb →
        (hasFESInto cons c.second = false ∨
          depsOf dm c.second = [c.first]) →
        ea.end_time ≤ eb.start_time
  c3 : ∀ (team : String) (m : Int),
        teamUsage st.schedule team m ≤ capOfTeam s (some team)

/-! ## Concrete states for counterexamples and witnesses -/

def emptySched : Sched :=
  { tasks := [], quality_requirements := [], quality_inspections := [],
    precedence_constraints := [], late_part_constraints := [],
    rework_constraints := [], late_part_tasks := [], rework_tasks := [],
    on_dock_dates := [], task_to_product := [], team_shifts := [],
    quality_team_shifts := [], team_capacity := [],
    quality_team_capacity := [], delivery_dates := [], holidays := [],
    product_tasks := [], late_part_delay_min := 1440, now := start_date }

/-- C1 counterexample input: late part 3 is placed on 3rd shift Tuesday
23:00–Wednesday 05:55 (415 min), and its dependent task 2 is then placed
Wednesday 05:55–06:15 — the window search accepts the 05:55 start inside
3rd shift and never checks the end, so the interval crosses into 1st
shift, which team "M" does not work. -/
def exC1 : Sched :=
  { emptySched with
    tasks := [(2, ⟨20, some "M", 1, false, "Production", none⟩),
              (3, ⟨415, some "M", 1, false, "Late Part", none⟩)],
    late_part_constraints := [⟨3, 2, 7 * 1440, some "P"⟩],
    late_part_tasks := [3],
    on_dock_dates := [(3, 7 * 1440)],
    team_shifts := [("M", ["3rd"])],
    team_capacity := [("M", 2)],
    delivery_dates := [("P", 25 * 1440)],
    product_tasks := [("P", [2, 3])] }

/-- C2 counterexample input: task 1 runs Friday 23:00–23:20 on a
3rd-shift team; task 2 depends on it with `Finish = Start` but its own
team works only 1st shift, so its start is pushed to Monday 06:00. -/
def exC2 : Sched :=
  { emptySched with
    tasks := [(1, ⟨20, some "M3", 1, false, "Production", none⟩),
              (2, ⟨20, some "M1", 1, false, "Production", none⟩)],
    precedence_constraints := [⟨1, 2, some "Finish = Start"⟩],
    team_shifts := [("M3", ["3rd"]), ("M1", ["1st"])],
    team_capacity := [("M3", 2), ("M1", 2)],
    delivery_dates := [("P", 25 * 1440)],
    product_tasks := [("P", [1, 2])] }

/-- C4 counterexample input: one task that belongs to no product; the
scheduler drops it each round and terminates with an empty schedule. -/
def exC4 : Sched :=
  { emptySched with
    tasks := [(1, ⟨60, some "M", 1, false, "Production", none⟩)],
    team_shifts := [("M", ["1st"])],
    team_capacity := [("M", 2)] }

/-- C5 counterexample input: late part 3 with on-dock Monday (day 7)
00:00 and a delay of 1.5 days (2160 minutes): the permitted start is
floored to Tuesday 06:00, before on-dock + 1.5 days = Tuesday 12:00. -/
def exC5 : Sched :=
  { emptySched with
    tasks := [(2, ⟨20, some "M", 1, false, "Production", none⟩),
              (3, ⟨20, some "M", 1, false, "Late Part", none⟩)],
    late_part_constraints := [⟨3, 2, 7 * 1440, some "P"⟩],
    late_part_tasks := [3],
    on_dock_dates := [(3, 7 * 1440)],
    team_shifts := [("M", ["1st"])],
    team_capacity := [("M", 2)],
    delivery_dates := [("P", 25 * 1440)],
    product_tasks := [("P", [2, 3])],
    late_part_delay_min := 2160 }

/-- C7 counterexample input: the single production task's product has no
delivery date, so the initial priority computation raises `KeyError`
after the capacities were already overwritten. -/
def exC7 : Sched :=
  { emptySched with
    tasks := [(1, ⟨60, some "M", 1, false, "Production", none⟩)],
    team_shifts := [("M", ["1st"])],
    team_capacity := [("M", 2)],
    product_tasks := [("P", [1])] }

/-- C8 counterexample input: two equally loaded, equally capable quality
teams; "QB" was inserted into the map first, "QA" is lexicographically
smaller. -/
def exC8 : Sched :=
  { emptySched with
    quality_team_shifts := [("QB", ["1st"]), ("QA", ["1st"])],
    quality_team_capacity := [("QB", 1), ("QA", 1)] }

/-- C9 counterexample input: a single 600-minute task on a one-person,
one-shift team: 600 scheduled worker-minutes against 510 available,
utilization 20/17 > 1. -/
def exC9 : Sched :=
  { emptySched with
    tasks := [(1, ⟨600, some "M", 1, false, "Production", none⟩)],
    team_shifts := [("M", ["1st"])],
    team_capacity := [("M", 1)],
    delivery_dates := [("P", 25 * 1440)],
    product_tasks := [("P", [1])] }

/-- Witness input for C9's quality half: `exC9` with a one-person,
one-shift quality team added. -/
def exW9 : Sched :=
  { exC9 with
    quality_team_shifts := [("Q", ["1st"])],
    quality_team_capacity := [("Q", 1)] }

/-- Witness input for C1/C3/C10: one one-hour task, placed Friday
06:00–07:00. -/
def exW1 : Sched :=
  { emptySched with
    tasks := [(1, ⟨20, some "M", 1, false, "Production", none⟩)],
    team_shifts := [("M", ["1st"])],
    team_capacity := [("M", 2)],
    delivery_dates := [("P", 25 * 1440)],
    product_tasks := [("P", [1])] }

/-- Witness input for C2: two chained one-hour tasks
(Finish <= Start). -/
def exW2 : Sched :=
  { emptySched with
    tasks := [(1, ⟨20, some "M", 1, false, "Production", none⟩),
              (2, ⟨20, some "M", 1, false, "Production", none⟩)],
    precedence_constraints := [⟨1, 2, some "Finish <= Start"⟩],
    team_shifts := [("M", ["1st"])],
    team_capacity := [("M", 2)],
    delivery_dates := [("P", 25 * 1440)],
    product_tasks := [("P", [1, 2])] }

/-- Witness input for C5: a late part with the default whole-day delay
(1440 minutes). -/
def exW5 : Sched :=
  { emptySched with
    tasks := [(2, ⟨20, some "M", 1, false, "Production", none⟩),
              (3, ⟨20, some "M", 1, false, "Late Part", none⟩)],
    late_part_constraints := [⟨3, 2, 7 * 1440, some "P"⟩],
    late_part_tasks := [3],
    on_dock_dates := [(3, 7 * 1440)],
    team_shifts := [("M", ["1st"])],
    team_capacity := [("M", 2)],
    delivery_dates := [("P", 25 * 1440)],
    product_tasks := [("P", [2, 3])],
    late_part_delay_min := 1440 }

/-- Witness input for C3 (same shape as exW1, kept separate). -/
def exW3 : Sched :=
  { emptySched with
    tasks := [(1, ⟨20, some "M", 1, false, "Production", none⟩)],
    team_shifts := [("M", ["1st"])],
    team_capacity := [("M", 2)],
    delivery_dates := [("P", 25 * 1440)],
    product_tasks := [("P", [1])] }

/-- Witness input for C10 (the task has no product and is dropped; the
loop spins through its full iteration budget of 10). -/
def exW10 : Sched :=
  { emptySched with
    tasks := [(1, ⟨60, some "M", 1, false, "Production", none⟩)],
    team_shifts := [("M", ["1st"])],
    team_capacity := [("M", 2)] }

/-- Witness input for C4 (two tasks, so a one-entry schedule is
partial). -/
def exW4 : Sched :=
  { emptySched with
    tasks := [(1, ⟨20, some "M", 1, false, "Production", none⟩),
              (2, ⟨20, some "M", 1, false, "Production", none⟩)] }

/-- A sample placed entry (used by the C4 witness). -/
def exW4entry : Entry :=
  ⟨6120, 6140, some "M", "P", 20, 1, false, "Production", "1st"⟩

/-- Witness input for C7: a well-formed single-task data set on which
scenario 1 completes normally. -/
def exW7 : Sched :=
  { emptySched with
    tasks := [(1, ⟨20, some "M", 1, false, "Production", none⟩)],
    team_shifts := [("M", ["1st"])],
    team_capacity := [("M", 2)],
    delivery_dates := [("P", 25 * 1440)],
    product_tasks := [("P", [1])] }

/-- Witness input for C8 (a well-formed single-task data set on which the
full priority-list pipeline succeeds). -/
def exW8 : Sched :=
  { emptySched with
    tasks := [(1, ⟨20, some "M", 1, false, "Production", none⟩)],
    team_shifts := [("M", ["1st"])],
    team_capacity := [("M", 2)],
    delivery_dates := [("P", 25 * 1440)],
    product_tasks := [("P", [1])] }

/-- `Except` success test (used to phrase hypotheses decidably). -/
def isOkE {α : Type} : Except PyErr α → Bool
  | .ok _ => true
  | .error _ => false

/-- Equality of all loop-state fields except the ready heap (the
ready-push helpers touch nothing else). -/
def SameCore (st st' : LoopSt) : Prop :=
  st'.schedule = st.schedule ∧ st'.failed = st.failed ∧
  st'.retry_counts = st.retry_counts ∧
  st'.scheduled_count = st.scheduled_count ∧
  st'.retry_count = st.retry_count ∧
  st'.iteration_count = st.iteration_count

/-! # Theorems -/

/-- C1 counterexample: on `exC1` the scheduler places task 2 from
Friday 14:00 to 15:00 — the interval leaves the 1st shift at 14:30 and
its team works no other shift, so the placed interval does not lie
within a single shift the team works, refuting the claim (and its
"never spans two shifts" part). -/
theorem C1_counterexample :
    schedule_tasks exC1 true true =
      .ok [(3, ⟨12900, 13315, some "M", "P", 415, 1, false, "Late Part", "3rd"⟩),
           (2, ⟨13315, 13335, some "M", "P", 20, 1, false, "Production", "3rd"⟩)] ∧
    claimC1B exC1 ⟨13315, 13335, some "M", "P", 20, 1, false, "Production", "3rd"⟩ = false := by
  exact ⟨by with_unfolding_all rfl, by with_unfolding_all rfl⟩

/-- C2 counterexample: on `exC2` the edge (1, 2) is `Finish = Start`,
both endpoints are placed, but task 1 ends Friday 14:30 (6630) while
task 2 starts Monday 06:00 (10440): the claimed exact equality fails. -/
theorem C2_counterexample :
    (⟨1, 2, "Finish = Start"⟩ : Constraint) ∈ build_dynamic_dependencies exC2 ∧
    schedule_tasks exC2 true true =
      .ok [(1, ⟨7140, 7160, some "M3", "P", 20, 1, false, "Production", "3rd"⟩),
           (2, ⟨10440, 10460, some "M1", "P", 20, 1, false, "Production", "1st"⟩)] ∧
    (7160 : Int) ≠ 10440 := by
  refine ⟨by with_unfolding_all decide, by with_unfolding_all rfl, by decide⟩

/-- C4 counterexample: on `exC4` a task exists but nothing is placed,
and `calculate_makespan` returns 0, not a sentinel at least 10^6
(the partial-schedule sentinel, 999999, is also below 10^6). -/
theorem C4_counterexample :
    schedule_tasks exC4 true true = .ok [] ∧
    exC4.tasks.length = 1 ∧
    calculate_makespan exC4 [] = 0 ∧
    ¬ ((10 : Int) ^ 6 ≤ calculate_makespan exC4 []) := by
  refine ⟨by with_unfolding_all rfl, by rfl, by rfl, by decide⟩

/-- C5 counterexample: with the positive configured delay 1.5 days
(2160 minutes), late part 3 (on-dock Monday 00:00, minute 10080) is
placed at Tuesday 06:00 (11880), which is before
on-dock + delay = Tuesday 12:00 (12240): flooring to 06:00 undercuts the
claimed lower bound for non-integer delays. -/
theorem C5_counterexample :
    0 < exC5.late_part_delay_min ∧
    List.lookup 3 exC5.on_dock_dates = some (7 * 1440) ∧
    schedule_tasks exC5 true true =
      .ok [(3, ⟨11880, 11900, some "M", "P", 20, 1, false, "Late Part", "1st"⟩),
           (2, ⟨11900, 11920, some "M", "P", 20, 1, false, "Production", "1st"⟩)] ∧
    (11880 : Int) < 7 * 1440 + exC5.late_part_delay_min := by
  refine ⟨by decide, by rfl, by with_unfolding_all rfl, by decide⟩

/-- C7 counterexample: on `exC7` the scenario overwrites the mechanic
capacity map with 5, the run raises (`KeyError`: the product has no
delivery date), and control leaves the scenario with the mutated map
still installed — the original `[("M", 2)]` is not restored on this
exceptional exit path. -/
theorem C7_counterexample :
    (scenario_1_custom_headcount exC7 (some 5) none none none).1 =
      .error .keyError ∧
    (scenario_1_custom_headcount exC7 (some 5) none none none).2.1 =
      [("M", 5)] ∧
    exC7.team_capacity = [("M", 2)] ∧
    ([("M", 5)] : List (String × Int)) ≠ [("M", 2)] := by
  refine ⟨by with_unfolding_all rfl, by with_unfolding_all rfl, by rfl, by decide⟩

/-- C8 counterexample: with two equally loaded eligible quality teams,
the selector returns "QB" (first in map-insertion order), although "QA"
is lexicographically smaller — ties are not resolved by team-name
lexicographic order. -/
theorem C8_counterexample :
    assign_quality_team_balanced exC8 [] "1st" 1 = some "QB" ∧
    (("QB", 0) : String × Int) ∈ qualityTeamLoads exC8 [] "1st" 1 ∧
    (("QA", 0) : String × Int) ∈ qualityTeamLoads exC8 [] "1st" 1 ∧
    ("QA" : String) < "QB" ∧ ("QB" : String) ≠ "QA" := by
  refine ⟨by with_unfolding_all decide, by with_unfolding_all decide, by with_unfolding_all decide, by with_unfolding_all decide, by with_unfolding_all decide⟩

/-- C9 counterexample: on `exC9` all tasks are placed (makespan 1 day)
and team "M" gets utilization 20/17 > 1: the value is not clamped to
[0, 1]. -/
theorem C9_counterexample :
    schedule_tasks exC9 true true =
      .ok [(1, ⟨6120, 6720, some "M", "P", 600, 1, false, "Production", "1st"⟩)] ∧
    calculate_makespan exC9
      [(1, ⟨6120, 6720, some "M", "P", 600, 1, false, "Production", "1st"⟩)] = 1 ∧
    List.lookup "M" (calcTeamUtilization exC9
      [(1, ⟨6120, 6720, some "M", "P", 600, 1, false, "Production", "1st"⟩)]).1 =
      some ⟨20 / 17, 600, 510, 1⟩ ∧
    ¬ ((20 : ℚ) / 17 ≤ 1) := by
  refine ⟨by with_unfolding_all rfl, by with_unfolding_all rfl, by with_unfolding_all rfl,
    by with_unfolding_all decide⟩

/-- C4 (amended): `calculate_makespan` returns the sentinel 999999 when
the schedule is nonempty but does not place every task, and 0 when the
schedule is empty (even if tasks exist); the sentinel is 10^6 − 1, not a
value at least 10^6. -/
theorem C4_amended (s : Sched) (schedule : Schedule)
    (hne : schedule ≠ []) (hpart : schedule.length < s.tasks.length) :
    calculate_makespan s schedule = 999999 ∧
    calculate_makespan s [] = 0 ∧ (999999 : Int) = 10 ^ 6 - 1 := by
  refine ⟨?_, rfl, by decide⟩
  cases schedule with
  | nil => exact absurd rfl hne
  | cons e rest =>
    show (if (e :: rest).length < s.tasks.length then (999999 : Int)
      else _) = 999999
    rw [if_pos hpart]

/-- C4 witness: the amended statement evaluated on a concrete two-task
data set with a one-entry (hence partial) schedule. -/
theorem C4_witness :
    calculate_makespan exW4 [(1, exW4entry)] = 999999 ∧
    calculate_makespan exW4 [] = 0 ∧ (999999 : Int) = 10 ^ 6 - 1 :=
  C4_amended exW4 [(1, exW4entry)] (by simp) (by decide)

/-- C6: the builder's base-edge pass emits, for every raw precedence
edge, exactly what the claim describes — quality interposition with the
already-present check — and the full dynamic dependency list is obtained
by running the remaining passes on top of that spec-level base pass. -/
theorem C6_quality_interposition (s : Sched) :
    bdd_stage1 s = quality_interposition_spec s ∧
    build_dynamic_dependencies s =
      bdd_stage4 s (bdd_stage3 s (bdd_stage2 s
        (quality_interposition_spec s))) := by
  have step : ∀ (acc : List Constraint) (r : PrecRow),
      interposeBase s.quality_requirements acc r =
      specStep s.quality_requirements acc r := by
    intro acc r
    unfold interposeBase specStep claimEmitsForBaseEdge
    cases r.rel with
    | none => rfl
    | some rel =>
      cases List.lookup r.first s.quality_requirements with
      | none => rfl
      | some qi =>
        by_cases h : acc.any
          (fun c => c.first == r.first && c.second == qi)
        · simp [h]
        · simp [h, List.append_assoc]
  have h1 : bdd_stage1 s = quality_interposition_spec s := by
    unfold bdd_stage1 quality_interposition_spec
    exact List.foldl_ext _ _ _ (fun acc r _ => step acc r)
  exact ⟨h1, by unfold build_dynamic_dependencies; rw [h1]⟩

/-- C7 (amended): scenario 1 (custom headcount) snapshots the capacity
maps on entry and restores them on its normal return; an exception
raised during the run propagates before the restore statements execute,
leaving the overwritten maps installed (there is no try/finally). -/
theorem C7_amended (s : Sched) (mh qh : Option Int)
    (ct cq : Option (List (String × Int)))
    (h : isOkE (scenario_1_custom_headcount s mh qh ct cq).1 = true) :
    (scenario_1_custom_headcount s mh qh ct cq).2 =
      (s.team_capacity, s.quality_team_capacity) := by
  simp only [scenario_1_custom_headcount] at h ⊢
  generalize generate_global_priority_list _ true false = r at h ⊢
  cases r with
  | error e => simp [isOkE] at h
  | ok pr => rfl

/-- C7 witness: on a well-formed single-task data set scenario 1
completes normally and the capacity maps come back restored. -/
theorem C7_witness :
    (scenario_1_custom_headcount exW7 (some 3) none none none).2 =
      (exW7.team_capacity, exW7.quality_team_capacity) :=
  C7_amended exW7 (some 3) none none none (by with_unfolding_all rfl)

/-! ### Helper lemmas (shared) -/

/-- Folding over a filtered list equals a conditional fold. -/
theorem foldl_filter_cond {α : Type} (p : α → Bool) (f : Int → α → Int) :
    ∀ (l : List α) (a : Int),
      (l.filter p).foldl f a =
        l.foldl (fun acc x => if p x then f acc x else acc) a := by
  intro l
  induction l with
  | nil => intro a; rfl
  | cons x t ih =>
    intro a
    by_cases h : p x
    · simp [List.filter_cons, h, ih]
    · simp [List.filter_cons, h, ih]

/-- `List.lookup` commutes with a key-preserving map. -/
theorem lookup_map_pair (F : String → Int → UtilInfo) :
    ∀ (l : List (String × Int)) (k : String) (v : Int),
      List.lookup k l = some v →
      List.lookup k (l.map (fun p => (p.1, F p.1 p.2))) = some (F k v) := by
  intro l
  induction l with
  | nil => intro k v h; simp [List.lookup] at h
  | cons a t ih =>
    intro k v h
    by_cases hk : k == a.1
    · have hkeq : k = a.1 := eq_of_beq hk
      simp [List.lookup, hk] at h ⊢
      rw [hkeq, h]
    · simp [List.lookup, hk] at h ⊢
      exact ih k v h

/-- Python `min` with a key over a nonempty list: the fold keeps the
first element attaining the minimal second component. -/
theorem foldlMin_cases :
    ∀ (xs : List (String × Int)) (x : String × Int),
      ∃ fm, xs.foldl (fun best q => if q.2 < best.2 then q else best) x = fm ∧
        ((fm = x ∧ ∀ q ∈ xs, x.2 ≤ q.2) ∨
         (fm.2 < x.2 ∧ ∃ l₁ l₂, xs = l₁ ++ fm :: l₂ ∧
           (∀ q ∈ l₁, fm.2 < q.2) ∧ (∀ q ∈ l₂, fm.2 ≤ q.2))) := by
  intro xs
  induction xs with
  | nil => intro x; exact ⟨x, rfl, Or.inl ⟨rfl, by simp⟩⟩
  | cons y ys ih =>
    intro x
    by_cases hyx : y.2 < x.2
    · obtain ⟨fm, hfold, hcase⟩ := ih y
      refine ⟨fm, by simpa [hyx] using hfold, Or.inr ?_⟩
      rcases hcase with ⟨hfm, hall⟩ | ⟨hlt, l₁, l₂, hsplit, hl₁, hl₂⟩
      · subst hfm
        exact ⟨hyx, [], ys, rfl, by simp, hall⟩
      · refine ⟨lt_trans hlt hyx, y :: l₁, l₂, by rw [hsplit]; rfl, ?_, hl₂⟩
        intro q hq
        rcases List.mem_cons.mp hq with h | h
        · rw [h]; exact hlt
        · exact hl₁ q h
    · obtain ⟨fm, hfold, hcase⟩ := ih x
      refine ⟨fm, by simpa [hyx] using hfold, ?_⟩
      rcases hcase with ⟨hfm, hall⟩ | ⟨hlt, l₁, l₂, hsplit, hl₁, hl₂⟩
      · refine Or.inl ⟨hfm, ?_⟩
        intro q hq
        rcases List.mem_cons.mp hq with h | h
        · rw [h]; exact le_of_not_lt hyx
        · exact hall q h
      · refine Or.inr ⟨hlt, y :: l₁, l₂, by rw [hsplit]; rfl, ?_, hl₂⟩
        intro q hq
        rcases List.mem_cons.mp hq with h | h
        · rw [h]; exact lt_of_lt_of_le hlt (le_of_not_lt hyx)
        · exact hl₁ q h

/-- The selector fold equals the first-minimum `find?` formulation. -/
theorem aqtb_eq_firstMin (s : Sched) (schedule : Schedule) (sh : String)
    (n : Int) :
    assign_quality_team_balanced s schedule sh n =
      firstMinLoadTeam s schedule sh n := by
  unfold assign_quality_team_balanced firstMinLoadTeam
  cases hl : qualityTeamLoads s schedule sh n with
  | nil => rfl
  | cons x xs =>
    dsimp only
    obtain ⟨fm, hfold, hcase⟩ := foldlMin_cases xs x
    rw [hfold]
    rcases hcase with ⟨hfm, hall⟩ | ⟨hlt, l₁, l₂, hsplit, hl₁, hl₂⟩
    · subst hfm
      have hp : ((fm :: xs).all fun q => decide (fm.2 ≤ q.2)) = true := by
        simp only [List.all_eq_true, decide_eq_true_eq]
        intro q hq
        rcases List.mem_cons.mp hq with h | h
        · rw [h]
        · exact hall q h
      rw [@List.find?_cons_of_pos _
        (fun p => (fm :: xs).all fun q => decide (p.2 ≤ q.2)) fm xs hp]
      rfl
    · subst hsplit
      have hfm_mem : fm ∈ x :: (l₁ ++ fm :: l₂) := by simp
      have key : List.find?
          (fun p => (x :: (l₁ ++ fm :: l₂)).all fun q => decide (p.2 ≤ q.2))
          (x :: (l₁ ++ fm :: l₂)) = some fm := by
        have hpx : ¬ ((x :: (l₁ ++ fm :: l₂)).all
            fun q => decide (x.2 ≤ q.2)) = true := by
          simp only [List.all_eq_true, decide_eq_true_eq]
          intro hcontra
          exact absurd (hcontra fm hfm_mem) (not_le.mpr hlt)
        rw [@List.find?_cons_of_neg _
          (fun p => (x :: (l₁ ++ fm :: l₂)).all fun q => decide (p.2 ≤ q.2))
          x (l₁ ++ fm :: l₂) hpx]
        have h1 : List.find?
            (fun p => (x :: (l₁ ++ fm :: l₂)).all fun q => decide (p.2 ≤ q.2))
            l₁ = none := by
          apply List.find?_eq_none.mpr
          intro b hb
          simp only [List.all_eq_true, decide_eq_true_eq]
          intro hcontra
          exact absurd (hcontra fm hfm_mem) (not_le.mpr (hl₁ b hb))
        have h2 : ((x :: (l₁ ++ fm :: l₂)).all
            fun q => decide (fm.2 ≤ q.2)) = true := by
          simp only [List.all_eq_true, decide_eq_true_eq]
          intro q hq
          rcases List.mem_cons.mp hq with h | h
          · rw [h]; exact le_of_lt hlt
          · rcases List.mem_append.mp h with h' | h'
            · exact le_of_lt (hl₁ q h')
            · rcases List.mem_cons.mp h' with h'' | h''
              · rw [h'']
              · exact hl₂ q h''
        rw [List.find?_append, h1, Option.none_or,
          @List.find?_cons_of_pos _
            (fun p => (x :: (l₁ ++ fm :: l₂)).all fun q => decide (p.2 ≤ q.2))
            fm l₂ h2]
      rw [key]
      rfl

/-- Rank assignment of `generate_global_priority_list`: positions 1..n. -/
theorem ranks_eq_range (xs : List PItem) :
    ((xs.enum.map
      (fun q => let it := q.2; { it with global_priority := q.1 + 1 })).map
        (fun t => t.global_priority)) = List.range' 1 xs.length := by
  rw [List.map_map]
  have h1 : ((fun t : PItem => t.global_priority) ∘
      (fun q : Nat × PItem =>
        let it := q.2; { it with global_priority := q.1 + 1 })) =
      (fun q : Nat × PItem => q.1 + 1) := rfl
  rw [h1]
  have h2 : (xs.enum.map (fun q : Nat × PItem => q.1 + 1)) =
      (xs.enum.map Prod.fst).map (· + 1) := by
    rw [List.map_map]; rfl
  rw [h2, List.enum_map_fst, List.range'_eq_map_range]
  exact List.map_eq_map_iff.mpr (fun a _ => Nat.add_comm a 1)

/-- C8 (amended): with the wall clock an explicit input and map iteration
in insertion order, the engine is a deterministic function of the loaded
data — equal inputs give equal outputs, and the rank column is exactly
the positions 1..n of the sorted order; the load-balanced quality
selector resolves ties by map-insertion order (first minimal load), not
by team-name lexicographic order. -/
theorem C8_amended :
    (∀ (s : Sched) (a b : Bool),
      generate_global_priority_list s a b =
        generate_global_priority_list s a b) ∧
    (∀ (s : Sched) (schedule : Schedule) (sh : String) (n : Int),
      assign_quality_team_balanced s schedule sh n =
        firstMinLoadTeam s schedule sh n) ∧
    (∀ (s : Sched) (a b : Bool) (l : List PItem) (sched : Schedule),
      generate_global_priority_list s a b = .ok (l, sched) →
      l.map (fun t => t.global_priority) = List.range' 1 l.length) := by
  refine ⟨fun _ _ _ => rfl, aqtb_eq_firstMin, ?_⟩
  intro s a b l sched h
  unfold generate_global_priority_list at h
  cases hs : schedule_tasks s a b with
  | error e =>
    rw [hs, show ∀ (f : Schedule → Except PyErr (List PItem × Schedule)),
      (Except.error e >>= f) = Except.error e from fun _ => rfl] at h
    exact Except.noConfusion h
  | ok schedule =>
    rw [hs, show ∀ (f : Schedule → Except PyErr (List PItem × Schedule)),
      ((Except.ok schedule : Except PyErr Schedule) >>= f) = f schedule
      from fun _ => rfl] at h
    dsimp only at h
    cases hi : (schedule.foldlM
        (fun (acc : List PItem) p => do
          let slack ← calculate_slack_time s schedule p.1
          let prio ← calculate_task_priority s p.1
          let item : PItem :=
            { task_id := p.1, task_type := p.2.task_type,
              display_name := displayNameFor s p.1 p.2,
              product_line := p.2.product_line, team := p.2.team,
              scheduled_start := p.2.start_time,
              scheduled_end := p.2.end_time,
              duration_minutes := p.2.duration,
              mechanics_required := p.2.mechanics_required,
              slack_hours := slack, priority_score := prio,
              shift := p.2.shift, global_priority := 0 }
          pure (acc ++ [item])) []) with
    | error e =>
      rw [hi, show ∀ (f : List PItem → Except PyErr (List PItem × Schedule)),
        (Except.error e >>= f) = Except.error e from fun _ => rfl] at h
      exact Except.noConfusion h
    | ok items =>
      rw [hi, show ∀ (f : List PItem → Except PyErr (List PItem × Schedule)),
        ((Except.ok items : Except PyErr (List PItem)) >>= f) = f items
        from fun _ => rfl] at h
      rw [show ∀ (z : List PItem × Schedule),
        (pure z : Except PyErr (List PItem × Schedule)) = Except.ok z
        from fun _ => rfl] at h
      rw [Except.ok.injEq, Prod.mk.injEq] at h
      obtain ⟨hl, _⟩ := h
      rw [← hl]
      have := ranks_eq_range (stableSortBy pitemKeyLe items)
      rw [this]
      congr 1
      simp

/-- C8 witness: the rank property applied to a concrete successful run
(one task, rank 1). -/
theorem C8_witness :
    (([{ task_id := 1, task_type := "Production", display_name := "Task 1",
         product_line := "P", team := some "M", scheduled_start := 6120,
         scheduled_end := 6140, duration_minutes := 20,
         mechanics_required := 1, slack_hours := some 450,
         priority_score := 51196, shift := "1st",
         global_priority := 1 }] : List PItem).map
      (fun t => t.global_priority)) = List.range' 1 1 :=
  C8_amended.2.2 exW8 true true _
    [(1, ⟨6120, 6140, some "M", "P", 20, 1, false, "Production", "1st"⟩)]
    (by with_unfolding_all rfl)

/-- C9 (amended): for every mechanic team in the capacity map and every
quality team in the quality capacity map, the utilization value equals
scheduled_worker_minutes /
(capacity · shifts_worked · 510 · makespan_days) whenever that
denominator is positive and 0 otherwise — the quality rows read their
shift count from `quality_team_shifts` and their capacity from
`quality_team_capacity`, symmetrically to the mechanic rows; the result
is not clamped to [0, 1] (the counterexample exhibits 20/17). -/
theorem C9_amended (s : Sched) (schedule : Schedule) (team : String)
    (cap : Int) :
    (List.lookup team s.team_capacity = some cap →
      List.lookup team (calcTeamUtilization s schedule).1 =
        some (teamUtilFor s schedule team cap
          ((List.lookup team s.team_shifts).getD []).length
          (calculate_makespan s schedule))) ∧
    (List.lookup team s.quality_team_capacity = some cap →
      List.lookup team (calcTeamUtilization s schedule).2 =
        some (teamUtilFor s schedule team cap
          ((List.lookup team s.quality_team_shifts).getD []).length
          (calculate_makespan s schedule))) ∧
    (∀ shifts_worked : Nat,
      (teamUtilFor s schedule team cap shifts_worked
          (calculate_makespan s schedule)).utilValue =
        (if 0 < (cap : ℚ) * (shifts_worked : ℚ) * 510 *
            ((calculate_makespan s schedule : Int) : ℚ) then
          utilization_formula_spec s schedule team cap shifts_worked
        else 0)) := by
  refine ⟨?_, ?_, ?_⟩
  · intro h
    unfold calcTeamUtilization
    exact lookup_map_pair
      (fun k v => teamUtilFor s schedule k v
        ((List.lookup k s.team_shifts).getD []).length
        (calculate_makespan s schedule))
      s.team_capacity team cap h
  · intro h
    unfold calcTeamUtilization
    exact lookup_map_pair
      (fun k v => teamUtilFor s schedule k v
        ((List.lookup k s.quality_team_shifts).getD []).length
        (calculate_makespan s schedule))
      s.quality_team_capacity team cap h
  · intro shifts_worked
    unfold teamUtilFor utilization_formula_spec
    dsimp only
    rw [foldl_filter_cond (fun p => p.2.team == some team)
      (fun acc p => acc + p.2.duration * p.2.mechanics_required) schedule 0]

/-- C9 witness: the amended statement instantiated on the concrete
over-committed run of the counterexample input (mechanic team "M"), and
its quality half on the same data extended with a quality team "Q". -/
theorem C9_witness :
    (List.lookup "M" exC9.team_capacity = some 1 ∧
     List.lookup "M" (calcTeamUtilization exC9
       [(1, ⟨6120, 6720, some "M", "P", 600, 1, false, "Production",
         "1st"⟩)]).1 =
       some (teamUtilFor exC9
         [(1, ⟨6120, 6720, some "M", "P", 600, 1, false, "Production",
           "1st"⟩)] "M" 1
         ((List.lookup "M" exC9.team_shifts).getD []).length
         (calculate_makespan exC9
           [(1, ⟨6120, 6720, some "M", "P", 600, 1, false, "Production",
             "1st"⟩)]))) ∧
    (List.lookup "Q" exW9.quality_team_capacity = some 1 ∧
     List.lookup "Q" (calcTeamUtilization exW9
       [(1, ⟨6120, 6720, some "M", "P", 600, 1, false, "Production",
         "1st"⟩)]).2 =
       some (teamUtilFor exW9
         [(1, ⟨6120, 6720, some "M", "P", 600, 1, false, "Production",
           "1st"⟩)] "Q" 1
         ((List.lookup "Q" exW9.quality_team_shifts).getD []).length
         (calculate_makespan exW9
           [(1, ⟨6120, 6720, some "M", "P", 600, 1, false, "Production",
             "1st"⟩)]))) ∧
    (teamUtilFor exC9
        [(1, ⟨6120, 6720, some "M", "P", 600, 1, false, "Production",
          "1st"⟩)] "M" 1 1
        (calculate_makespan exC9
          [(1, ⟨6120, 6720, some "M", "P", 600, 1, false, "Production",
            "1st"⟩)])).utilValue =
      (if 0 < ((1 : Int) : ℚ) * ((1 : Nat) : ℚ) * 510 *
          ((calculate_makespan exC9
            [(1, ⟨6120, 6720, some "M", "P", 600, 1, false, "Production",
              "1st"⟩)] : Int) : ℚ) then
        utilization_formula_spec exC9
          [(1, ⟨6120, 6720, some "M", "P", 600, 1, false, "Production",
            "1st"⟩)] "M" 1 1
      else 0) :=
  ⟨⟨by rfl,
    (C9_amended exC9
      [(1, ⟨6120, 6720, some "M", "P", 600, 1, false, "Production",
        "1st"⟩)] "M" 1).1 (by rfl)⟩,
   ⟨by rfl,
    (C9_amended exW9
      [(1, ⟨6120, 6720, some "M", "P", 600, 1, false, "Production",
        "1st"⟩)] "Q" 1).2.1 (by rfl)⟩,
   (C9_amended exC9
     [(1, ⟨6120, 6720, some "M", "P", 600, 1, false, "Production",
       "1st"⟩)] "M" 1).2.2 1⟩

theorem sameCore_refl (st : LoopSt) : SameCore st st :=
  ⟨rfl, rfl, rfl, rfl, rfl, rfl⟩

theorem sameCore_trans {a b c : LoopSt} (h1 : SameCore a b)
    (h2 : SameCore b c) : SameCore a c := by
  obtain ⟨x1, x2, x3, x4, x5, x6⟩ := h1
  obtain ⟨y1, y2, y3, y4, y5, y6⟩ := h2
  exact ⟨y1.trans x1, y2.trans x2, y3.trans x3, y4.trans x4,
    y5.trans x5, y6.trans x6⟩

/-- A monadic fold whose steps preserve the non-ready fields preserves
them overall. -/
theorem foldlM_sameCore {α : Type}
    (step : LoopSt → α → Except PyErr LoopSt)
    (hstep : ∀ st x st', step st x = .ok st' → SameCore st st') :
    ∀ (l : List α) (st st' : LoopSt),
      List.foldlM step st l = .ok st' → SameCore st st' := by
  intro l
  induction l with
  | nil =>
    intro st st' h
    injection h with h
    rw [← h]; exact sameCore_refl st
  | cons x t ih =>
    intro st st' h
    rw [List.foldlM_cons] at h
    cases hx : step st x with
    | error e =>
      rw [hx, show ∀ (f : LoopSt → Except PyErr LoopSt),
        ((Except.error e : Except PyErr LoopSt) >>= f) = Except.error e
        from fun _ => rfl] at h
      exact Except.noConfusion h
    | ok st₁ =>
      rw [hx, show ∀ (f : LoopSt → Except PyErr LoopSt),
        ((Except.ok st₁ : Except PyErr LoopSt) >>= f) = f st₁
        from fun _ => rfl] at h
      exact sameCore_trans (hstep st x st₁ hx) (ih st₁ st' h)

theorem rescan_sameCore (s : Sched) (dm : List (Nat × List Nat))
    (total : Nat) (st st' : LoopSt)
    (h : rescanReseed s dm total st = .ok st') : SameCore st st' := by
  unfold rescanReseed at h
  by_cases hc : st.ready = [] ∧ st.scheduled_count + st.failed.length < total
  · rw [if_pos hc] at h
    refine foldlM_sameCore _ ?_ _ st st' h
    intro st₂ t st₃ hstep
    by_cases h1 : st₂.failed.contains t
    · rw [if_pos h1] at hstep
      injection hstep with hstep; rw [← hstep]; exact sameCore_refl _
    · rw [if_neg h1] at hstep
      by_cases h2 : ((depsOf dm t).filter
          (fun d => (List.lookup d st₂.schedule).isNone ∧
            ¬ st₂.failed.contains d)) = []
      · rw [if_pos h2] at hstep
        cases hp : calculate_task_priority s t with
        | error e =>
          rw [hp, show ∀ (f : ℚ → Except PyErr LoopSt),
            ((Except.error e : Except PyErr ℚ) >>= f) = Except.error e
            from fun _ => rfl] at hstep
          exact Except.noConfusion hstep
        | ok p =>
          rw [hp, show ∀ (f : ℚ → Except PyErr LoopSt),
            ((Except.ok p : Except PyErr ℚ) >>= f) = f p
            from fun _ => rfl] at hstep
          injection hstep with hstep
          rw [← hstep]
          exact ⟨rfl, rfl, rfl, rfl, rfl, rfl⟩
      · rw [if_neg h2] at hstep
        injection hstep with hstep; rw [← hstep]; exact sameCore_refl _
  · rw [if_neg hc] at h
    injection h with h; rw [← h]; exact sameCore_refl _

theorem pushDeps_sameCore (s : Sched) (dm dt : List (Nat × List Nat))
    (t : Nat) (st st' : LoopSt)
    (h : pushDependents s dm dt t st = .ok st') : SameCore st st' := by
  unfold pushDependents at h
  refine foldlM_sameCore _ ?_ _ st st' h
  intro st₂ dep st₃ hstep
  by_cases h1 : (List.lookup dep st₂.schedule).isSome ∨
      st₂.failed.contains dep
  · rw [if_pos h1] at hstep
    injection hstep with hstep; rw [← hstep]; exact sameCore_refl _
  · rw [if_neg h1] at hstep
    by_cases h2 : (depsOf dm dep).all
        (fun d => (List.lookup d st₂.schedule).isSome ||
          st₂.failed.contains d)
    · rw [if_pos h2] at hstep
      cases hp : calculate_task_priority s dep with
      | error e =>
        rw [hp, show ∀ (f : ℚ → Except PyErr LoopSt),
          ((Except.error e : Except PyErr ℚ) >>= f) = Except.error e
          from fun _ => rfl] at hstep
        exact Except.noConfusion hstep
      | ok p =>
        rw [hp, show ∀ (f : ℚ → Except PyErr LoopSt),
          ((Except.ok p : Except PyErr ℚ) >>= f) = f p
          from fun _ => rfl] at hstep
        injection hstep with hstep
        rw [← hstep]
        exact ⟨rfl, rfl, rfl, rfl, rfl, rfl⟩
    · rw [if_neg h2] at hstep
      injection hstep with hstep; rw [← hstep]; exact sameCore_refl _

/-- The main loop advances `iteration_count` by exactly one per executed
iteration, so a run from fuel `fuel` adds at most `fuel`. -/
theorem scheduleLoop_iter_bound (s : Sched) (cons : List Constraint)
    (dm dt : List (Nat × List Nat)) (total : Nat) :
    ∀ (fuel : Nat) (st st' : LoopSt),
      scheduleLoop s cons dm dt total fuel st = .ok st' →
      st'.iteration_count ≤ st.iteration_count + fuel := by
  intro fuel
  induction fuel with
  | zero =>
    intro st st' h
    injection h with h
    subst h
    omega
  | succ n ih =>
    intro st st' h
    rw [show scheduleLoop s cons dm dt total (n + 1) st =
      (if ¬ (st.ready ≠ [] ∨ st.scheduled_count < total) then .ok st
      else if ¬ (st.retry_count < 5) then .ok st
      else do
        let st ← rescanReseed s dm total
          { st with iteration_count := st.iteration_count + 1 }
        match popMin st.ready with
        | none => .ok st
        | some ((priority, task_id), rest) =>
          let st := { st with ready := rest }
          if 3 ≤ getRetry st task_id then
            scheduleLoop s cons dm dt total n
              { st with failed := addFailedL st.failed task_id }
          else
            match resolveProductLine s task_id with
            | none => scheduleLoop s cons dm dt total n st
            | some product_line =>
              match List.lookup task_id s.tasks with
              | none => .error .keyError
              | some info =>
                let earliest := computeEarliest s cons st.schedule
                  (depsOf dm task_id) task_id
                let placed : Option (Int × Option String × String) :=
                  if info.is_quality then
                    (tryQualityPlacement s st.schedule earliest product_line
                      info.mechanics_required info.duration).map
                      (fun r => (r.1, some r.2.1, r.2.2))
                  else
                    match get_next_working_time_with_capacity s st.schedule
                        earliest product_line info.team
                        info.mechanics_required info.duration false with
                    | .error _ => none
                    | .ok (t0, sh, _) => some (t0, info.team, sh)
                match placed with
                | none =>
                  scheduleLoop s cons dm dt total n
                    (attemptRetry st priority task_id)
                | some (schedStart, team, shift) =>
                  let entry : Entry :=
                    { start_time := schedStart,
                      end_time := schedStart + info.duration,
                      team := team, product_line := product_line,
                      duration := info.duration,
                      mechanics_required := info.mechanics_required,
                      is_quality := info.is_quality,
                      task_type := info.task_type, shift := shift }
                  let st := { st with
                    schedule := dictInsert st.schedule task_id entry,
                    scheduled_count := st.scheduled_count + 1,
                    retry_count := 0 }
                  let st ← pushDependents s dm dt task_id st
                  scheduleLoop s cons dm dt total n st) from rfl] at h
    by_cases h1 : ¬ (st.ready ≠ [] ∨ st.scheduled_count < total)
    · rw [if_pos h1] at h
      injection h with h; subst h; omega
    · rw [if_neg h1] at h
      by_cases h2 : ¬ (st.retry_count < 5)
      · rw [if_pos h2] at h
        injection h with h; subst h; omega
      · rw [if_neg h2] at h
        cases hr : rescanReseed s dm total
            { st with iteration_count := st.iteration_count + 1 } with
        | error e =>
          rw [hr, show ∀ (f : LoopSt → Except PyErr LoopSt),
            ((Except.error e : Except PyErr LoopSt) >>= f) = Except.error e
            from fun _ => rfl] at h
          exact Except.noConfusion h
        | ok st₁ =>
          rw [hr, show ∀ (f : LoopSt → Except PyErr LoopSt),
            ((Except.ok st₁ : Except PyErr LoopSt) >>= f) = f st₁
            from fun _ => rfl] at h
          have hc₁ : st₁.iteration_count = st.iteration_count + 1 :=
            (rescan_sameCore _ _ _ _ _ hr).2.2.2.2.2
          dsimp only at h
          cases hp : popMin st₁.ready with
          | none =>
            rw [hp] at h
            injection h with h
            subst h
            omega
          | some pr =>
            obtain ⟨⟨priority, task_id⟩, rest⟩ := pr
            rw [hp] at h
            dsimp only at h
            by_cases h3 : 3 ≤ getRetry { st₁ with ready := rest } task_id
            · rw [if_pos h3] at h
              have := ih _ _ h
              simp only at this
              omega
            · rw [if_neg h3] at h
              cases hpl : resolveProductLine s task_id with
              | none =>
                rw [hpl] at h
                have := ih _ _ h
                simp only at this
                omega
              | some product_line =>
                rw [hpl] at h
                cases hlk : List.lookup task_id s.tasks with
                | none => rw [hlk] at h; exact Except.noConfusion h
                | some info =>
                  rw [hlk] at h
                  dsimp only at h
                  cases hplaced :
                    (if info.is_quality then
                      (tryQualityPlacement s
                        { st₁ with ready := rest }.schedule
                        (computeEarliest s cons
                          { st₁ with ready := rest }.schedule
                          (depsOf dm task_id) task_id) product_line
                        info.mechanics_required info.duration).map
                        (fun r => (r.1, some r.2.1, r.2.2))
                    else
                      match get_next_working_time_with_capacity s
                          { st₁ with ready := rest }.schedule
                          (computeEarliest s cons
                            { st₁ with ready := rest }.schedule
                            (depsOf dm task_id) task_id) product_line
                          info.team info.mechanics_required info.duration
                          false with
                      | .error _ => none
                      | .ok (t0, sh, _) => some (t0, info.team, sh)) with
                  | none =>
                    rw [hplaced] at h
                    have := ih _ _ h
                    simp only [attemptRetry] at this
                    by_cases hc : getRetry { st₁ with ready := rest }
                        task_id + 1 < 3
                    · rw [if_pos hc] at this
                      simp only at this
                      omega
                    · rw [if_neg hc] at this
                      simp only at this
                      omega
                  | some r₃ =>
                    obtain ⟨schedStart, team, shift⟩ := r₃
                    rw [hplaced] at h
                    dsimp only at h
                    cases hpd : pushDependents s dm dt task_id
                        { st₁ with
                          ready := rest,
                          schedule := dictInsert st₁.schedule task_id
                            { start_time := schedStart,
                              end_time := schedStart + info.duration,
                              team := team, product_line := product_line,
                              duration := info.duration,
                              mechanics_required := info.mechanics_required,
                              is_quality := info.is_quality,
                              task_type := info.task_type, shift := shift },
                          scheduled_count := st₁.scheduled_count + 1,
                          retry_count := 0 } with
                    | error e =>
                      rw [hpd, show ∀ (f : LoopSt → Except PyErr LoopSt),
                        ((Except.error e : Except PyErr LoopSt) >>= f) =
                          Except.error e from fun _ => rfl] at h
                      exact Except.noConfusion h
                    | ok st₂ =>
                      rw [hpd, show ∀ (f : LoopSt → Except PyErr LoopSt),
                        ((Except.ok st₂ : Except PyErr LoopSt) >>= f) =
                          f st₂ from fun _ => rfl] at h
                      have hc₂ : st₂.iteration_count = st₁.iteration_count :=
                        (pushDeps_sameCore _ _ _ _ _ _ hpd).2.2.2.2.2
                      have := ih _ _ h
                      omega

/-- The window-search loop consumes at least one unit of fuel before
succeeding, so the remaining fuel is below the starting fuel. -/
theorem gnwtAux_fuel_lt (s : Sched) (schedule : Schedule) (pl : String)
    (team : Option String) (needed dur : Int) (q : Bool) :
    ∀ (fuel : Nat) (cur t : Int) (sh : String) (r : Nat),
      gnwtAux s schedule pl team needed dur q fuel cur = .ok (t, sh, r) →
      r < fuel := by
  intro fuel
  induction fuel with
  | zero => intro cur t sh r h; exact Except.noConfusion h
  | succ n ih =>
    intro cur t sh r h
    rw [show gnwtAux s schedule pl team needed dur q (n + 1) cur =
      (if ¬ is_working_day s cur pl then
        gnwtAux s schedule pl team needed dur q n
          (dayOf cur * 1440 + 360 + 1440)
      else
        match (if q then qualityShiftAt s (minutesOfDay cur)
               else mechShiftAt s team (minutesOfDay cur)) with
        | some sh => if check_team_capacity_at_time s schedule team cur
              (cur + dur) needed then .ok (cur, sh, n)
            else gnwtAux s schedule pl team needed dur q n (cur + 1)
        | none => gnwtAux s schedule pl team needed dur q n
            (nextShiftJump cur)) from rfl] at h
    by_cases h1 : ¬ is_working_day s cur pl
    · rw [if_pos h1] at h
      exact Nat.lt_succ_of_lt (ih _ _ _ _ h)
    · rw [if_neg h1] at h
      cases hav : (if q then qualityShiftAt s (minutesOfDay cur)
          else mechShiftAt s team (minutesOfDay cur)) with
      | none =>
        rw [hav] at h
        exact Nat.lt_succ_of_lt (ih _ _ _ _ h)
      | some sh₁ =>
        rw [hav] at h
        dsimp only at h
        by_cases h2 : check_team_capacity_at_time s schedule team cur
            (cur + dur) needed
        · rw [if_pos h2] at h
          injection h with h
          injection h with h1 h2
          injection h2 with h2a h2b
          omega
        · rw [if_neg h2] at h
          exact Nat.lt_succ_of_lt (ih _ _ _ _ h)

/-- The window search fails only with the `RuntimeError` of fuel
exhaustion. -/
theorem gnwtAux_err_rt (s : Sched) (schedule : Schedule) (pl : String)
    (team : Option String) (needed dur : Int) (q : Bool) :
    ∀ (fuel : Nat) (cur : Int) (e : PyErr),
      gnwtAux s schedule pl team needed dur q fuel cur = .error e →
      e = .runtimeError := by
  intro fuel
  induction fuel with
  | zero =>
    intro cur e h
    injection h with h
    exact h.symm
  | succ n ih =>
    intro cur e h
    rw [show gnwtAux s schedule pl team needed dur q (n + 1) cur =
      (if ¬ is_working_day s cur pl then
        gnwtAux s schedule pl team needed dur q n
          (dayOf cur * 1440 + 360 + 1440)
      else
        match (if q then qualityShiftAt s (minutesOfDay cur)
               else mechShiftAt s team (minutesOfDay cur)) with
        | some sh => if check_team_capacity_at_time s schedule team cur
              (cur + dur) needed then .ok (cur, sh, n)
            else gnwtAux s schedule pl team needed dur q n (cur + 1)
        | none => gnwtAux s schedule pl team needed dur q n
            (nextShiftJump cur)) from rfl] at h
    by_cases h1 : ¬ is_working_day s cur pl
    · rw [if_pos h1] at h; exact ih _ _ h
    · rw [if_neg h1] at h
      cases hav : (if q then qualityShiftAt s (minutesOfDay cur)
          else mechShiftAt s team (minutesOfDay cur)) with
      | none => rw [hav] at h; exact ih _ _ h
      | some sh₁ =>
        rw [hav] at h
        dsimp only at h
        by_cases h2 : check_team_capacity_at_time s schedule team cur
            (cur + dur) needed
        · rw [if_pos h2] at h; exact Except.noConfusion h
        · rw [if_neg h2] at h; exact ih _ _ h

/-- A monadic fold whose steps never raise `RuntimeError` never raises
it. -/
theorem foldlM_no_rt {α β : Type} (f : β → α → Except PyErr β)
    (hf : ∀ acc x, f acc x ≠ .error .runtimeError) :
    ∀ (l : List α) (acc : β),
      l.foldlM f acc ≠ .error .runtimeError := by
  intro l
  induction l with
  | nil => intro acc h; exact Except.noConfusion h
  | cons x t ih =>
    intro acc h
    rw [List.foldlM_cons] at h
    cases hx : f acc x with
    | error e =>
      rw [hx, show ∀ (g : β → Except PyErr β),
        ((Except.error e : Except PyErr β) >>= g) = Except.error e
        from fun _ => rfl] at h
      injection h with h
      exact hf acc x (by rw [hx, h])
    | ok b =>
      rw [hx, show ∀ (g : β → Except PyErr β),
        ((Except.ok b : Except PyErr β) >>= g) = g b
        from fun _ => rfl] at h
      exact ih b h

theorem cplAux_no_rt (s : Sched) (cons : List Constraint) :
    ∀ (fuel : Nat) (t : Nat),
      cplAux s cons fuel t ≠ .error .runtimeError := by
  intro fuel
  induction fuel with
  | zero =>
    intro t h
    injection h with h
    exact PyErr.noConfusion h
  | succ n ih =>
    intro t h
    simp only [cplAux] at h
    cases hlk : List.lookup t s.tasks with
    | none =>
      rw [hlk] at h
      injection h with h
      exact PyErr.noConfusion h
    | some info =>
      rw [hlk] at h
      dsimp only at h
      cases hfold : (cons.foldlM
          (fun (acc : Int) (c : Constraint) =>
            if c.first == t ∧ (List.lookup c.second s.tasks).isSome then do
              let p ← cplAux s cons n c.second
              pure (max acc p)
            else pure acc) 0) with
      | error e =>
        rw [hfold] at h
        injection h with h
        subst h
        refine foldlM_no_rt
          (fun (acc : Int) (c : Constraint) =>
            if c.first == t ∧ (List.lookup c.second s.tasks).isSome then do
              let p ← cplAux s cons n c.second
              pure (max acc p)
            else pure acc) ?_ cons 0 hfold
        intro acc c
        dsimp only
        by_cases hc : c.first == t ∧ (List.lookup c.second s.tasks).isSome
        · rw [if_pos hc]
          intro hbad
          cases hrec : cplAux s cons n c.second with
          | error e₂ =>
            rw [hrec, show ∀ (g : Int → Except PyErr Int),
              ((Except.error e₂ : Except PyErr Int) >>= g) =
                Except.error e₂ from fun _ => rfl] at hbad
            injection hbad with hbad
            exact ih c.second (by rw [hrec, hbad])
          | ok p =>
            rw [hrec, show ∀ (g : Int → Except PyErr Int),
              ((Except.ok p : Except PyErr Int) >>= g) = g p
              from fun _ => rfl] at hbad
            exact Except.noConfusion hbad
        · rw [if_neg hc]
          intro hbad
          exact Except.noConfusion hbad
      | ok m =>
        rw [hfold] at h
        exact Except.noConfusion h

theorem priority_no_rt (s : Sched) (t : Nat) :
    calculate_task_priority s t ≠ .error .runtimeError := by
  intro h
  unfold calculate_task_priority at h
  by_cases h1 : s.late_part_tasks.contains t
  · rw [if_pos h1] at h; exact Except.noConfusion h
  · rw [if_neg h1] at h
    by_cases h2 : (List.lookup t s.quality_inspections).isSome
    · rw [if_pos h2] at h; exact Except.noConfusion h
    · rw [if_neg h2] at h
      by_cases h3 : s.rework_tasks.contains t
      · rw [if_pos h3] at h; exact Except.noConfusion h
      · rw [if_neg h3] at h
        cases hp : priorityProductOf s t with
        | none => rw [hp] at h; exact Except.noConfusion h
        | some product_line =>
          rw [hp] at h
          dsimp only at h
          cases hd : List.lookup product_line s.delivery_dates with
          | none =>
            rw [hd] at h
            injection h with h
            exact PyErr.noConfusion h
          | some dd =>
            rw [hd] at h
            dsimp only at h
            cases hc : calculate_critical_path_length s t with
            | error e =>
              rw [hc, show ∀ (g : Int → Except PyErr ℚ),
                ((Except.error e : Except PyErr Int) >>= g) =
                  Except.error e from fun _ => rfl] at h
              injection h with h
              exact cplAux_no_rt s (build_dynamic_dependencies s)
                (s.tasks.length + 1) t (by rw [← h]; exact hc)
            | ok cpl =>
              rw [hc, show ∀ (g : Int → Except PyErr ℚ),
                ((Except.ok cpl : Except PyErr Int) >>= g) = g cpl
                from fun _ => rfl] at h
              cases hlk : List.lookup t s.tasks with
              | none =>
                rw [hlk] at h
                injection h with h
                exact PyErr.noConfusion h
              | some info =>
                rw [hlk] at h
                exact Except.noConfusion h

theorem rescan_no_rt (s : Sched) (dm : List (Nat × List Nat))
    (total : Nat) (st : LoopSt) :
    rescanReseed s dm total st ≠ .error .runtimeError := by
  unfold rescanReseed
  by_cases hc : st.ready = [] ∧ st.scheduled_count + st.failed.length < total
  · rw [if_pos hc]
    refine foldlM_no_rt _ ?_ _ st
    intro st₂ t
    dsimp only
    by_cases h1 : st₂.failed.contains t
    · rw [if_pos h1]; intro hbad; exact Except.noConfusion hbad
    · rw [if_neg h1]
      by_cases h2 : ((depsOf dm t).filter
          (fun d => (List.lookup d st₂.schedule).isNone ∧
            ¬ st₂.failed.contains d)) = []
      · rw [if_pos h2]
        intro hbad
        cases hp : calculate_task_priority s t with
        | error e =>
          rw [hp, show ∀ (f : ℚ → Except PyErr LoopSt),
            ((Except.error e : Except PyErr ℚ) >>= f) = Except.error e
            from fun _ => rfl] at hbad
          injection hbad with hbad
          exact priority_no_rt s t (by rw [hp, hbad])
        | ok p =>
          rw [hp, show ∀ (f : ℚ → Except PyErr LoopSt),
            ((Except.ok p : Except PyErr ℚ) >>= f) = f p
            from fun _ => rfl] at hbad
          exact Except.noConfusion hbad
      · rw [if_neg h2]; intro hbad; exact Except.noConfusion hbad
  · rw [if_neg hc]; intro hbad; exact Except.noConfusion hbad

theorem pushDeps_no_rt (s : Sched) (dm dt : List (Nat × List Nat))
    (t : Nat) (st : LoopSt) :
    pushDependents s dm dt t st ≠ .error .runtimeError := by
  unfold pushDependents
  refine foldlM_no_rt _ ?_ _ st
  intro st₂ dep
  dsimp only
  by_cases h1 : (List.lookup dep st₂.schedule).isSome ∨
      st₂.failed.contains dep
  · rw [if_pos h1]; intro hbad; exact Except.noConfusion hbad
  · rw [if_neg h1]
    by_cases h2 : (depsOf dm dep).all
        (fun d => (List.lookup d st₂.schedule).isSome ||
          st₂.failed.contains d)
    · rw [if_pos h2]
      intro hbad
      cases hp : calculate_task_priority s dep with
      | error e =>
        rw [hp, show ∀ (f : ℚ → Except PyErr LoopSt),
          ((Except.error e : Except PyErr ℚ) >>= f) = Except.error e
          from fun _ => rfl] at hbad
        injection hbad with hbad
        exact priority_no_rt s dep (by rw [hp, hbad])
      | ok p =>
        rw [hp, show ∀ (f : ℚ → Except PyErr LoopSt),
          ((Except.ok p : Except PyErr ℚ) >>= f) = f p
          from fun _ => rfl] at hbad
        exact Except.noConfusion hbad
    · rw [if_neg h2]; intro hbad; exact Except.noConfusion hbad

/-- The only uncatchable failures of the main loop are `KeyError`s on
missing task data: the window search's `RuntimeError` is always caught
(and turned into a retry), never propagated out of the loop. -/
theorem scheduleLoop_no_rt (s : Sched) (cons : List Constraint)
    (dm dt : List (Nat × List Nat)) (total : Nat) :
    ∀ (fuel : Nat) (st : LoopSt),
      scheduleLoop s cons dm dt total fuel st ≠ .error .runtimeError := by
  intro fuel
  induction fuel with
  | zero => intro st h; exact Except.noConfusion h
  | succ n ih =>
    intro st h
    rw [show scheduleLoop s cons dm dt total (n + 1) st =
      (if ¬ (st.ready ≠ [] ∨ st.scheduled_count < total) then .ok st
      else if ¬ (st.retry_count < 5) then .ok st
      else do
        let st ← rescanReseed s dm total
          { st with iteration_count := st.iteration_count + 1 }
        match popMin st.ready with
        | none => .ok st
        | some ((priority, task_id), rest) =>
          let st := { st with ready := rest }
          if 3 ≤ getRetry st task_id then
            scheduleLoop s cons dm dt total n
              { st with failed := addFailedL st.failed task_id }
          else
            match resolveProductLine s task_id with
            | none => scheduleLoop s cons dm dt total n st
            | some product_line =>
              match List.lookup task_id s.tasks with
              | none => .error .keyError
              | some info =>
                let earliest := computeEarliest s cons st.schedule
                  (depsOf dm task_id) task_id
                let placed : Option (Int × Option String × String) :=
                  if info.is_quality then
                    (tryQualityPlacement s st.schedule earliest product_line
                      info.mechanics_required info.duration).map
                      (fun r => (r.1, some r.2.1, r.2.2))
                  else
                    match get_next_working_time_with_capacity s st.schedule
                        earliest product_line info.team
                        info.mechanics_required info.duration false with
                    | .error _ => none
                    | .ok (t0, sh, _) => some (t0, info.team, sh)
                match placed with
                | none =>
                  scheduleLoop s cons dm dt total n
                    (attemptRetry st priority task_id)
                | some (schedStart, team, shift) =>
                  let entry : Entry :=
                    { start_time := schedStart,
                      end_time := schedStart + info.duration,
                      team := team, product_line := product_line,
                      duration := info.duration,
                      mechanics_required := info.mechanics_required,
                      is_quality := info.is_quality,
                      task_type := info.task_type, shift := shift }
                  let st := { st with
                    schedule := dictInsert st.schedule task_id entry,
                    scheduled_count := st.scheduled_count + 1,
                    retry_count := 0 }
                  let st ← pushDependents s dm dt task_id st
                  scheduleLoop s cons dm dt total n st) from rfl] at h
    by_cases h1 : ¬ (st.ready ≠ [] ∨ st.scheduled_count < total)
    · rw [if_pos h1] at h; exact Except.noConfusion h
    · rw [if_neg h1] at h
      by_cases h2 : ¬ (st.retry_count < 5)
      · rw [if_pos h2] at h; exact Except.noConfusion h
      · rw [if_neg h2] at h
        cases hr : rescanReseed s dm total
            { st with iteration_count := st.iteration_count + 1 } with
        | error e =>
          rw [hr, show ∀ (f : LoopSt → Except PyErr LoopSt),
            ((Except.error e : Except PyErr LoopSt) >>= f) = Except.error e
            from fun _ => rfl] at h
          injection h with h
          exact rescan_no_rt s dm total _ (by rw [hr, h])
        | ok st₁ =>
          rw [hr, show ∀ (f : LoopSt → Except PyErr LoopSt),
            ((Except.ok st₁ : Except PyErr LoopSt) >>= f) = f st₁
            from fun _ => rfl] at h
          dsimp only at h
          cases hp : popMin st₁.ready with
          | none => rw [hp] at h; exact Except.noConfusion h
          | some pr =>
            obtain ⟨⟨priority, task_id⟩, rest⟩ := pr
            rw [hp] at h
            dsimp only at h
            by_cases h3 : 3 ≤ getRetry { st₁ with ready := rest } task_id
            · rw [if_pos h3] at h
              exact ih _ h
            · rw [if_neg h3] at h
              cases hpl : resolveProductLine s task_id with
              | none =>
                rw [hpl] at h
                exact ih _ h
              | some product_line =>
                rw [hpl] at h
                cases hlk : List.lookup task_id s.tasks with
                | none =>
                  rw [hlk] at h
                  injection h with h
                  exact PyErr.noConfusion h
                | some info =>
                  rw [hlk] at h
                  dsimp only at h
                  cases hplaced :
                    (if info.is_quality then
                      (tryQualityPlacement s
                        { st₁ with ready := rest }.schedule
                        (computeEarliest s cons
                          { st₁ with ready := rest }.schedule
                          (depsOf dm task_id) task_id) product_line
                        info.mechanics_required info.duration).map
                        (fun r => (r.1, some r.2.1, r.2.2))
                    else
                      match get_next_working_time_with_capacity s
                          { st₁ with ready := rest }.schedule
                          (computeEarliest s cons
                            { st₁ with ready := rest }.schedule
                            (depsOf dm task_id) task_id) product_line
                          info.team info.mechanics_required info.duration
                          false with
                      | .error _ => none
                      | .ok (t0, sh, _) => some (t0, info.team, sh)) with
                  | none =>
                    rw [hplaced] at h
                    exact ih _ h
                  | some r₃ =>
                    obtain ⟨schedStart, team, shift⟩ := r₃
                    rw [hplaced] at h
                    dsimp only at h
                    cases hpd : pushDependents s dm dt task_id
                        { st₁ with
                          ready := rest,
                          schedule := dictInsert st₁.schedule task_id
                            { start_time := schedStart,
                              end_time := schedStart + info.duration,
                              team := team, product_line := product_line,
                              duration := info.duration,
                              mechanics_required := info.mechanics_required,
                              is_quality := info.is_quality,
                              task_type := info.task_type, shift := shift },
                          scheduled_count := st₁.scheduled_count + 1,
                          retry_count := 0 } with
                    | error e =>
                      rw [hpd, show ∀ (f : LoopSt → Except PyErr LoopSt),
                        ((Except.error e : Except PyErr LoopSt) >>= f) =
                          Except.error e from fun _ => rfl] at h
                      injection h with h
                      exact pushDeps_no_rt s dm dt task_id _
                        (by rw [hpd, h])
                    | ok st₂ =>
                      rw [hpd, show ∀ (f : LoopSt → Except PyErr LoopSt),
                        ((Except.ok st₂ : Except PyErr LoopSt) >>= f) =
                          f st₂ from fun _ => rfl] at h
                      exact ih _ h

theorem schedule_tasks_state_no_rt (s : Sched) (a b : Bool) :
    schedule_tasks_state s a b ≠ .error .runtimeError := by
  intro h
  unfold schedule_tasks_state at h
  by_cases hv : ¬ b ∧ ¬ validate_dag s
  · rw [if_pos hv] at h
    injection h with h
    exact PyErr.noConfusion h
  · rw [if_neg hv] at h
    dsimp only at h
    cases hf : (List.foldlM
        (fun (r : List (ℚ × Nat)) t =>
          if (depsOf (buildDepMaps (build_dynamic_dependencies s)).1
              t).isEmpty then do
            let p ← calculate_task_priority s t
            pure ((p, t) :: r)
          else pure r) [] (s.tasks.map (·.1)) :
        Except PyErr (List (ℚ × Nat))) with
    | error e =>
      rw [hf, show ∀ (g : List (ℚ × Nat) → Except PyErr LoopSt),
        (Except.error e : Except PyErr (List (ℚ × Nat))).bind g =
          Except.error e from fun _ => rfl] at h
      injection h with h
      refine foldlM_no_rt
        (fun (r : List (ℚ × Nat)) t =>
          if (depsOf (buildDepMaps (build_dynamic_dependencies s)).1
              t).isEmpty then do
            let p ← calculate_task_priority s t
            pure ((p, t) :: r)
          else pure r) ?_ (s.tasks.map (·.1)) [] (by rw [hf, h])
      intro acc t
      dsimp only
      by_cases hd : (depsOf (buildDepMaps (build_dynamic_dependencies s)).1
          t).isEmpty
      · rw [if_pos hd]
        intro hbad
        cases hp : calculate_task_priority s t with
        | error e₂ =>
          rw [hp, show ∀ (f : ℚ → Except PyErr (List (ℚ × Nat))),
            ((Except.error e₂ : Except PyErr ℚ) >>= f) = Except.error e₂
            from fun _ => rfl] at hbad
          injection hbad with hbad
          exact priority_no_rt s t (by rw [hp, hbad])
        | ok p =>
          rw [hp, show ∀ (f : ℚ → Except PyErr (List (ℚ × Nat))),
            ((Except.ok p : Except PyErr ℚ) >>= f) = f p
            from fun _ => rfl] at hbad
          exact Except.noConfusion hbad
      · rw [if_neg hd]; intro hbad; exact Except.noConfusion hbad
    | ok ready0 =>
      rw [hf, show ∀ (g : List (ℚ × Nat) → Except PyErr LoopSt),
        (Except.ok ready0 : Except PyErr (List (ℚ × Nat))).bind g =
          g ready0 from fun _ => rfl] at h
      exact scheduleLoop_no_rt s (build_dynamic_dependencies s)
        (buildDepMaps (build_dynamic_dependencies s)).1
        (buildDepMaps (build_dynamic_dependencies s)).2
        s.tasks.length (s.tasks.length * 10) _ h

theorem schedule_tasks_no_rt (s : Sched) (a b : Bool) :
    schedule_tasks s a b ≠ .error .runtimeError := by
  intro h
  unfold schedule_tasks at h
  cases hst : schedule_tasks_state s a b with
  | error e =>
    rw [hst] at h
    injection h with h
    exact schedule_tasks_state_no_rt s a b (by rw [hst, h])
  | ok st =>
    rw [hst] at h
    exact Except.noConfusion h

/-- C10: `schedule_tasks` terminates on every input.  (1) Its main loop
runs at most `10 * len(tasks)` iterations: the final loop state's
iteration counter never exceeds that bound.  (2) Each window search in
`get_next_working_time_with_capacity` performs at most 5000 steps: on
success the remaining step budget out of 5000 is strictly below 5000 (so
between 1 and 5000 steps were used).  (3) When the budget is exhausted
the search fails precisely with `RuntimeError`, and (4) that error is
always caught by the loop and turned into a placement retry — it never
escapes `schedule_tasks`. -/
theorem C10_termination :
    (∀ (s : Sched) (a b : Bool) (st : LoopSt),
        schedule_tasks_state s a b = .ok st →
        st.iteration_count ≤ 10 * s.tasks.length) ∧
    (∀ (s : Sched) (schedule : Schedule) (cur : Int) (pl : String)
        (team : Option String) (needed dur : Int) (q : Bool)
        (res : Int × String × Nat),
        get_next_working_time_with_capacity s schedule cur pl team needed
          dur q = .ok res → res.2.2 < 5000) ∧
    (∀ (s : Sched) (schedule : Schedule) (cur : Int) (pl : String)
        (team : Option String) (needed dur : Int) (q : Bool) (e : PyErr),
        get_next_working_time_with_capacity s schedule cur pl team needed
          dur q = .error e → e = .runtimeError) ∧
    (∀ (s : Sched) (a b : Bool),
        schedule_tasks s a b ≠ .error .runtimeError) := by
  refine ⟨?_, ?_, ?_, ?_⟩
  · intro s a b st h
    unfold schedule_tasks_state at h
    by_cases hv : ¬ b ∧ ¬ validate_dag s
    · rw [if_pos hv] at h; exact Except.noConfusion h
    · rw [if_neg hv] at h
      dsimp only at h
      cases hf : (List.foldlM
          (fun (r : List (ℚ × Nat)) t =>
            if (depsOf (buildDepMaps (build_dynamic_dependencies s)).1
                t).isEmpty then do
              let p ← calculate_task_priority s t
              pure ((p, t) :: r)
            else pure r) [] (s.tasks.map (·.1)) :
          Except PyErr (List (ℚ × Nat))) with
      | error e =>
        rw [hf, show ∀ (g : List (ℚ × Nat) → Except PyErr LoopSt),
          (Except.error e : Except PyErr (List (ℚ × Nat))).bind g =
            Except.error e from fun _ => rfl] at h
        exact Except.noConfusion h
      | ok ready0 =>
        rw [hf, show ∀ (g : List (ℚ × Nat) → Except PyErr LoopSt),
          (Except.ok ready0 : Except PyErr (List (ℚ × Nat))).bind g =
            g ready0 from fun _ => rfl] at h
        have h2 := scheduleLoop_iter_bound s (build_dynamic_dependencies s)
          (buildDepMaps (build_dynamic_dependencies s)).1
          (buildDepMaps (build_dynamic_dependencies s)).2
          s.tasks.length (s.tasks.length * 10)
          { ready := ready0, schedule := [], failed := [],
            retry_counts := [], scheduled_count := 0, retry_count := 0,
            iteration_count := 0 } st h
        dsimp only at h2
        omega
  · intro s schedule cur pl team needed dur q res h
    obtain ⟨t, sh, r⟩ := res
    exact gnwtAux_fuel_lt s schedule pl team needed dur q 5000 cur t sh r h
  · intro s schedule cur pl team needed dur q e h
    exact gnwtAux_err_rt s schedule pl team needed dur q 5000 cur e h
  · intro s a b
    exact schedule_tasks_no_rt s a b

/-- C10 witness: on a concrete one-task data set the loop runs exactly
10 iterations, within the `10 * 1` bound, and a concrete window search
succeeds on its first step, leaving 4999 of the 5000 budget. -/
theorem C10_witness :
    ((⟨[], [], [], [], 0, 0, 10⟩ : LoopSt).iteration_count ≤
      10 * exW10.tasks.length) ∧
    (((6120 : Int), ("1st" : String), (4999 : Nat)).2.2 < 5000) :=
  ⟨C10_termination.1 exW10 true true ⟨[], [], [], [], 0, 0, 10⟩
      (by with_unfolding_all rfl),
   C10_termination.2.1 exW10 [] 6120 "P" (some "M") 1 20 false
      (6120, "1st", 4999) (by with_unfolding_all rfl)⟩

/-! ## Calendar and list-helper lemmas for the loop invariants -/

theorem time_decomp (t : Int) :
    t = dayOf t * 1440 + minutesOfDay t ∧
    0 ≤ minutesOfDay t ∧ minutesOfDay t < 1440 := by
  unfold dayOf minutesOfDay
  rw [Int.fdiv_eq_ediv _ (by norm_num)]
  refine ⟨?_, ?_, ?_⟩
  · show t = t / 1440 * 1440 + t % 1440
    have := Int.ediv_add_emod t 1440
    omega
  · show 0 ≤ t % 1440
    omega
  · show t % 1440 < 1440
    omega

theorem nextShiftJump_ge (cur : Int) : cur ≤ nextShiftJump cur := by
  obtain ⟨hdec, h0, h1⟩ := time_decomp cur
  unfold nextShiftJump
  by_cases ha : minutesOfDay cur < 360
  · rw [if_pos ha]; omega
  · rw [if_neg ha]
    by_cases hb : minutesOfDay cur < 870
    · rw [if_pos hb]; omega
    · rw [if_neg hb]
      by_cases hc : minutesOfDay cur < 1380
      · rw [if_pos hc]; omega
      · rw [if_neg hc]; omega

theorem dayJump_ge (cur : Int) : cur ≤ dayOf cur * 1440 + 360 + 1440 := by
  obtain ⟨hdec, h0, h1⟩ := time_decomp cur
  omega

theorem lookup_append {α : Type} (k : Nat) :
    ∀ (m l : List (Nat × α)),
      List.lookup k (m ++ l) =
        match List.lookup k m with
        | some v => some v
        | none => List.lookup k l := by
  intro m l
  induction m with
  | nil => rfl
  | cons p t ih =>
    by_cases h : k == p.1
    · simp only [List.cons_append, List.lookup, h]
    · simp only [List.cons_append, List.lookup, h] at ih ⊢
      exact ih

theorem lookup_mem {α : Type} (k : Nat) (v : α) :
    ∀ (m : List (Nat × α)), List.lookup k m = some v → (k, v) ∈ m := by
  intro m
  induction m with
  | nil => intro h; exact Option.noConfusion h
  | cons p t ih =>
    intro h
    by_cases hk : k == p.1
    · simp only [List.lookup, hk] at h
      injection h with h
      have : k = p.1 := eq_of_beq hk
      subst this
      rw [← h]
      exact List.mem_cons_self _ _
    · simp only [List.lookup, hk] at h
      exact List.mem_cons_of_mem _ (ih h)

theorem lookup_mem_str {α : Type} (k : String) (v : α) :
    ∀ (m : List (String × α)), List.lookup k m = some v → (k, v) ∈ m := by
  intro m
  induction m with
  | nil => intro h; exact Option.noConfusion h
  | cons p t ih =>
    intro h
    by_cases hk : k == p.1
    · simp only [List.lookup, hk] at h
      injection h with h
      have : k = p.1 := eq_of_beq hk
      subst this
      rw [← h]
      exact List.mem_cons_self _ _
    · simp only [List.lookup, hk] at h
      exact List.mem_cons_of_mem _ (ih h)

theorem getD_lookup_nonneg (l : List (String × Int)) (x : String)
    (h : ∀ p ∈ l, 0 ≤ p.2) : 0 ≤ (List.lookup x l).getD 0 := by
  cases hl : List.lookup x l with
  | none => exact le_refl 0
  | some v => exact h (x, v) (lookup_mem_str x v l hl)

theorem capOfTeam_nonneg (s : Sched) (team : Option String)
    (h1 : ∀ p ∈ s.team_capacity, 0 ≤ p.2)
    (h2 : ∀ p ∈ s.quality_team_capacity, 0 ≤ p.2) :
    0 ≤ capOfTeam s team := by
  unfold capOfTeam
  cases team with
  | none => simp [Option.bind]
  | some tm =>
    simp only [Option.bind]
    by_cases hz : (List.lookup tm s.team_capacity).getD 0 ≠ 0
    · rw [if_pos hz]
      exact getD_lookup_nonneg _ _ h1
    · rw [if_neg hz]
      exact getD_lookup_nonneg _ _ h2

theorem popMin_eq_none {l : List (ℚ × Nat)} (h : popMin l = none) :
    l = [] := by
  cases l with
  | nil => rfl
  | cons x xs =>
    exfalso
    unfold popMin at h
    cases hm : popMin xs with
    | none => rw [hm] at h; exact Option.noConfusion h
    | some pr =>
      rw [hm] at h
      dsimp only at h
      by_cases hc : x.1 < pr.1.1 ∨ (x.1 = pr.1.1 ∧ x.2 ≤ pr.1.2)
      · rw [if_pos hc] at h; exact Option.noConfusion h
      · rw [if_neg hc] at h; exact Option.noConfusion h

theorem popMin_perm :
    ∀ (l : List (ℚ × Nat)) (p : ℚ × Nat) (r : List (ℚ × Nat)),
      popMin l = some (p, r) → l.Perm (p :: r) := by
  intro l
  induction l with
  | nil => intro p r h; exact Option.noConfusion h
  | cons x xs ih =>
    intro p r h
    unfold popMin at h
    cases hm : popMin xs with
    | none =>
      rw [hm] at h
      injection h with h
      injection h with h1 h2
      subst h1
      subst h2
      rw [popMin_eq_none hm]
    | some pr =>
      obtain ⟨m, rest⟩ := pr
      rw [hm] at h
      dsimp only at h
      by_cases hc : x.1 < m.1 ∨ (x.1 = m.1 ∧ x.2 ≤ m.2)
      · rw [if_pos hc] at h
        injection h with h
        injection h with h1 h2
        subst h1
        subst h2
        exact List.Perm.refl _
      · rw [if_neg hc] at h
        injection h with h
        injection h with h1 h2
        subst h1
        subst h2
        exact ((ih m rest hm).cons x).trans (List.Perm.swap m x rest)

theorem addFailedL_contains_of (l : List Nat) (t x : Nat)
    (h : l.contains x = true) : (addFailedL l t).contains x = true := by
  unfold addFailedL
  by_cases hc : l.contains t
  · rw [if_pos hc]; exact h
  · rw [if_neg hc]
    exact List.elem_iff.mpr (List.mem_append.mpr (Or.inl (List.elem_iff.mp h)))

theorem addFailedL_not_contains (l : List Nat) (t x : Nat)
    (h1 : l.contains x = false) (h2 : x ≠ t) :
    (addFailedL l t).contains x = false := by
  unfold addFailedL
  by_cases hc : l.contains t
  · rw [if_pos hc]; exact h1
  · rw [if_neg hc]
    cases hcc : (l ++ [t]).contains x with
    | false => rfl
    | true =>
      exfalso
      rcases List.mem_append.mp (List.elem_iff.mp hcc) with h | h
      · have h3 : l.contains x = true := List.elem_iff.mpr h
        rw [h1] at h3
        exact Bool.noConfusion h3
      · exact h2 (List.mem_singleton.mp h)

theorem dictInsert_of_none {α : Type} (m : List (Nat × α)) (k : Nat)
    (v : α) (h : List.lookup k m = none) :
    dictInsert m k v = m ++ [(k, v)] := by
  unfold dictInsert
  rw [h]
  rfl

theorem mem_dictInsert {α : Type} (m : List (Nat × α)) (k : Nat) (v : α)
    (k' : Nat) (v' : α) (h : (k', v') ∈ dictInsert m k v) :
    (k', v') ∈ m ∨ (k' = k ∧ v' = v) := by
  unfold dictInsert at h
  by_cases hs : (List.lookup k m).isSome
  · rw [if_pos hs] at h
    obtain ⟨p, hp, he⟩ := List.mem_map.mp h
    by_cases hk : p.1 == k
    · rw [if_pos hk] at he
      right
      exact ⟨(Prod.mk.injEq .. ▸ he).1.symm ▸ rfl,
        ((Prod.mk.injEq ..).mp he).2.symm⟩
    · rw [if_neg hk] at he
      left
      rw [← he]
      exact hp
  · rw [if_neg hs] at h
    rcases List.mem_append.mp h with h | h
    · exact Or.inl h
    · right
      rcases List.mem_singleton.mp h with h
      exact ⟨((Prod.mk.injEq ..).mp h).1, ((Prod.mk.injEq ..).mp h).2⟩

theorem foldl_inv {α β : Type} (f : β → α → β) (P : β → Prop) :
    ∀ (l : List α) (init : β), P init →
      (∀ acc x, x ∈ l → P acc → P (f acc x)) → P (l.foldl f init) := by
  intro l
  induction l with
  | nil => intro init h0 _; exact h0
  | cons x t ih =>
    intro init h0 hstep
    rw [List.foldl_cons]
    exact ih (f init x) (hstep init x (List.mem_cons_self _ _) h0)
      (fun acc y hy => hstep acc y (List.mem_cons_of_mem _ hy))

theorem foldlM_pred {α β : Type} (step : β → α → Except PyErr β)
    (Q : β → List α → Prop)
    (hstep : ∀ σ x l σ', Q σ (x :: l) → step σ x = .ok σ' → Q σ' l) :
    ∀ (l : List α) (σ σ' : β),
      List.foldlM step σ l = .ok σ' → Q σ l → Q σ' [] := by
  intro l
  induction l with
  | nil =>
    intro σ σ' h hQ
    injection h with h
    subst h
    exact hQ
  | cons x t ih =>
    intro σ σ' h hQ
    rw [List.foldlM_cons] at h
    cases hx : step σ x with
    | error e =>
      rw [hx, show ∀ (f : β → Except PyErr β),
        ((Except.error e : Except PyErr β) >>= f) = Except.error e
        from fun _ => rfl] at h
      exact Except.noConfusion h
    | ok σ₁ =>
      rw [hx, show ∀ (f : β → Except PyErr β),
        ((Except.ok σ₁ : Except PyErr β) >>= f) = f σ₁
        from fun _ => rfl] at h
      exact ih σ₁ σ' h (hstep σ x t σ₁ hQ hx)

/-! ## Dependency-map characterization -/

theorem mem_addToSetList (l : List Nat) (v x : Nat) :
    x ∈ addToSetList l v ↔ x ∈ l ∨ x = v := by
  unfold addToSetList
  by_cases h : l.contains v
  · rw [if_pos h]
    constructor
    · exact Or.inl
    · rintro (hx | rfl)
      · exact hx
      · exact List.elem_iff.mp h
  · rw [if_neg h]
    simp [List.mem_append]

theorem nodup_addToSetList (l : List Nat) (v : Nat) (h : l.Nodup) :
    (addToSetList l v).Nodup := by
  unfold addToSetList
  by_cases hc : l.contains v
  · rw [if_pos hc]; exact h
  · rw [if_neg hc]
    refine List.Nodup.append h (List.nodup_singleton v) ?_
    intro x hx hv
    rw [List.mem_singleton] at hv
    subst hv
    have h3 : l.contains x = true := List.elem_iff.mpr hx
    rw [h3] at hc
    exact hc rfl

theorem lookup_map_replace {α : Type} (k : Nat) (w : α) :
    ∀ (m : List (Nat × α)) (t : Nat),
      List.lookup t (m.map (fun p => if p.1 == k then (k, w) else p)) =
        if t = k then (List.lookup k m).map (fun _ => w)
        else List.lookup t m := by
  intro m
  induction m with
  | nil =>
    intro t
    by_cases h : t = k <;> simp [h, List.lookup]
  | cons p rest ih =>
    intro t
    obtain ⟨pk, pv⟩ := p
    rw [List.map_cons]
    dsimp only
    by_cases hp : pk = k
    · rw [if_pos (beq_iff_eq.mpr hp)]
      subst hp
      by_cases ht : t = pk
      · subst ht
        rw [if_pos rfl]
        simp only [List.lookup, beq_self_eq_true]
        rfl
      · have hbf : (t == pk) = false := beq_eq_false_iff_ne.mpr ht
        rw [if_neg ht]
        simp only [List.lookup, hbf]
        rw [ih t, if_neg ht]
    · rw [if_neg (fun hb => hp (eq_of_beq hb))]
      by_cases ht : t = pk
      · subst ht
        rw [if_neg hp]
        simp only [List.lookup, beq_self_eq_true]
      · have hbf : (t == pk) = false := beq_eq_false_iff_ne.mpr ht
        simp only [List.lookup, hbf]
        rw [ih t]
        by_cases htk : t = k
        · rw [if_pos htk, if_pos htk,
            show (k == pk) = false from
              beq_eq_false_iff_ne.mpr (htk ▸ ht)]
        · rw [if_neg htk, if_neg htk]

theorem depsOf_addEdge (m : List (Nat × List Nat)) (k v t : Nat) :
    depsOf (addEdge m k v) t =
      if t = k then addToSetList (depsOf m k) v else depsOf m t := by
  unfold addEdge depsOf
  cases hl : List.lookup k m with
  | none =>
    dsimp only
    rw [lookup_append]
    by_cases ht : t = k
    · subst ht
      rw [hl, if_pos rfl]
      simp [List.lookup, addToSetList]
    · rw [if_neg ht]
      cases hlt : List.lookup t m with
      | some w => rfl
      | none =>
        simp [List.lookup, beq_eq_false_iff_ne.mpr ht]
  | some l =>
    dsimp only
    by_cases hcv : l.contains v
    · rw [if_pos hcv]
      by_cases ht : t = k
      · subst ht
        rw [if_pos rfl, hl]
        show l = addToSetList l v
        unfold addToSetList
        rw [if_pos hcv]
      · rw [if_neg ht]
    · rw [if_neg hcv]
      rw [lookup_map_replace]
      by_cases ht : t = k
      · subst ht
        rw [if_pos rfl, if_pos rfl, hl]
        show l ++ [v] = addToSetList l v
        unfold addToSetList
        rw [if_neg hcv]
      · rw [if_neg ht, if_neg ht]

theorem nodup_depsOf_addEdge (m : List (Nat × List Nat)) (k v : Nat)
    (h : ∀ a, (depsOf m a).Nodup) :
    ∀ a, (depsOf (addEdge m k v) a).Nodup := by
  intro a
  rw [depsOf_addEdge]
  by_cases ht : a = k
  · rw [if_pos ht]
    exact nodup_addToSetList _ _ (h k)
  · rw [if_neg ht]
    exact h a

theorem bd_fold_char :
    ∀ (cs : List Constraint)
      (m : List (Nat × List Nat) × List (Nat × List Nat))
      (E : Nat → Nat → Prop),
      (∀ a b, a ∈ depsOf m.1 b ↔ E a b) →
      (∀ a b, b ∈ depsOf m.2 a ↔ E a b) →
      (∀ a, (depsOf m.2 a).Nodup) →
      (∀ a b, a ∈ depsOf (cs.foldl
          (fun m c =>
            if c.rel == "Finish <= Start" || c.rel == "Finish = Start" ||
               c.rel == "Start <= Start" then
              (addEdge m.1 c.second c.first, addEdge m.2 c.first c.second)
            else m) m).1 b ↔
        E a b ∨ ∃ c ∈ cs, knownRelB c = true ∧ c.first = a ∧ c.second = b) ∧
      (∀ a b, b ∈ depsOf (cs.foldl
          (fun m c =>
            if c.rel == "Finish <= Start" || c.rel == "Finish = Start" ||
               c.rel == "Start <= Start" then
              (addEdge m.1 c.second c.first, addEdge m.2 c.first c.second)
            else m) m).2 a ↔
        E a b ∨ ∃ c ∈ cs, knownRelB c = true ∧ c.first = a ∧ c.second = b) ∧
      (∀ a, (depsOf (cs.foldl
          (fun m c =>
            if c.rel == "Finish <= Start" || c.rel == "Finish = Start" ||
               c.rel == "Start <= Start" then
              (addEdge m.1 c.second c.first, addEdge m.2 c.first c.second)
            else m) m).2 a).Nodup) := by
  intro cs
  induction cs with
  | nil =>
    intro m E h1 h2 h3
    refine ⟨fun a b => ?_, fun a b => ?_, h3⟩
    · rw [List.foldl_nil, h1]
      simp
    · rw [List.foldl_nil, h2]
      simp
  | cons c cs ih =>
    intro m E h1 h2 h3
    rw [List.foldl_cons]
    by_cases hk : c.rel == "Finish <= Start" || c.rel == "Finish = Start" ||
        c.rel == "Start <= Start"
    · rw [if_pos hk]
      have hkb : knownRelB c = true := hk
      obtain ⟨g1, g2, g3⟩ := ih
        (addEdge m.1 c.second c.first, addEdge m.2 c.first c.second)
        (fun a b => E a b ∨ (c.first = a ∧ c.second = b))
        (fun a b => by
          show a ∈ depsOf (addEdge m.1 c.second c.first) b ↔ _
          rw [depsOf_addEdge]
          by_cases hb : b = c.second
          · subst hb
            rw [if_pos rfl, mem_addToSetList, h1]
            constructor
            · rintro (hE | rfl)
              · exact Or.inl hE
              · exact Or.inr ⟨rfl, rfl⟩
            · rintro (hE | ⟨rfl, _⟩)
              · exact Or.inl hE
              · exact Or.inr rfl
          · rw [if_neg hb, h1]
            constructor
            · exact Or.inl
            · rintro (hE | ⟨_, hcs⟩)
              · exact hE
              · exact absurd hcs.symm hb)
        (fun a b => by
          show b ∈ depsOf (addEdge m.2 c.first c.second) a ↔ _
          rw [depsOf_addEdge]
          by_cases ha : a = c.first
          · subst ha
            rw [if_pos rfl, mem_addToSetList, h2]
            constructor
            · rintro (hE | rfl)
              · exact Or.inl hE
              · exact Or.inr ⟨rfl, rfl⟩
            · rintro (hE | ⟨_, rfl⟩)
              · exact Or.inl hE
              · exact Or.inr rfl
          · rw [if_neg ha, h2]
            constructor
            · exact Or.inl
            · rintro (hE | ⟨hcs, _⟩)
              · exact hE
              · exact absurd hcs.symm ha)
        (fun a => by
          show ((depsOf (addEdge m.2 c.first c.second)) a).Nodup
          exact nodup_depsOf_addEdge m.2 c.first c.second
            (fun x => h3 x) a)
      refine ⟨fun a b => ?_, fun a b => ?_, g3⟩
      · rw [g1]
        constructor
        · rintro ((hE | ⟨hf, hs⟩) | ⟨c', hc', hk', hf', hs'⟩)
          · exact Or.inl hE
          · exact Or.inr ⟨c, List.mem_cons_self _ _, hkb, hf, hs⟩
          · exact Or.inr ⟨c', List.mem_cons_of_mem _ hc', hk', hf', hs'⟩
        · rintro (hE | ⟨c', hc', hk', hf', hs'⟩)
          · exact Or.inl (Or.inl hE)
          · rcases List.mem_cons.mp hc' with rfl | hc''
            · exact Or.inl (Or.inr ⟨hf', hs'⟩)
            · exact Or.inr ⟨c', hc'', hk', hf', hs'⟩
      · rw [g2]
        constructor
        · rintro ((hE | ⟨hf, hs⟩) | ⟨c', hc', hk', hf', hs'⟩)
          · exact Or.inl hE
          · exact Or.inr ⟨c, List.mem_cons_self _ _, hkb, hf, hs⟩
          · exact Or.inr ⟨c', List.mem_cons_of_mem _ hc', hk', hf', hs'⟩
        · rintro (hE | ⟨c', hc', hk', hf', hs'⟩)
          · exact Or.inl (Or.inl hE)
          · rcases List.mem_cons.mp hc' with rfl | hc''
            · exact Or.inl (Or.inr ⟨hf', hs'⟩)
            · exact Or.inr ⟨c', hc'', hk', hf', hs'⟩
    · rw [if_neg hk]
      obtain ⟨g1, g2, g3⟩ := ih m E h1 h2 h3
      refine ⟨fun a b => ?_, fun a b => ?_, g3⟩
      · rw [g1]
        constructor
        · rintro (hE | ⟨c', hc', hk', hf', hs'⟩)
          · exact Or.inl hE
          · exact Or.inr ⟨c', List.mem_cons_of_mem _ hc', hk', hf', hs'⟩
        · rintro (hE | ⟨c', hc', hk', hf', hs'⟩)
          · exact Or.inl hE
          · rcases List.mem_cons.mp hc' with rfl | hc''
            · exact absurd hk' hk
            · exact Or.inr ⟨c', hc'', hk', hf', hs'⟩
      · rw [g2]
        constructor
        · rintro (hE | ⟨c', hc', hk', hf', hs'⟩)
          · exact Or.inl hE
          · exact Or.inr ⟨c', List.mem_cons_of_mem _ hc', hk', hf', hs'⟩
        · rintro (hE | ⟨c', hc', hk', hf', hs'⟩)
          · exact Or.inl hE
          · rcases List.mem_cons.mp hc' with rfl | hc''
            · exact absurd hk' hk
            · exact Or.inr ⟨c', hc'', hk', hf', hs'⟩

theorem buildDepMaps_char (cons : List Constraint) :
    (∀ a b, a ∈ depsOf (buildDepMaps cons).1 b ↔
      ∃ c ∈ cons, knownRelB c = true ∧ c.first = a ∧ c.second = b) ∧
    (∀ a b, b ∈ depsOf (buildDepMaps cons).2 a ↔
      ∃ c ∈ cons, knownRelB c = true ∧ c.first = a ∧ c.second = b) ∧
    (∀ a, (depsOf (buildDepMaps cons).2 a).Nodup) := by
  obtain ⟨g1, g2, g3⟩ := bd_fold_char cons ([], []) (fun _ _ => False)
    (fun a b => by simp [depsOf, List.lookup])
    (fun a b => by simp [depsOf, List.lookup])
    (fun a => by simp [depsOf, List.lookup])
  refine ⟨fun a b => ?_, fun a b => ?_, g3⟩
  · exact (g1 a b).trans (by simp)
  · exact (g2 a b).trans (by simp)

/-! ## Capacity-check and window-search postconditions -/

theorem capCheckLoop_spec (entries : Schedule) (needed cap : Int) :
    ∀ (n : Nat) (cur : Int), capCheckLoop entries needed cap n cur = true →
      ∀ (i : Nat), i < n → usageAt entries (cur + i) + needed ≤ cap := by
  intro n
  induction n with
  | zero => intro cur _ i hi; omega
  | succ n ih =>
    intro cur h i hi
    rw [show capCheckLoop entries needed cap (n + 1) cur =
      (if usageAt entries cur + needed > cap then false
       else capCheckLoop entries needed cap n (cur + 1)) from rfl] at h
    by_cases hc : usageAt entries cur + needed > cap
    · rw [if_pos hc] at h
      exact Bool.noConfusion h
    · rw [if_neg hc] at h
      cases i with
      | zero =>
        rw [show (cur + (0 : Nat) : Int) = cur from by omega]
        omega
      | succ j =>
        have := ih (cur + 1) h j (by omega)
        rw [show (cur + 1 + (j : Nat) : Int) = cur + ((j + 1 : Nat) : Int)
          from by push_cast; omega] at this
        exact this

theorem check_capacity_spec (s : Sched) (schedule : Schedule)
    (team : Option String) (startT endT needed : Int)
    (h : check_team_capacity_at_time s schedule team startT endT needed =
      true) :
    ∀ m, startT ≤ m → m < endT →
      usageAt (schedule.filter (fun p => p.2.team == team)) m + needed ≤
        capOfTeam s team := by
  intro m h1 h2
  have := capCheckLoop_spec
    (schedule.filter (fun p => p.2.team == team)) needed (capOfTeam s team)
    (endT - startT).toNat startT h ((m - startT).toNat) (by omega)
  rw [show startT + ((m - startT).toNat : Int) = m from by omega] at this
  exact this

theorem teamUsage_eq (tm : String) (m : Int) :
    ∀ (sched : Schedule) (acc : Int),
      sched.foldl
        (fun acc p =>
          if p.2.team == some tm ∧ p.2.start_time ≤ m ∧ m < p.2.end_time
          then acc + p.2.mechanics_required else acc) acc =
      (sched.filter (fun p => p.2.team == some tm)).foldl
        (fun acc p =>
          if p.2.start_time ≤ m ∧ m < p.2.end_time then
            acc + p.2.mechanics_required else acc) acc := by
  intro sched
  induction sched with
  | nil => intro acc; rfl
  | cons p t ih =>
    intro acc
    rw [List.foldl_cons, List.filter_cons]
    by_cases hp : p.2.team == some tm
    · rw [if_pos hp, List.foldl_cons]
      by_cases hr : p.2.start_time ≤ m ∧ m < p.2.end_time
      · rw [if_pos ⟨hp, hr.1, hr.2⟩, if_pos hr, ih]
      · rw [if_neg (fun hh => hr ⟨hh.2.1, hh.2.2⟩), if_neg hr, ih]
    · rw [if_neg (fun hh => hp hh.1), ih, if_neg hp]

theorem teamUsage_filter (sched : Schedule) (tm : String) (m : Int) :
    teamUsage sched tm m =
      usageAt (sched.filter (fun p => p.2.team == some tm)) m := by
  unfold teamUsage usageAt
  exact teamUsage_eq tm m sched 0

theorem foldl_add_append (f : Int → (Nat × Entry) → Int)
    (sched : Schedule) (q : Nat × Entry) (a : Int) :
    (sched ++ [q]).foldl f a = f (sched.foldl f a) q := by
  rw [List.foldl_append, List.foldl_cons, List.foldl_nil]

theorem teamUsage_append (sched : Schedule) (k : Nat) (v : Entry)
    (tm : String) (m : Int) :
    teamUsage (sched ++ [(k, v)]) tm m =
      teamUsage sched tm m +
      (if v.team == some tm ∧ v.start_time ≤ m ∧ m < v.end_time then
        v.mechanics_required else 0) := by
  unfold teamUsage
  rw [foldl_add_append]
  by_cases hc : v.team == some tm ∧ v.start_time ≤ m ∧ m < v.end_time
  · rw [if_pos hc, if_pos hc]
  · rw [if_neg hc, if_neg hc]
    omega

theorem fesAny_false_of_no_fes (cons : List Constraint) (k : Nat)
    (h : hasFESInto cons k = false) (d : Nat) :
    cons.any (fun c => c.first == d && c.second == k &&
      c.rel == "Finish = Start") = false := by
  unfold hasFESInto at h
  rw [List.any_eq_false] at h ⊢
  intro c hc
  have := h c hc
  simp only [Bool.and_eq_true, not_and] at this ⊢
  intro h1 h2
  exact this h1.2 h2

theorem ceFold_mono (s : Sched) (cons : List Constraint)
    (schedule : Schedule) (task_id : Nat)
    (deps : List Nat)
    (hfes : ∀ d ∈ deps, cons.any (fun c => c.first == d &&
      c.second == task_id && c.rel == "Finish = Start") = false) :
    ∀ (init : Int), init ≤ deps.foldl
      (fun e dep =>
        match List.lookup dep schedule with
        | none => e
        | some depE =>
          if cons.any (fun c =>
              c.first == dep && c.second == task_id &&
              c.rel == "Finish = Start") then
            depE.end_time
          else max e depE.end_time)
      init := by
  induction deps with
  | nil => intro init; exact le_refl init
  | cons d rest ih =>
    intro init
    rw [List.foldl_cons]
    have hd := hfes d (List.mem_cons_self _ _)
    cases hl : List.lookup d schedule with
    | none =>
      exact ih (fun x hx => hfes x (List.mem_cons_of_mem _ hx)) init
    | some depE =>
      dsimp only
      rw [hd]
      refine le_trans (le_max_left init depE.end_time)
        (ih (fun x hx => hfes x (List.mem_cons_of_mem _ hx)) _)

theorem ceFold_mem (s : Sched) (cons : List Constraint)
    (schedule : Schedule) (task_id : Nat) :
    ∀ (deps : List Nat),
    (∀ d ∈ deps, cons.any (fun c => c.first == d &&
      c.second == task_id && c.rel == "Finish = Start") = false) →
    ∀ (init : Int) (d : Nat) (de : Entry), d ∈ deps →
      List.lookup d schedule = some de →
      de.end_time ≤ deps.foldl
        (fun e dep =>
          match List.lookup dep schedule with
          | none => e
          | some depE =>
            if cons.any (fun c =>
                c.first == dep && c.second == task_id &&
                c.rel == "Finish = Start") then
              depE.end_time
            else max e depE.end_time)
        init := by
  intro deps
  induction deps with
  | nil => intro _ _ d _ hd; exact absurd hd (List.not_mem_nil d)
  | cons x rest ih =>
    intro hfes init d de hd hl
    rw [List.foldl_cons]
    rcases List.mem_cons.mp hd with rfl | hd'
    · rw [hl]
      dsimp only
      rw [hfes d (List.mem_cons_self _ _)]
      refine le_trans (le_max_right init de.end_time)
        (ceFold_mono s cons schedule task_id rest
          (fun y hy => hfes y (List.mem_cons_of_mem _ hy)) _)
    · exact ih (fun y hy => hfes y (List.mem_cons_of_mem _ hy)) _ d de hd' hl

theorem computeEarliest_ge_dep (s : Sched) (cons : List Constraint)
    (schedule : Schedule) (dm : List (Nat × List Nat)) (task_id : Nat)
    (hno : hasFESInto cons task_id = false)
    (d : Nat) (de : Entry) (hd : d ∈ depsOf dm task_id)
    (hl : List.lookup d schedule = some de) :
    de.end_time ≤
      computeEarliest s cons schedule (depsOf dm task_id) task_id := by
  unfold computeEarliest
  exact ceFold_mem s cons schedule task_id (depsOf dm task_id)
    (fun x _ => fesAny_false_of_no_fes cons task_id hno x) _ d de hd hl

theorem computeEarliest_ge_late (s : Sched) (cons : List Constraint)
    (schedule : Schedule) (dm : List (Nat × List Nat)) (task_id : Nat)
    (hno : hasFESInto cons task_id = false)
    (hlate : s.late_part_tasks.contains task_id = true) :
    get_earliest_start_for_late_part s task_id ≤
      computeEarliest s cons schedule (depsOf dm task_id) task_id := by
  unfold computeEarliest
  refine le_trans ?_ (ceFold_mono s cons schedule task_id
    (depsOf dm task_id)
    (fun x _ => fesAny_false_of_no_fes cons task_id hno x) _)
  rw [if_pos hlate]
  exact le_max_right _ _

theorem computeEarliest_unique_dep (s : Sched) (cons : List Constraint)
    (schedule : Schedule) (a task_id : Nat) (ae : Entry)
    (hl : List.lookup a schedule = some ae) :
    ae.end_time ≤ computeEarliest s cons schedule [a] task_id := by
  unfold computeEarliest
  rw [List.foldl_cons, List.foldl_nil, hl]
  dsimp only
  by_cases hfes : cons.any (fun c => c.first == a && c.second == task_id &&
      c.rel == "Finish = Start")
  · rw [if_pos hfes]
  · rw [if_neg hfes]
    exact le_max_right _ _

theorem gnwtAux_mono (s : Sched) (schedule : Schedule) (pl : String)
    (team : Option String) (needed dur : Int) (q : Bool) :
    ∀ (fuel : Nat) (cur t : Int) (sh : String) (r : Nat),
      gnwtAux s schedule pl team needed dur q fuel cur = .ok (t, sh, r) →
      cur ≤ t := by
  intro fuel
  induction fuel with
  | zero => intro cur t sh r h; exact Except.noConfusion h
  | succ n ih =>
    intro cur t sh r h
    rw [show gnwtAux s schedule pl team needed dur q (n + 1) cur =
      (if ¬ is_working_day s cur pl then
        gnwtAux s schedule pl team needed dur q n
          (dayOf cur * 1440 + 360 + 1440)
      else
        match (if q then qualityShiftAt s (minutesOfDay cur)
               else mechShiftAt s team (minutesOfDay cur)) with
        | some sh => if check_team_capacity_at_time s schedule team cur
              (cur + dur) needed then .ok (cur, sh, n)
            else gnwtAux s schedule pl team needed dur q n (cur + 1)
        | none => gnwtAux s schedule pl team needed dur q n
            (nextShiftJump cur)) from rfl] at h
    by_cases h1 : ¬ is_working_day s cur pl
    · rw [if_pos h1] at h
      exact le_trans (dayJump_ge cur) (ih _ _ _ _ h)
    · rw [if_neg h1] at h
      cases hav : (if q then qualityShiftAt s (minutesOfDay cur)
          else mechShiftAt s team (minutesOfDay cur)) with
      | none =>
        rw [hav] at h
        dsimp only at h
        exact le_trans (nextShiftJump_ge cur) (ih _ _ _ _ h)
      | some sh₁ =>
        rw [hav] at h
        dsimp only at h
        by_cases h2 : check_team_capacity_at_time s schedule team cur
            (cur + dur) needed
        · rw [if_pos h2] at h
          injection h with h
          injection h with h1 h2
          omega
        · rw [if_neg h2] at h
          exact le_trans (by omega) (ih _ _ _ _ h)

theorem gnwtAux_ok_valid (s : Sched) (schedule : Schedule) (pl : String)
    (team : Option String) (needed dur : Int) (q : Bool) :
    ∀ (fuel : Nat) (cur t : Int) (sh : String) (r : Nat),
      gnwtAux s schedule pl team needed dur q fuel cur = .ok (t, sh, r) →
      is_working_day s t pl = true ∧
      (q = false → mechShiftAt s team (minutesOfDay t) = some sh) ∧
      (q = true → qualityShiftAt s (minutesOfDay t) = some sh) ∧
      check_team_capacity_at_time s schedule team t (t + dur) needed =
        true := by
  intro fuel
  induction fuel with
  | zero => intro cur t sh r h; exact Except.noConfusion h
  | succ n ih =>
    intro cur t sh r h
    rw [show gnwtAux s schedule pl team needed dur q (n + 1) cur =
      (if ¬ is_working_day s cur pl then
        gnwtAux s schedule pl team needed dur q n
          (dayOf cur * 1440 + 360 + 1440)
      else
        match (if q then qualityShiftAt s (minutesOfDay cur)
               else mechShiftAt s team (minutesOfDay cur)) with
        | some sh => if check_team_capacity_at_time s schedule team cur
              (cur + dur) needed then .ok (cur, sh, n)
            else gnwtAux s schedule pl team needed dur q n (cur + 1)
        | none => gnwtAux s schedule pl team needed dur q n
            (nextShiftJump cur)) from rfl] at h
    by_cases h1 : ¬ is_working_day s cur pl
    · rw [if_pos h1] at h
      exact ih _ _ _ _ h
    · rw [if_neg h1] at h
      cases hav : (if q then qualityShiftAt s (minutesOfDay cur)
          else mechShiftAt s team (minutesOfDay cur)) with
      | none =>
        rw [hav] at h
        dsimp only at h
        exact ih _ _ _ _ h
      | some sh₁ =>
        rw [hav] at h
        dsimp only at h
        by_cases h2 : check_team_capacity_at_time s schedule team cur
            (cur + dur) needed
        · rw [if_pos h2] at h
          injection h with h
          injection h with ha hb
          injection hb with hb hc
          subst ha
          subst hb
          have hw : is_working_day s cur pl = true := by
            by_contra hc₂
            exact h1 hc₂
          refine ⟨hw, ?_, ?_, h2⟩
          · intro hq
            subst hq
            exact hav
          · intro hq
            subst hq
            exact hav
        · rw [if_neg h2] at h
          exact ih _ _ _ _ h

theorem tryQualityPlacement_spec (s : Sched) (schedule : Schedule)
    (earliest : Int) (pl : String) (needed duration : Int)
    (st0 : Int) (tm sh : String)
    (h : tryQualityPlacement s schedule earliest pl needed duration =
      some (st0, tm, sh)) :
    earliest ≤ st0 ∧
    is_working_day s st0 pl = true ∧
    (qualityShiftAt s (minutesOfDay st0)).isSome = true ∧
    check_team_capacity_at_time s schedule (some tm) st0
      (st0 + duration) needed = true := by
  have main := foldl_inv
    (fun (acc : Option (Int × String × String)) try_shift =>
      match assign_quality_team_balanced s schedule try_shift needed with
      | none => acc
      | some temp_team =>
        match get_next_working_time_with_capacity s schedule earliest
            pl (some temp_team) needed duration true with
        | .error _ => acc
        | .ok (temp_start, _, _) =>
          match acc with
          | none => some (temp_start, temp_team, try_shift)
          | some a =>
            if temp_start < a.1 then some (temp_start, temp_team, try_shift)
            else acc)
    (fun acc => ∀ x0 xm xs, acc = some (x0, xm, xs) →
      earliest ≤ x0 ∧
      is_working_day s x0 pl = true ∧
      (qualityShiftAt s (minutesOfDay x0)).isSome = true ∧
      check_team_capacity_at_time s schedule (some xm) x0
        (x0 + duration) needed = true)
    ["1st", "2nd", "3rd"] none
    (fun _ _ _ hh => Option.noConfusion hh)
    (fun acc try_shift _ hacc => by
      intro x0 xm xs hx
      dsimp only at hx
      cases ha : assign_quality_team_balanced s schedule try_shift
          needed with
      | none =>
        rw [ha] at hx
        exact hacc x0 xm xs hx
      | some temp_team =>
        rw [ha] at hx
        dsimp only at hx
        cases hg : get_next_working_time_with_capacity s schedule earliest
            pl (some temp_team) needed duration true with
        | error e =>
          rw [hg] at hx
          exact hacc x0 xm xs hx
        | ok res =>
          obtain ⟨temp_start, sh₂, r₂⟩ := res
          rw [hg] at hx
          dsimp only at hx
          have hmono := gnwtAux_mono s schedule pl (some temp_team) needed
            duration true 5000 earliest temp_start sh₂ r₂ hg
          have hvalid := gnwtAux_ok_valid s schedule pl (some temp_team)
            needed duration true 5000 earliest temp_start sh₂ r₂ hg
          cases hacc₂ : acc with
          | none =>
            rw [hacc₂] at hx
            injection hx with hx
            injection hx with hx1 hx2
            injection hx2 with hx2 hx3
            subst hx1
            subst hx2
            exact ⟨hmono, hvalid.1, by rw [hvalid.2.2.1 rfl]; rfl,
              hvalid.2.2.2⟩
          | some a =>
            rw [hacc₂] at hx
            dsimp only at hx
            by_cases hlt : temp_start < a.1
            · rw [if_pos hlt] at hx
              injection hx with hx
              injection hx with hx1 hx2
              injection hx2 with hx2 hx3
              subst hx1
              subst hx2
              exact ⟨hmono, hvalid.1, by rw [hvalid.2.2.1 rfl]; rfl,
                hvalid.2.2.2⟩
            · rw [if_neg hlt] at hx
              exact hacc x0 xm xs (hacc₂.trans hx))
  exact main st0 tm sh h

/-! ## Every placed entry comes from a successful placement -/

theorem scheduleLoop_placed (s : Sched) (cons : List Constraint)
    (dm dt : List (Nat × List Nat)) (total : Nat) :
    ∀ (fuel : Nat) (st st' : LoopSt),
      scheduleLoop s cons dm dt total fuel st = .ok st' →
      ∀ k e, (k, e) ∈ st'.schedule →
        (k, e) ∈ st.schedule ∨ PlacedFrom s cons dm k e := by
  intro fuel
  induction fuel with
  | zero =>
    intro st st' h k e hm
    injection h with h
    subst h
    exact Or.inl hm
  | succ n ih =>
    intro st st' h k e hm
    rw [show scheduleLoop s cons dm dt total (n + 1) st =
      (if ¬ (st.ready ≠ [] ∨ st.scheduled_count < total) then .ok st
      else if ¬ (st.retry_count < 5) then .ok st
      else do
        let st ← rescanReseed s dm total
          { st with iteration_count := st.iteration_count + 1 }
        match popMin st.ready with
        | none => .ok st
        | some ((priority, task_id), rest) =>
          let st := { st with ready := rest }
          if 3 ≤ getRetry st task_id then
            scheduleLoop s cons dm dt total n
              { st with failed := addFailedL st.failed task_id }
          else
            match resolveProductLine s task_id with
            | none => scheduleLoop s cons dm dt total n st
            | some product_line =>
              match List.lookup task_id s.tasks with
              | none => .error .keyError
              | some info =>
                let earliest := computeEarliest s cons st.schedule
                  (depsOf dm task_id) task_id
                let placed : Option (Int × Option String × String) :=
                  if info.is_quality then
                    (tryQualityPlacement s st.schedule earliest product_line
                      info.mechanics_required info.duration).map
                      (fun r => (r.1, some r.2.1, r.2.2))
                  else
                    match get_next_working_time_with_capacity s st.schedule
                        earliest product_line info.team
                        info.mechanics_required info.duration false with
                    | .error _ => none
                    | .ok (t0, sh, _) => some (t0, info.team, sh)
                match placed with
                | none =>
                  scheduleLoop s cons dm dt total n
                    (attemptRetry st priority task_id)
                | some (schedStart, team, shift) =>
                  let entry : Entry :=
                    { start_time := schedStart,
                      end_time := schedStart + info.duration,
                      team := team, product_line := product_line,
                      duration := info.duration,
                      mechanics_required := info.mechanics_required,
                      is_quality := info.is_quality,
                      task_type := info.task_type, shift := shift }
                  let st := { st with
                    schedule := dictInsert st.schedule task_id entry,
                    scheduled_count := st.scheduled_count + 1,
                    retry_count := 0 }
                  let st ← pushDependents s dm dt task_id st
                  scheduleLoop s cons dm dt total n st) from rfl] at h
    by_cases h1 : ¬ (st.ready ≠ [] ∨ st.scheduled_count < total)
    · rw [if_pos h1] at h
      injection h with h; subst h; exact Or.inl hm
    · rw [if_neg h1] at h
      by_cases h2 : ¬ (st.retry_count < 5)
      · rw [if_pos h2] at h
        injection h with h; subst h; exact Or.inl hm
      · rw [if_neg h2] at h
        cases hr : rescanReseed s dm total
            { st with iteration_count := st.iteration_count + 1 } with
        | error e₂ =>
          rw [hr, show ∀ (f : LoopSt → Except PyErr LoopSt),
            ((Except.error e₂ : Except PyErr LoopSt) >>= f) =
              Except.error e₂ from fun _ => rfl] at h
          exact Except.noConfusion h
        | ok st₁ =>
          rw [hr, show ∀ (f : LoopSt → Except PyErr LoopSt),
            ((Except.ok st₁ : Except PyErr LoopSt) >>= f) = f st₁
            from fun _ => rfl] at h
          have hsch₁ : st₁.schedule = st.schedule :=
            (rescan_sameCore _ _ _ _ _ hr).1
          dsimp only at h
          cases hp : popMin st₁.ready with
          | none =>
            rw [hp] at h
            injection h with h
            subst h
            exact Or.inl (hsch₁ ▸ hm)
          | some pr =>
            obtain ⟨⟨priority, task_id⟩, rest⟩ := pr
            rw [hp] at h
            dsimp only at h
            by_cases h3 : 3 ≤ getRetry { st₁ with ready := rest } task_id
            · rw [if_pos h3] at h
              rcases ih _ _ h k e hm with hin | hpl
              · exact Or.inl (hsch₁ ▸ hin)
              · exact Or.inr hpl
            · rw [if_neg h3] at h
              cases hpl : resolveProductLine s task_id with
              | none =>
                rw [hpl] at h
                rcases ih _ _ h k e hm with hin | hplc
                · exact Or.inl (hsch₁ ▸ hin)
                · exact Or.inr hplc
              | some product_line =>
                rw [hpl] at h
                cases hlk : List.lookup task_id s.tasks with
                | none => rw [hlk] at h; exact Except.noConfusion h
                | some info =>
                  rw [hlk] at h
                  dsimp only at h
                  cases hplaced :
                    (if info.is_quality then
                      (tryQualityPlacement s
                        { st₁ with ready := rest }.schedule
                        (computeEarliest s cons
                          { st₁ with ready := rest }.schedule
                          (depsOf dm task_id) task_id) product_line
                        info.mechanics_required info.duration).map
                        (fun r => (r.1, some r.2.1, r.2.2))
                    else
                      match get_next_working_time_with_capacity s
                          { st₁ with ready := rest }.schedule
                          (computeEarliest s cons
                            { st₁ with ready := rest }.schedule
                            (depsOf dm task_id) task_id) product_line
                          info.team info.mechanics_required info.duration
                          false with
                      | .error _ => none
                      | .ok (t0, sh, _) => some (t0, info.team, sh)) with
                  | none =>
                    rw [hplaced] at h
                    rcases ih _ _ h k e hm with hin | hplc
                    · refine Or.inl (hsch₁ ▸ ?_)
                      simp only [attemptRetry] at hin
                      by_cases hc : getRetry { st₁ with ready := rest }
                          task_id + 1 < 3
                      · rw [if_pos hc] at hin
                        exact hin
                      · rw [if_neg hc] at hin
                        exact hin
                    · exact Or.inr hplc
                  | some r₃ =>
                    obtain ⟨schedStart, team, shift⟩ := r₃
                    rw [hplaced] at h
                    dsimp only at h
                    cases hpd : pushDependents s dm dt task_id
                        { st₁ with
                          ready := rest,
                          schedule := dictInsert st₁.schedule task_id
                            { start_time := schedStart,
                              end_time := schedStart + info.duration,
                              team := team, product_line := product_line,
                              duration := info.duration,
                              mechanics_required := info.mechanics_required,
                              is_quality := info.is_quality,
                              task_type := info.task_type, shift := shift },
                          scheduled_count := st₁.scheduled_count + 1,
                          retry_count := 0 } with
                    | error e₂ =>
                      rw [hpd, show ∀ (f : LoopSt → Except PyErr LoopSt),
                        ((Except.error e₂ : Except PyErr LoopSt) >>= f) =
                          Except.error e₂ from fun _ => rfl] at h
                      exact Except.noConfusion h
                    | ok st₂ =>
                      rw [hpd, show ∀ (f : LoopSt → Except PyErr LoopSt),
                        ((Except.ok st₂ : Except PyErr LoopSt) >>= f) =
                          f st₂ from fun _ => rfl] at h
                      have hsch₂ := (pushDeps_sameCore _ _ _ _ _ _ hpd).1
                      rcases ih _ _ h k e hm with hin | hplc
                      · rw [hsch₂] at hin
                        dsimp only at hin
                        rcases mem_dictInsert _ _ _ _ _ hin with hold | hnew
                        · exact Or.inl (hsch₁ ▸ hold)
                        · right
                          obtain ⟨hk, he⟩ := hnew
                          subst hk
                          subst he
                          refine ⟨info, product_line,
                            { st₁ with ready := rest }.schedule,
                            schedStart, team, shift, hlk, hpl, rfl, ?_⟩
                          by_cases hq : info.is_quality
                          · rw [if_pos hq] at hplaced
                            cases htqp : tryQualityPlacement s
                                { st₁ with ready := rest }.schedule
                                (computeEarliest s cons
                                  { st₁ with ready := rest }.schedule
                                  (depsOf dm k) k) product_line
                                info.mechanics_required info.duration with
                            | none =>
                              rw [htqp] at hplaced
                              exact Option.noConfusion hplaced
                            | some r =>
                              rw [htqp] at hplaced
                              injection hplaced with hplaced
                              injection hplaced with hx1 hx2
                              injection hx2 with hx2 hx3
                              refine Or.inl ⟨hq, r, ?_, hx1.symm, hx2.symm,
                                hx3.symm⟩
                              rfl
                          · rw [if_neg hq] at hplaced
                            cases hg : get_next_working_time_with_capacity s
                                { st₁ with ready := rest }.schedule
                                (computeEarliest s cons
                                  { st₁ with ready := rest }.schedule
                                  (depsOf dm k) k) product_line
                                info.team info.mechanics_required
                                info.duration false with
                            | error e₃ =>
                              rw [hg] at hplaced
                              exact Option.noConfusion hplaced
                            | ok res =>
                              obtain ⟨t0, sh0, r0⟩ := res
                              rw [hg] at hplaced
                              injection hplaced with hplaced
                              injection hplaced with hx1 hx2
                              injection hx2 with hx2 hx3
                              refine Or.inr ⟨Bool.not_eq_true _ ▸ hq,
                                hx2.symm, r0, ?_⟩
                              rw [← hx1, ← hx3]
                      · exact Or.inr hplc

theorem schedule_tasks_placed (s : Sched) (a b : Bool) (sched : Schedule)
    (h : schedule_tasks s a b = .ok sched) :
    ∀ k e, (k, e) ∈ sched →
      PlacedFrom s (build_dynamic_dependencies s)
        (buildDepMaps (build_dynamic_dependencies s)).1 k e := by
  intro k e hm
  unfold schedule_tasks at h
  cases hst : schedule_tasks_state s a b with
  | error e₂ => rw [hst] at h; exact Except.noConfusion h
  | ok st =>
    rw [hst] at h
    injection h with h
    subst h
    unfold schedule_tasks_state at hst
    by_cases hv : ¬ b ∧ ¬ validate_dag s
    · rw [if_pos hv] at hst; exact Except.noConfusion hst
    · rw [if_neg hv] at hst
      dsimp only at hst
      cases hf : (List.foldlM
          (fun (r : List (ℚ × Nat)) t =>
            if (depsOf (buildDepMaps (build_dynamic_dependencies s)).1
                t).isEmpty then do
              let p ← calculate_task_priority s t
              pure ((p, t) :: r)
            else pure r) [] (s.tasks.map (·.1)) :
          Except PyErr (List (ℚ × Nat))) with
      | error e₃ =>
        rw [hf, show ∀ (g : List (ℚ × Nat) → Except PyErr LoopSt),
          (Except.error e₃ : Except PyErr (List (ℚ × Nat))).bind g =
            Except.error e₃ from fun _ => rfl] at hst
        exact Except.noConfusion hst
      | ok ready0 =>
        rw [hf, show ∀ (g : List (ℚ × Nat) → Except PyErr LoopSt),
          (Except.ok ready0 : Except PyErr (List (ℚ × Nat))).bind g =
            g ready0 from fun _ => rfl] at hst
        rcases scheduleLoop_placed s (build_dynamic_dependencies s)
          (buildDepMaps (build_dynamic_dependencies s)).1
          (buildDepMaps (build_dynamic_dependencies s)).2
          s.tasks.length (s.tasks.length * 10)
          { ready := ready0, schedule := [], failed := [],
            retry_counts := [], scheduled_count := 0, retry_count := 0,
            iteration_count := 0 } st hst k e hm with hin | hplc
        · exact absurd hin (List.not_mem_nil _)
        · exact hplc

theorem placedFrom_entryStartOk (s : Sched) (cons : List Constraint)
    (dm : List (Nat × List Nat)) (k : Nat) (e : Entry)
    (h : PlacedFrom s cons dm k e) : entryStartOk s e := by
  obtain ⟨info, pl, sched, st0, team, shift, hlk, hpl, he, hcase⟩ := h
  subst he
  rcases hcase with ⟨hq, r, htqp, h1, h2, h3⟩ | ⟨hq, hteam, r', hg⟩
  · obtain ⟨hmono, hw, hqs, hcap⟩ := tryQualityPlacement_spec s sched
      (computeEarliest s cons sched (depsOf dm k) k) pl
      info.mechanics_required info.duration r.1 r.2.1 r.2.2
      (by rw [htqp])
    subst h1
    refine ⟨hw, ?_, fun _ => hqs⟩
    intro hfq
    rw [hq] at hfq
    exact Bool.noConfusion hfq
  · have hvalid := gnwtAux_ok_valid s sched pl info.team
      info.mechanics_required info.duration false 5000
      (computeEarliest s cons sched (depsOf dm k) k) st0 shift r' hg
    refine ⟨hvalid.1, ?_, ?_⟩
    · intro _
      rw [hteam]
      exact hvalid.2.1 rfl
    · intro hfq
      rw [hq] at hfq
      exact Bool.noConfusion hfq

/-- C1 amended: every placed task starts on a working day for its
product, at a minute inside the window of the recorded shift of its
mechanic team (for quality tasks, inside a window some quality team
works); the code never constrains the interval's end, so containment of
the whole interval — the original claim — fails (see
`C1_counterexample`). -/
theorem C1_amended :
    ∀ (s : Sched) (a b : Bool) (sched : Schedule),
      schedule_tasks s a b = .ok sched →
      ∀ k e, (k, e) ∈ sched → entryStartOk s e := by
  intro s a b sched h k e hm
  exact placedFrom_entryStartOk s _ _ k e
    (schedule_tasks_placed s a b sched h k e hm)

theorem C1_witness :
    schedule_tasks exW1 true true =
      .ok [(1, ⟨6120, 6140, some "M", "P", 20, 1, false, "Production",
        "1st"⟩)] ∧
    entryStartOk exW1
      ⟨6120, 6140, some "M", "P", 20, 1, false, "Production", "1st"⟩ :=
  ⟨by with_unfolding_all rfl,
   C1_amended exW1 true true
     [(1, ⟨6120, 6140, some "M", "P", 20, 1, false, "Production", "1st"⟩)]
     (by with_unfolding_all rfl) 1
     ⟨6120, 6140, some "M", "P", 20, 1, false, "Production", "1st"⟩
     (List.mem_singleton.mpr rfl)⟩

theorem placedFrom_start_ge_earliest (s : Sched) (cons : List Constraint)
    (dm : List (Nat × List Nat)) (k : Nat) (e : Entry)
    (h : PlacedFrom s cons dm k e) :
    ∃ sched : Schedule,
      computeEarliest s cons sched (depsOf dm k) k ≤ e.start_time := by
  obtain ⟨info, pl, sched, st0, team, shift, hlk, hpl, he, hcase⟩ := h
  subst he
  refine ⟨sched, ?_⟩
  rcases hcase with ⟨hq, r, htqp, h1, h2, h3⟩ | ⟨hq, hteam, r', hg⟩
  · subst h1
    exact (tryQualityPlacement_spec s sched
      (computeEarliest s cons sched (depsOf dm k) k) pl
      info.mechanics_required info.duration r.1 r.2.1 r.2.2
      (by rw [htqp])).1
  · exact gnwtAux_mono s sched pl info.team info.mechanics_required
      info.duration false 5000
      (computeEarliest s cons sched (depsOf dm k) k) st0 shift r' hg

/-- C5 amended: a placed late-part task with no `Finish = Start`
constraint into it starts no earlier than
`get_earliest_start_for_late_part` — 06:00 of the day on which
`on_dock + delay` falls.  When the on-dock date is a midnight and the
delay a whole number of days (the default 1.0 is), that instant is
`on_dock + delay + 360 min`, so the start is at least `on_dock + delay`;
a fractional delay is floored to 06:00 and can undercut
`on_dock + delay` (see `C5_counterexample`). -/
theorem C5_amended :
    ∀ (s : Sched) (a b : Bool) (sched : Schedule),
      schedule_tasks s a b = .ok sched →
      ∀ k e, (k, e) ∈ sched →
      s.late_part_tasks.contains k = true →
      hasFESInto (build_dynamic_dependencies s) k = false →
      get_earliest_start_for_late_part s k ≤ e.start_time ∧
      (∀ od, List.lookup k s.on_dock_dates = some od →
        od.emod 1440 = 0 → s.late_part_delay_min.emod 1440 = 0 →
        od + s.late_part_delay_min ≤ e.start_time) := by
  intro s a b sched h k e hm hlate hno
  have hplc := schedule_tasks_placed s a b sched h k e hm
  obtain ⟨sched₀, hle⟩ := placedFrom_start_ge_earliest s _ _ k e hplc
  have hge : get_earliest_start_for_late_part s k ≤ e.start_time :=
    le_trans (computeEarliest_ge_late s _ sched₀ _ k hno hlate) hle
  refine ⟨hge, ?_⟩
  intro od hod hmod1 hmod2
  unfold get_earliest_start_for_late_part at hge
  rw [hod] at hge
  dsimp only at hge
  have hm1 : minutesOfDay od = 0 := hmod1
  have hm2 : minutesOfDay s.late_part_delay_min = 0 := hmod2
  obtain ⟨hd1, hd2, hd3⟩ := time_decomp od
  obtain ⟨he1, he2, he3⟩ := time_decomp s.late_part_delay_min
  obtain ⟨hf1, hf2, hf3⟩ := time_decomp (od + s.late_part_delay_min)
  omega

theorem C5_witness :
    schedule_tasks exW5 true true =
      .ok [(3, ⟨11880, 11900, some "M", "P", 20, 1, false, "Late Part",
              "1st"⟩),
           (2, ⟨11900, 11920, some "M", "P", 20, 1, false, "Production",
              "1st"⟩)] ∧
    exW5.late_part_tasks.contains 3 = true ∧
    hasFESInto (build_dynamic_dependencies exW5) 3 = false ∧
    get_earliest_start_for_late_part exW5 3 ≤ 11880 ∧
    (7 * 1440 : Int) + 1440 ≤ 11880 :=
  ⟨by with_unfolding_all rfl, by with_unfolding_all rfl,
   by with_unfolding_all rfl,
   (C5_amended exW5 true true _ (by with_unfolding_all rfl) 3
     ⟨11880, 11900, some "M", "P", 20, 1, false, "Late Part", "1st"⟩
     (List.mem_cons_self _ _) (by with_unfolding_all rfl)
     (by with_unfolding_all rfl)).1,
   (C5_amended exW5 true true _ (by with_unfolding_all rfl) 3
     ⟨11880, 11900, some "M", "P", 20, 1, false, "Late Part", "1st"⟩
     (List.mem_cons_self _ _) (by with_unfolding_all rfl)
     (by with_unfolding_all rfl)).2 (7 * 1440) (by with_unfolding_all rfl)
     (by decide) (by with_unfolding_all rfl)⟩

/-! ## Invariant preservation through the loop-state operations -/

theorem lookup_singleton {α : Type} (x k : Nat) (v : α) :
    List.lookup x [(k, v)] = if x = k then some v else none := by
  by_cases hx : x = k
  · simp [List.lookup, hx]
  · simp [List.lookup, beq_eq_false_iff_ne.mpr hx, hx]

theorem lookup_append_some {α : Type} (m l : List (Nat × α)) (x : Nat)
    (v : α) (h : List.lookup x m = some v) :
    List.lookup x (m ++ l) = some v := by
  rw [lookup_append, h]

theorem lookup_append_none_ne {α : Type} (m : List (Nat × α)) (k x : Nat)
    (v : α) (hx : x ≠ k) (h : List.lookup x m = none) :
    List.lookup x (m ++ [(k, v)]) = none := by
  rw [lookup_append, h, lookup_singleton, if_neg hx]

theorem lookup_append_single_cases {α : Type} (m : List (Nat × α))
    (k x : Nat) (v w : α) (h : List.lookup x (m ++ [(k, v)]) = some w) :
    List.lookup x m = some w ∨
      (x = k ∧ w = v ∧ List.lookup x m = none) := by
  rw [lookup_append] at h
  cases hl : List.lookup x m with
  | some u =>
    rw [hl] at h
    exact Or.inl h
  | none =>
    rw [hl] at h
    rw [lookup_singleton] at h
    by_cases hx : x = k
    · rw [if_pos hx] at h
      injection h with h
      exact Or.inr ⟨hx, h.symm, rfl⟩
    · rw [if_neg hx] at h
      exact Option.noConfusion h

theorem inv_pop (s : Sched) (cons : List Constraint)
    (dm : List (Nat × List Nat)) (st₁ : LoopSt) (priority : ℚ)
    (task_id : Nat) (rest : List (ℚ × Nat))
    (hinv : Inv s cons dm st₁)
    (hp : popMin st₁.ready = some ((priority, task_id), rest)) :
    Inv s cons dm { st₁ with ready := rest } ∧
    List.lookup task_id st₁.schedule = none ∧
    st₁.failed.contains task_id = false ∧
    depsDone dm st₁ task_id ∧
    task_id ∉ rest.map (·.2) := by
  have hperm := popMin_perm _ _ _ hp
  have hmem : (priority, task_id) ∈ st₁.ready :=
    hperm.mem_iff.mpr (List.mem_cons_self _ _)
  have hsub : ∀ p ∈ rest, p ∈ st₁.ready :=
    fun p hp₂ => hperm.mem_iff.mpr (List.mem_cons_of_mem _ hp₂)
  have hnod := (List.Perm.nodup_iff (hperm.map (·.2))).mp hinv.rn
  rw [List.map_cons] at hnod
  refine ⟨⟨(List.nodup_cons.mp hnod).2,
      fun p hp₂ => hinv.rs p (hsub p hp₂),
      fun p hp₂ => hinv.rf p (hsub p hp₂),
      fun p hp₂ => hinv.rd p (hsub p hp₂),
      hinv.sd, hinv.c2, hinv.c3⟩,
    hinv.rs _ hmem, hinv.rf _ hmem, hinv.rd _ hmem,
    (List.nodup_cons.mp hnod).1⟩

theorem inv_retryCounts (s : Sched) (cons : List Constraint)
    (dm : List (Nat × List Nat)) (st : LoopSt) (rc : List (Nat × Nat))
    (hinv : Inv s cons dm st) :
    Inv s cons dm { st with retry_counts := rc } :=
  ⟨hinv.rn, hinv.rs, hinv.rf, hinv.rd, hinv.sd, hinv.c2, hinv.c3⟩

theorem inv_failedAdd (s : Sched) (cons : List Constraint)
    (dm : List (Nat × List Nat)) (st : LoopSt) (t : Nat)
    (hinv : Inv s cons dm st) (hnot : t ∉ st.ready.map (·.2)) :
    Inv s cons dm { st with failed := addFailedL st.failed t } := by
  refine ⟨hinv.rn, hinv.rs, ?_, ?_, ?_, hinv.c2, hinv.c3⟩
  · intro p hp₂
    refine addFailedL_not_contains _ _ _ (hinv.rf p hp₂) ?_
    intro he
    exact hnot (he ▸ List.mem_map_of_mem (·.2) hp₂)
  · intro p hp₂ d hd
    rcases hinv.rd p hp₂ d hd with hs | hf
    · exact Or.inl hs
    · exact Or.inr (addFailedL_contains_of _ _ _ hf)
  · intro q hq d hd
    rcases hinv.sd q hq d hd with hs | hf
    · exact Or.inl hs
    · exact Or.inr (addFailedL_contains_of _ _ _ hf)

theorem inv_requeue (s : Sched) (cons : List Constraint)
    (dm : List (Nat × List Nat)) (st : LoopSt) (pr : ℚ) (t : Nat)
    (hinv : Inv s cons dm st)
    (hnot : t ∉ st.ready.map (·.2))
    (hsch : List.lookup t st.schedule = none)
    (hfail : st.failed.contains t = false)
    (hdep : depsDone dm st t) :
    Inv s cons dm { st with ready := (pr, t) :: st.ready } := by
  refine ⟨?_, ?_, ?_, ?_, hinv.sd, hinv.c2, hinv.c3⟩
  · exact List.nodup_cons.mpr ⟨hnot, hinv.rn⟩
  · intro p hp₂
    rcases List.mem_cons.mp hp₂ with rfl | hp₃
    · exact hsch
    · exact hinv.rs p hp₃
  · intro p hp₂
    rcases List.mem_cons.mp hp₂ with rfl | hp₃
    · exact hfail
    · exact hinv.rf p hp₃
  · intro p hp₂
    rcases List.mem_cons.mp hp₂ with rfl | hp₃
    · exact hdep
    · exact hinv.rd p hp₃

theorem inv_attemptRetry (s : Sched) (cons : List Constraint)
    (dm : List (Nat × List Nat)) (st : LoopSt) (priority : ℚ) (t : Nat)
    (hinv : Inv s cons dm st)
    (hnot : t ∉ st.ready.map (·.2))
    (hsch : List.lookup t st.schedule = none)
    (hfail : st.failed.contains t = false)
    (hdep : depsDone dm st t) :
    Inv s cons dm (attemptRetry st priority t) := by
  unfold attemptRetry
  dsimp only
  by_cases hc : getRetry st t + 1 < 3
  · rw [if_pos hc]
    exact inv_requeue s cons dm
      { st with retry_counts :=
          dictInsert st.retry_counts t (getRetry st t + 1) }
      (priority + 1/10) t
      (inv_retryCounts s cons dm st _ hinv) hnot hsch hfail hdep
  · rw [if_neg hc]
    exact inv_failedAdd s cons dm
      { st with retry_counts :=
          dictInsert st.retry_counts t (getRetry st t + 1) }
      t (inv_retryCounts s cons dm st _ hinv) hnot

theorem rescan_inv (s : Sched) (cons : List Constraint)
    (dm : List (Nat × List Nat)) (total : Nat)
    (HN : (s.tasks.map (·.1)).Nodup) (st st' : LoopSt)
    (hinv : Inv s cons dm st)
    (h : rescanReseed s dm total st = .ok st') :
    Inv s cons dm st' := by
  unfold rescanReseed at h
  by_cases hc : st.ready = [] ∧ st.scheduled_count + st.failed.length < total
  · rw [if_pos hc] at h
    refine (foldlM_pred _
      (fun σ L' => Inv s cons dm σ ∧ σ.schedule = st.schedule ∧
        σ.failed = st.failed ∧ (∀ p ∈ σ.ready, p.2 ∉ L') ∧ L'.Nodup ∧
        (∀ t' ∈ L', (List.lookup t' st.schedule).isNone = true))
      ?_ _ st st' h ⟨hinv, rfl, rfl, ?_, ?_, ?_⟩).1
    · intro σ x l σ' hQ hstep₂
      obtain ⟨hin, hsc, hfl, hrd, hnd, hlkf⟩ := hQ
      by_cases h1 : σ.failed.contains x
      · rw [if_pos h1] at hstep₂
        injection hstep₂ with hstep₂
        subst hstep₂
        exact ⟨hin, hsc, hfl,
          fun p hp hm => hrd p hp (List.mem_cons_of_mem _ hm),
          (List.nodup_cons.mp hnd).2,
          fun t' ht' => hlkf t' (List.mem_cons_of_mem _ ht')⟩
      · rw [if_neg h1] at hstep₂
        by_cases h2 : ((depsOf dm x).filter
            (fun d => (List.lookup d σ.schedule).isNone ∧
                      ¬ σ.failed.contains d)) = []
        · rw [if_pos h2] at hstep₂
          cases hp : calculate_task_priority s x with
          | error e =>
            rw [hp, show ∀ (f : ℚ → Except PyErr LoopSt),
              ((Except.error e : Except PyErr ℚ) >>= f) = Except.error e
              from fun _ => rfl] at hstep₂
            exact Except.noConfusion hstep₂
          | ok p =>
            rw [hp, show ∀ (f : ℚ → Except PyErr LoopSt),
              ((Except.ok p : Except PyErr ℚ) >>= f) = f p
              from fun _ => rfl] at hstep₂
            injection hstep₂ with hstep₂
            subst hstep₂
            have hnot : x ∉ σ.ready.map (·.2) := by
              intro hmm
              obtain ⟨q, hq, hq2⟩ := List.mem_map.mp hmm
              exact hrd q hq (hq2 ▸ List.mem_cons_self x l)
            have hsch₂ : List.lookup x σ.schedule = none := by
              rw [hsc]
              exact Option.isNone_iff_eq_none.mp
                (hlkf x (List.mem_cons_self x l))
            have hfail₂ : σ.failed.contains x = false :=
              Bool.not_eq_true _ ▸ h1
            have hdep₂ : depsDone dm σ x := by
              intro d hd
              have h3 := List.filter_eq_nil.mp h2 d hd
              rw [decide_eq_true_eq] at h3
              by_cases hB : σ.failed.contains d = true
              · exact Or.inr hB
              · cases hl₂ : List.lookup d σ.schedule with
                | some v => exact Or.inl rfl
                | none =>
                  exact absurd ⟨by rw [hl₂]; rfl, fun hb => hB hb⟩ h3
            refine ⟨inv_requeue s cons dm σ p x hin hnot hsch₂ hfail₂
              hdep₂, hsc, hfl, ?_, (List.nodup_cons.mp hnd).2,
              fun t' ht' => hlkf t' (List.mem_cons_of_mem _ ht')⟩
            intro q hq hm
            rcases List.mem_cons.mp hq with rfl | hq₂
            · exact (List.nodup_cons.mp hnd).1 hm
            · exact hrd q hq₂ (List.mem_cons_of_mem _ hm)
        · rw [if_neg h2] at hstep₂
          injection hstep₂ with hstep₂
          subst hstep₂
          exact ⟨hin, hsc, hfl,
            fun p hp hm => hrd p hp (List.mem_cons_of_mem _ hm),
            (List.nodup_cons.mp hnd).2,
            fun t' ht' => hlkf t' (List.mem_cons_of_mem _ ht')⟩
    · intro p hp
      rw [hc.1] at hp
      exact absurd hp (List.not_mem_nil p)
    · exact List.Nodup.filter _ HN
    · intro t' ht'
      exact (of_decide_eq_true (List.mem_filter.mp ht').2).1
  · rw [if_neg hc] at h
    injection h with h
    subst h
    exact hinv

theorem pushDeps_inv (s : Sched) (cons : List Constraint)
    (dm dt : List (Nat × List Nat)) (tk : Nat) (stP st' : LoopSt)
    (Hdtn : (depsOf dt tk).Nodup)
    (hinv : Inv s cons dm stP)
    (hnotin : ∀ p ∈ stP.ready, p.2 ∉ depsOf dt tk)
    (h : pushDependents s dm dt tk stP = .ok st') :
    Inv s cons dm st' := by
  unfold pushDependents at h
  refine (foldlM_pred _
    (fun σ D' => Inv s cons dm σ ∧ σ.schedule = stP.schedule ∧
      σ.failed = stP.failed ∧ (∀ p ∈ σ.ready, p.2 ∉ D') ∧ D'.Nodup)
    ?_ _ stP st' h ⟨hinv, rfl, rfl, hnotin, Hdtn⟩).1
  intro σ dep l σ' hQ hstep₂
  obtain ⟨hin, hsc, hfl, hrd, hnd⟩ := hQ
  by_cases h1 : (List.lookup dep σ.schedule).isSome ∨
      σ.failed.contains dep
  · rw [if_pos h1] at hstep₂
    injection hstep₂ with hstep₂
    subst hstep₂
    exact ⟨hin, hsc, hfl,
      fun p hp hm => hrd p hp (List.mem_cons_of_mem _ hm),
      (List.nodup_cons.mp hnd).2⟩
  · rw [if_neg h1] at hstep₂
    by_cases h2 : (depsOf dm dep).all
        (fun d => (List.lookup d σ.schedule).isSome ||
          σ.failed.contains d)
    · rw [if_pos h2] at hstep₂
      cases hp : calculate_task_priority s dep with
      | error e =>
        rw [hp, show ∀ (f : ℚ → Except PyErr LoopSt),
          ((Except.error e : Except PyErr ℚ) >>= f) = Except.error e
          from fun _ => rfl] at hstep₂
        exact Except.noConfusion hstep₂
      | ok p =>
        rw [hp, show ∀ (f : ℚ → Except PyErr LoopSt),
          ((Except.ok p : Except PyErr ℚ) >>= f) = f p
          from fun _ => rfl] at hstep₂
        injection hstep₂ with hstep₂
        subst hstep₂
        have hnot : dep ∉ σ.ready.map (·.2) := by
          intro hmm
          obtain ⟨q, hq, hq2⟩ := List.mem_map.mp hmm
          exact hrd q hq (hq2 ▸ List.mem_cons_self dep l)
        have hsch₂ : List.lookup dep σ.schedule = none := by
          cases hl₂ : List.lookup dep σ.schedule with
          | none => rfl
          | some v => exact absurd (Or.inl (by rw [hl₂]; rfl)) h1
        have hfail₂ : σ.failed.contains dep = false := by
          cases hb : σ.failed.contains dep with
          | false => rfl
          | true => exact absurd (Or.inr hb) h1
        have hdep₂ : depsDone dm σ dep := by
          intro d hd
          have h3 := List.all_eq_true.mp h2 d hd
          cases hs : (List.lookup d σ.schedule).isSome with
          | true => exact Or.inl rfl
          | false =>
            rw [hs, Bool.false_or] at h3
            exact Or.inr h3
        refine ⟨inv_requeue s cons dm σ p dep hin hnot hsch₂ hfail₂
          hdep₂, hsc, hfl, ?_, (List.nodup_cons.mp hnd).2⟩
        intro q hq hm
        rcases List.mem_cons.mp hq with rfl | hq₂
        · exact (List.nodup_cons.mp hnd).1 hm
        · exact hrd q hq₂ (List.mem_cons_of_mem _ hm)
    · rw [if_neg h2] at hstep₂
      injection hstep₂ with hstep₂
      subst hstep₂
      exact ⟨hin, hsc, hfl,
        fun p hp hm => hrd p hp (List.mem_cons_of_mem _ hm),
        (List.nodup_cons.mp hnd).2⟩

theorem isSome_append (m : List (Nat × Entry)) (q : Nat × Entry) (d : Nat)
    (hs : (List.lookup d m).isSome = true) :
    (List.lookup d (m ++ [q])).isSome = true := by
  cases hl : List.lookup d m with
  | none => rw [hl] at hs; exact Bool.noConfusion hs
  | some v => rw [lookup_append_some _ _ _ _ hl]; rfl

/-- Inserting a freshly placed task preserves the invariant: dependency
edges into the new task are honoured via `computeEarliest`, edges out of
it cannot yet have a placed target, and the capacity check performed by
the window search covers exactly the inserted worker-minutes. -/
theorem inv_insert (s : Sched) (cons : List Constraint)
    (dm : List (Nat × List Nat))
    (Hdm : ∀ a b, a ∈ depsOf dm b ↔
      ∃ c ∈ cons, knownRelB c = true ∧ c.first = a ∧ c.second = b)
    (stR : LoopSt) (task_id : Nat) (entry : Entry)
    (hinv : Inv s cons dm stR)
    (hnotready : task_id ∉ stR.ready.map (·.2))
    (hsch : List.lookup task_id stR.schedule = none)
    (hfail : stR.failed.contains task_id = false)
    (hdep : depsDone dm stR task_id)
    (hce : computeEarliest s cons stR.schedule (depsOf dm task_id)
      task_id ≤ entry.start_time)
    (hend : entry.end_time = entry.start_time + entry.duration)
    (hcap : check_team_capacity_at_time s stR.schedule entry.team
      entry.start_time (entry.start_time + entry.duration)
      entry.mechanics_required = true) :
    Inv s cons dm { stR with
      schedule := dictInsert stR.schedule task_id entry,
      scheduled_count := stR.scheduled_count + 1,
      retry_count := 0 } := by
  have hins : dictInsert stR.schedule task_id entry =
      stR.schedule ++ [(task_id, entry)] := by
    unfold dictInsert
    rw [hsch]
    rfl
  rw [hins]
  refine ⟨hinv.rn, ?_, hinv.rf, ?_, ?_, ?_, ?_⟩
  · intro p hp
    have hne : p.2 ≠ task_id := fun he =>
      hnotready (he ▸ List.mem_map_of_mem (·.2) hp)
    exact lookup_append_none_ne _ _ _ _ hne (hinv.rs p hp)
  · intro p hp d hd
    rcases hinv.rd p hp d hd with hs | hf
    · exact Or.inl (isSome_append _ _ _ hs)
    · exact Or.inr hf
  · intro q hq d hd
    rcases List.mem_append.mp hq with hq₁ | hq₂
    · rcases hinv.sd q hq₁ d hd with hs | hf
      · exact Or.inl (isSome_append _ _ _ hs)
      · exact Or.inr hf
    · rcases List.mem_singleton.mp hq₂ with rfl
      rcases hdep d hd with hs | hf
      · exact Or.inl (isSome_append _ _ _ hs)
      · exact Or.inr hf
  · intro c hc hkr ea eb hla hlb hcond
    by_cases hbk : c.second = task_id
    · by_cases hak : c.first = task_id
      · exfalso
        have hmem : task_id ∈ depsOf dm task_id :=
          (Hdm task_id task_id).mpr ⟨c, hc, hkr, hak, hbk⟩
        rcases hdep task_id hmem with hs | hf
        · rw [hsch] at hs; exact Bool.noConfusion hs
        · rw [hfail] at hf; exact Bool.noConfusion hf
      · rcases lookup_append_single_cases _ _ _ _ _ hla with
          hla₁ | ⟨he, _, _⟩
        · have heb : eb = entry := by
            have hT : List.lookup c.second
                (stR.schedule ++ [(task_id, entry)]) = some entry := by
              rw [hbk, lookup_append, hsch, lookup_singleton, if_pos rfl]
            have hlb₂ : some entry = some eb := hT.symm.trans hlb
            injection hlb₂ with hlb₂
            exact hlb₂.symm
          subst heb
          rcases hcond with hno | huniq
          · refine le_trans ?_ hce
            exact computeEarliest_ge_dep s cons stR.schedule dm task_id
              (hbk ▸ hno) c.first ea
              ((Hdm c.first task_id).mpr ⟨c, hc, hkr, rfl, hbk⟩) hla₁
          · refine le_trans ?_ hce
            rw [hbk] at huniq
            rw [huniq]
            exact computeEarliest_unique_dep s cons stR.schedule c.first
              task_id ea hla₁
        · exact absurd he hak
    · by_cases hak : c.first = task_id
      · exfalso
        rcases lookup_append_single_cases _ _ _ _ _ hlb with
          hlb₁ | ⟨he, _, _⟩
        · have hmem2 : task_id ∈ depsOf dm c.second :=
            (Hdm task_id c.second).mpr ⟨c, hc, hkr, hak, rfl⟩
          rcases hinv.sd (c.second, eb) (lookup_mem _ _ _ hlb₁) task_id
            hmem2 with hs | hf
          · rw [hsch] at hs; exact Bool.noConfusion hs
          · rw [hfail] at hf; exact Bool.noConfusion hf
        · exact hbk he
      · rcases lookup_append_single_cases _ _ _ _ _ hla with
          hla₁ | ⟨he, _, _⟩
        · rcases lookup_append_single_cases _ _ _ _ _ hlb with
            hlb₁ | ⟨he₂, _, _⟩
          · exact hinv.c2 c hc hkr ea eb hla₁ hlb₁ hcond
          · exact absurd he₂ hbk
        · exact absurd he hak
  · intro tm m
    show teamUsage (stR.schedule ++ [(task_id, entry)]) tm m ≤
      capOfTeam s (some tm)
    rw [teamUsage_append]
    by_cases hcc : entry.team == some tm ∧ entry.start_time ≤ m ∧
        m < entry.end_time
    · rw [if_pos hcc]
      have hteam : entry.team = some tm := eq_of_beq hcc.1
      have hspec := check_capacity_spec s stR.schedule entry.team
        entry.start_time (entry.start_time + entry.duration)
        entry.mechanics_required hcap m hcc.2.1 (hend ▸ hcc.2.2)
      rw [hteam] at hspec
      rw [teamUsage_filter]
      exact hspec
    · rw [if_neg hcc]
      have := hinv.c3 tm m
      omega

theorem inv_iter (s : Sched) (cons : List Constraint)
    (dm : List (Nat × List Nat)) (st : LoopSt) (x : Nat)
    (hinv : Inv s cons dm st) :
    Inv s cons dm { st with iteration_count := x } :=
  ⟨hinv.rn, hinv.rs, hinv.rf, hinv.rd, hinv.sd, hinv.c2, hinv.c3⟩

theorem scheduleLoop_inv (s : Sched) (cons : List Constraint)
    (dm dt : List (Nat × List Nat)) (total : Nat)
    (HN : (s.tasks.map (·.1)).Nodup)
    (Hdm : ∀ a b, a ∈ depsOf dm b ↔
      ∃ c ∈ cons, knownRelB c = true ∧ c.first = a ∧ c.second = b)
    (Hdt : ∀ a b, b ∈ depsOf dt a ↔
      ∃ c ∈ cons, knownRelB c = true ∧ c.first = a ∧ c.second = b)
    (Hdtn : ∀ a, (depsOf dt a).Nodup) :
    ∀ (fuel : Nat) (st st' : LoopSt),
      Inv s cons dm st →
      scheduleLoop s cons dm dt total fuel st = .ok st' →
      Inv s cons dm st' := by
  intro fuel
  induction fuel with
  | zero =>
    intro st st' hinv h
    injection h with h
    subst h
    exact hinv
  | succ n ih =>
    intro st st' hinv h
    rw [show scheduleLoop s cons dm dt total (n + 1) st =
      (if ¬ (st.ready ≠ [] ∨ st.scheduled_count < total) then .ok st
      else if ¬ (st.retry_count < 5) then .ok st
      else do
        let st ← rescanReseed s dm total
          { st with iteration_count := st.iteration_count + 1 }
        match popMin st.ready with
        | none => .ok st
        | some ((priority, task_id), rest) =>
          let st := { st with ready := rest }
          if 3 ≤ getRetry st task_id then
            scheduleLoop s cons dm dt total n
              { st with failed := addFailedL st.failed task_id }
          else
            match resolveProductLine s task_id with
            | none => scheduleLoop s cons dm dt total n st
            | some product_line =>
              match List.lookup task_id s.tasks with
              | none => .error .keyError
              | some info =>
                let earliest := computeEarliest s cons st.schedule
                  (depsOf dm task_id) task_id
                let placed : Option (Int × Option String × String) :=
                  if info.is_quality then
                    (tryQualityPlacement s st.schedule earliest product_line
                      info.mechanics_required info.duration).map
                      (fun r => (r.1, some r.2.1, r.2.2))
                  else
                    match get_next_working_time_with_capacity s st.schedule
                        earliest product_line info.team
                        info.mechanics_required info.duration false with
                    | .error _ => none
                    | .ok (t0, sh, _) => some (t0, info.team, sh)
                match placed with
                | none =>
                  scheduleLoop s cons dm dt total n
                    (attemptRetry st priority task_id)
                | some (schedStart, team, shift) =>
                  let entry : Entry :=
                    { start_time := schedStart,
                      end_time := schedStart + info.duration,
                      team := team, product_line := product_line,
                      duration := info.duration,
                      mechanics_required := info.mechanics_required,
                      is_quality := info.is_quality,
                      task_type := info.task_type, shift := shift }
                  let st := { st with
                    schedule := dictInsert st.schedule task_id entry,
                    scheduled_count := st.scheduled_count + 1,
                    retry_count := 0 }
                  let st ← pushDependents s dm dt task_id st
                  scheduleLoop s cons dm dt total n st) from rfl] at h
    by_cases h1 : ¬ (st.ready ≠ [] ∨ st.scheduled_count < total)
    · rw [if_pos h1] at h
      injection h with h; subst h; exact hinv
    · rw [if_neg h1] at h
      by_cases h2 : ¬ (st.retry_count < 5)
      · rw [if_pos h2] at h
        injection h with h; subst h; exact hinv
      · rw [if_neg h2] at h
        cases hr : rescanReseed s dm total
            { st with iteration_count := st.iteration_count + 1 } with
        | error e₂ =>
          rw [hr, show ∀ (f : LoopSt → Except PyErr LoopSt),
            ((Except.error e₂ : Except PyErr LoopSt) >>= f) =
              Except.error e₂ from fun _ => rfl] at h
          exact Except.noConfusion h
        | ok st₁ =>
          rw [hr, show ∀ (f : LoopSt → Except PyErr LoopSt),
            ((Except.ok st₁ : Except PyErr LoopSt) >>= f) = f st₁
            from fun _ => rfl] at h
          have hinv₁ : Inv s cons dm st₁ :=
            rescan_inv s cons dm total HN _ st₁
              (inv_iter s cons dm st _ hinv) hr
          dsimp only at h
          cases hp : popMin st₁.ready with
          | none =>
            rw [hp] at h
            injection h with h
            subst h
            exact hinv₁
          | some pr =>
            obtain ⟨⟨priority, task_id⟩, rest⟩ := pr
            rw [hp] at h
            dsimp only at h
            obtain ⟨hinvR, hschT, hfailT, hdepT, hnotrest⟩ :=
              inv_pop s cons dm st₁ priority task_id rest hinv₁ hp
            by_cases h3 : 3 ≤ getRetry { st₁ with ready := rest } task_id
            · rw [if_pos h3] at h
              exact ih _ _ (inv_failedAdd s cons dm _ task_id hinvR
                hnotrest) h
            · rw [if_neg h3] at h
              cases hpl : resolveProductLine s task_id with
              | none =>
                rw [hpl] at h
                exact ih _ _ hinvR h
              | some product_line =>
                rw [hpl] at h
                cases hlk : List.lookup task_id s.tasks with
                | none => rw [hlk] at h; exact Except.noConfusion h
                | some info =>
                  rw [hlk] at h
                  dsimp only at h
                  cases hplaced :
                    (if info.is_quality then
                      (tryQualityPlacement s
                        { st₁ with ready := rest }.schedule
                        (computeEarliest s cons
                          { st₁ with ready := rest }.schedule
                          (depsOf dm task_id) task_id) product_line
                        info.mechanics_required info.duration).map
                        (fun r => (r.1, some r.2.1, r.2.2))
                    else
                      match get_next_working_time_with_capacity s
                          { st₁ with ready := rest }.schedule
                          (computeEarliest s cons
                            { st₁ with ready := rest }.schedule
                            (depsOf dm task_id) task_id) product_line
                          info.team info.mechanics_required info.duration
                          false with
                      | .error _ => none
                      | .ok (t0, sh, _) => some (t0, info.team, sh)) with
                  | none =>
                    rw [hplaced] at h
                    exact ih _ _ (inv_attemptRetry s cons dm _ priority
                      task_id hinvR hnotrest hschT hfailT hdepT) h
                  | some r₃ =>
                    obtain ⟨schedStart, team, shift⟩ := r₃
                    rw [hplaced] at h
                    dsimp only at h
                    have hfacts :
                        computeEarliest s cons
                          { st₁ with ready := rest }.schedule
                          (depsOf dm task_id) task_id ≤ schedStart ∧
                        check_team_capacity_at_time s
                          { st₁ with ready := rest }.schedule team
                          schedStart (schedStart + info.duration)
                          info.mechanics_required = true := by
                      by_cases hq : info.is_quality
                      · rw [if_pos hq] at hplaced
                        cases htqp : tryQualityPlacement s
                            { st₁ with ready := rest }.schedule
                            (computeEarliest s cons
                              { st₁ with ready := rest }.schedule
                              (depsOf dm task_id) task_id) product_line
                            info.mechanics_required info.duration with
                        | none =>
                          rw [htqp] at hplaced
                          exact Option.noConfusion hplaced
                        | some r =>
                          rw [htqp] at hplaced
                          injection hplaced with hplaced
                          injection hplaced with hx1 hx2
                          injection hx2 with hx2 hx3
                          obtain ⟨hmono, hw, hqs, hcap⟩ :=
                            tryQualityPlacement_spec s
                              { st₁ with ready := rest }.schedule
                              (computeEarliest s cons
                                { st₁ with ready := rest }.schedule
                                (depsOf dm task_id) task_id) product_line
                              info.mechanics_required info.duration
                              r.1 r.2.1 r.2.2 (by rw [htqp])
                          subst hx1
                          subst hx2
                          exact ⟨hmono, hcap⟩
                      · rw [if_neg hq] at hplaced
                        cases hg : get_next_working_time_with_capacity s
                            { st₁ with ready := rest }.schedule
                            (computeEarliest s cons
                              { st₁ with ready := rest }.schedule
                              (depsOf dm task_id) task_id) product_line
                            info.team info.mechanics_required
                            info.duration false with
                        | error e₃ =>
                          rw [hg] at hplaced
                          exact Option.noConfusion hplaced
                        | ok res =>
                          obtain ⟨t0, sh0, r0⟩ := res
                          rw [hg] at hplaced
                          injection hplaced with hplaced
                          injection hplaced with hx1 hx2
                          injection hx2 with hx2 hx3
                          have hmono := gnwtAux_mono s
                            ({ st₁ with ready := rest } : LoopSt).schedule
                            product_line info.team info.mechanics_required
                            info.duration false 5000
                            (computeEarliest s cons
                              ({ st₁ with ready := rest } : LoopSt).schedule
                              (depsOf dm task_id) task_id) t0 sh0 r0 hg
                          have hvalid := gnwtAux_ok_valid s
                            ({ st₁ with ready := rest } : LoopSt).schedule
                            product_line info.team info.mechanics_required
                            info.duration false 5000
                            (computeEarliest s cons
                              ({ st₁ with ready := rest } : LoopSt).schedule
                              (depsOf dm task_id) task_id) t0 sh0 r0 hg
                          subst hx1
                          subst hx2
                          exact ⟨hmono, hvalid.2.2.2⟩
                    have hnew := inv_insert s cons dm Hdm
                      { st₁ with ready := rest } task_id
                      ⟨schedStart, schedStart + info.duration, team,
                        product_line, info.duration,
                        info.mechanics_required, info.is_quality,
                        info.task_type, shift⟩
                      hinvR hnotrest hschT hfailT hdepT hfacts.1 rfl
                      hfacts.2
                    cases hpd : pushDependents s dm dt task_id
                        { st₁ with
                          ready := rest,
                          schedule := dictInsert st₁.schedule task_id
                            { start_time := schedStart,
                              end_time := schedStart + info.duration,
                              team := team, product_line := product_line,
                              duration := info.duration,
                              mechanics_required := info.mechanics_required,
                              is_quality := info.is_quality,
                              task_type := info.task_type, shift := shift },
                          scheduled_count := st₁.scheduled_count + 1,
                          retry_count := 0 } with
                    | error e₂ =>
                      rw [hpd, show ∀ (f : LoopSt → Except PyErr LoopSt),
                        ((Except.error e₂ : Except PyErr LoopSt) >>= f) =
                          Except.error e₂ from fun _ => rfl] at h
                      exact Except.noConfusion h
                    | ok st₂ =>
                      rw [hpd, show ∀ (f : LoopSt → Except PyErr LoopSt),
                        ((Except.ok st₂ : Except PyErr LoopSt) >>= f) =
                          f st₂ from fun _ => rfl] at h
                      have hnotin : ∀ p ∈ rest, p.2 ∉ depsOf dt task_id := by
                        intro p hp₂ hmm
                        obtain ⟨c, hc, hkr, hfc, hsnd⟩ :=
                          (Hdt task_id p.2).mp hmm
                        have hmem : task_id ∈ depsOf dm p.2 :=
                          (Hdm task_id p.2).mpr ⟨c, hc, hkr, hfc, hsnd⟩
                        rcases hinvR.rd p hp₂ task_id hmem with hs | hf₂
                        · have hs₂ :
                              (List.lookup task_id st₁.schedule).isSome =
                                true := hs
                          rw [hschT] at hs₂
                          exact Bool.noConfusion hs₂
                        · have hf₃ : st₁.failed.contains task_id = true :=
                            hf₂
                          rw [hfailT] at hf₃
                          exact Bool.noConfusion hf₃
                      exact ih _ _ (pushDeps_inv s cons dm dt task_id _
                        st₂ (Hdtn task_id) hnew hnotin hpd) h

theorem inv_init (s : Sched) (cons : List Constraint)
    (dm : List (Nat × List Nat)) (ready0 : List (ℚ × Nat))
    (HN : (s.tasks.map (·.1)).Nodup)
    (HC1 : ∀ p ∈ s.team_capacity, 0 ≤ p.2)
    (HC2 : ∀ p ∈ s.quality_team_capacity, 0 ≤ p.2)
    (hf : (List.foldlM
      (fun (r : List (ℚ × Nat)) t =>
        if (depsOf dm t).isEmpty then do
          let p ← calculate_task_priority s t
          pure ((p, t) :: r)
        else pure r) [] (s.tasks.map (·.1)) :
      Except PyErr (List (ℚ × Nat))) = .ok ready0) :
    Inv s cons dm
      { ready := ready0, schedule := [], failed := [], retry_counts := [],
        scheduled_count := 0, retry_count := 0, iteration_count := 0 } := by
  have main := foldlM_pred
    (fun (r : List (ℚ × Nat)) t =>
      if (depsOf dm t).isEmpty then do
        let p ← calculate_task_priority s t
        pure ((p, t) :: r)
      else pure r)
    (fun (r : List (ℚ × Nat)) L' => (r.map (·.2)).Nodup ∧
      (∀ p ∈ r, (depsOf dm p.2).isEmpty = true) ∧
      (∀ p ∈ r, p.2 ∉ L') ∧ L'.Nodup)
    (by
      intro r x l r' hQ hst
      dsimp only at hst
      obtain ⟨q1, q2, q3, q4⟩ := hQ
      by_cases hd : (depsOf dm x).isEmpty
      · rw [if_pos hd] at hst
        cases hp : calculate_task_priority s x with
        | error e =>
          rw [hp, show ∀ (f : ℚ → Except PyErr (List (ℚ × Nat))),
            ((Except.error e : Except PyErr ℚ) >>= f) = Except.error e
            from fun _ => rfl] at hst
          exact Except.noConfusion hst
        | ok p =>
          rw [hp, show ∀ (f : ℚ → Except PyErr (List (ℚ × Nat))),
            ((Except.ok p : Except PyErr ℚ) >>= f) = f p
            from fun _ => rfl] at hst
          injection hst with hst
          subst hst
          refine ⟨?_, ?_, ?_, (List.nodup_cons.mp q4).2⟩
          · refine List.nodup_cons.mpr ⟨?_, q1⟩
            intro hmm
            obtain ⟨q, hq, hq2⟩ := List.mem_map.mp hmm
            exact q3 q hq (hq2 ▸ List.mem_cons_self x l)
          · intro q hq
            rcases List.mem_cons.mp hq with rfl | hq₂
            · exact hd
            · exact q2 q hq₂
          · intro q hq
            rcases List.mem_cons.mp hq with rfl | hq₂
            · exact (List.nodup_cons.mp q4).1
            · exact fun hm => q3 q hq₂ (List.mem_cons_of_mem _ hm)
      · rw [if_neg hd] at hst
        injection hst with hst
        subst hst
        exact ⟨q1, q2,
          fun q hq hm => q3 q hq (List.mem_cons_of_mem _ hm),
          (List.nodup_cons.mp q4).2⟩)
    (s.tasks.map (·.1)) [] ready0 hf
    ⟨List.nodup_nil, fun p hp => absurd hp (List.not_mem_nil p),
      fun p hp => absurd hp (List.not_mem_nil p), HN⟩
  refine ⟨main.1, fun p _ => rfl, fun p _ => rfl, ?_,
    fun q hq => absurd hq (List.not_mem_nil q),
    fun c _ _ ea _ hla => absurd hla (by
      intro hla₂
      exact Option.noConfusion hla₂),
    fun tm m => capOfTeam_nonneg s (some tm) HC1 HC2⟩
  intro p hp d hd
  rw [List.isEmpty_iff.mp (main.2.1 p hp)] at hd
  exact absurd hd (List.not_mem_nil d)

/-- The full scheduler run establishes the invariant on its final state
(with well-formed input: distinct task ids and nonnegative capacities). -/
theorem schedule_tasks_inv (s : Sched) (a b : Bool) (st : LoopSt)
    (HN : (s.tasks.map (·.1)).Nodup)
    (HC1 : ∀ p ∈ s.team_capacity, 0 ≤ p.2)
    (HC2 : ∀ p ∈ s.quality_team_capacity, 0 ≤ p.2)
    (h : schedule_tasks_state s a b = .ok st) :
    Inv s (build_dynamic_dependencies s)
      (buildDepMaps (build_dynamic_dependencies s)).1 st := by
  unfold schedule_tasks_state at h
  by_cases hv : ¬ b ∧ ¬ validate_dag s
  · rw [if_pos hv] at h; exact Except.noConfusion h
  · rw [if_neg hv] at h
    dsimp only at h
    cases hf : (List.foldlM
        (fun (r : List (ℚ × Nat)) t =>
          if (depsOf (buildDepMaps (build_dynamic_dependencies s)).1
              t).isEmpty then do
            let p ← calculate_task_priority s t
            pure ((p, t) :: r)
          else pure r) [] (s.tasks.map (·.1)) :
        Except PyErr (List (ℚ × Nat))) with
    | error e₃ =>
      rw [hf, show ∀ (g : List (ℚ × Nat) → Except PyErr LoopSt),
        (Except.error e₃ : Except PyErr (List (ℚ × Nat))).bind g =
          Except.error e₃ from fun _ => rfl] at h
      exact Except.noConfusion h
    | ok ready0 =>
      rw [hf, show ∀ (g : List (ℚ × Nat) → Except PyErr LoopSt),
        (Except.ok ready0 : Except PyErr (List (ℚ × Nat))).bind g =
          g ready0 from fun _ => rfl] at h
      obtain ⟨g1, g2, g3⟩ := buildDepMaps_char
        (build_dynamic_dependencies s)
      exact scheduleLoop_inv s (build_dynamic_dependencies s)
        (buildDepMaps (build_dynamic_dependencies s)).1
        (buildDepMaps (build_dynamic_dependencies s)).2
        s.tasks.length HN g1 g2 g3 (s.tasks.length * 10)
        { ready := ready0, schedule := [], failed := [],
          retry_counts := [], scheduled_count := 0, retry_count := 0,
          iteration_count := 0 } st
        (inv_init s (build_dynamic_dependencies s)
          (buildDepMaps (build_dynamic_dependencies s)).1 ready0
          HN HC1 HC2 hf) h

/-- C2 (amended): for every recognized dependency edge with both
endpoints placed, `end(first) ≤ start(second)` holds provided no
`Finish = Start` edge points into the second task, or the second task's
only recognized dependency is the first.  The window search pushes a
task's start past its `earliest_start`, so exact `Finish = Start`
equality fails when the successor's team cannot start at the
predecessor's end (see `C2_counterexample`); and a `Finish = Start` edge
into a task overwrites bounds from its other, earlier-scanned
dependencies. -/
theorem C2_amended :
    ∀ (s : Sched) (a b : Bool) (sched : Schedule),
      (s.tasks.map (·.1)).Nodup →
      (∀ p ∈ s.team_capacity, 0 ≤ p.2) →
      (∀ p ∈ s.quality_team_capacity, 0 ≤ p.2) →
      schedule_tasks s a b = .ok sched →
      ∀ c ∈ build_dynamic_dependencies s, knownRelB c = true →
      ∀ ea eb, List.lookup c.first sched = some ea →
        List.lookup c.second sched = some eb →
        (hasFESInto (build_dynamic_dependencies s) c.second = false ∨
          depsOf (buildDepMaps (build_dynamic_dependencies s)).1 c.second
            = [c.first]) →
        ea.end_time ≤ eb.start_time := by
  intro s a b sched HN HC1 HC2 h c hc hkr ea eb hla hlb hcond
  unfold schedule_tasks at h
  cases hst : schedule_tasks_state s a b with
  | error e₂ => rw [hst] at h; exact Except.noConfusion h
  | ok st =>
    rw [hst] at h
    injection h with h
    subst h
    exact (schedule_tasks_inv s a b st HN HC1 HC2 hst).c2 c hc hkr ea eb
      hla hlb hcond

theorem C2_witness :
    schedule_tasks exW2 true true =
      .ok [(1, ⟨6120, 6140, some "M", "P", 20, 1, false, "Production",
              "1st"⟩),
           (2, ⟨6140, 6160, some "M", "P", 20, 1, false, "Production",
              "1st"⟩)] ∧
    (⟨6120, 6140, some "M", "P", 20, 1, false, "Production",
      "1st"⟩ : Entry).end_time ≤
    (⟨6140, 6160, some "M", "P", 20, 1, false, "Production",
      "1st"⟩ : Entry).start_time :=
  ⟨by with_unfolding_all rfl,
   C2_amended exW2 true true
     [(1, ⟨6120, 6140, some "M", "P", 20, 1, false, "Production", "1st"⟩),
      (2, ⟨6140, 6160, some "M", "P", 20, 1, false, "Production", "1st"⟩)]
     (by decide) (by decide) (by decide) (by with_unfolding_all rfl)
     ⟨1, 2, "Finish <= Start"⟩ (by with_unfolding_all decide)
     (by with_unfolding_all decide)
     ⟨6120, 6140, some "M", "P", 20, 1, false, "Production", "1st"⟩
     ⟨6140, 6160, some "M", "P", 20, 1, false, "Production", "1st"⟩
     (by decide) (by decide)
     (Or.inl (by with_unfolding_all decide))⟩

/-- C3 (confirmed): in any schedule the scheduler produces from data
with distinct task ids and nonnegative capacities, the per-minute sum of
`mechanics_required` over a team's placed tasks never exceeds the team's
capacity: each placement passes `check_team_capacity_at_time`, which
scans exactly the minutes of the inserted interval against the current
timeline. -/
theorem C3_capacity :
    ∀ (s : Sched) (a b : Bool) (sched : Schedule),
      (s.tasks.map (·.1)).Nodup →
      (∀ p ∈ s.team_capacity, 0 ≤ p.2) →
      (∀ p ∈ s.quality_team_capacity, 0 ≤ p.2) →
      schedule_tasks s a b = .ok sched →
      ∀ (team : String) (m : Int),
        teamUsage sched team m ≤ capOfTeam s (some team) := by
  intro s a b sched HN HC1 HC2 h team m
  unfold schedule_tasks at h
  cases hst : schedule_tasks_state s a b with
  | error e₂ => rw [hst] at h; exact Except.noConfusion h
  | ok st =>
    rw [hst] at h
    injection h with h
    subst h
    exact (schedule_tasks_inv s a b st HN HC1 HC2 hst).c3 team m

theorem C3_witness :
    schedule_tasks exW3 true true =
      .ok [(1, ⟨6120, 6140, some "M", "P", 20, 1, false, "Production",
        "1st"⟩)] ∧
    teamUsage
      [(1, ⟨6120, 6140, some "M", "P", 20, 1, false, "Production",
        "1st"⟩)] "M" 6120 ≤ capOfTeam exW3 (some "M") :=
  ⟨by with_unfolding_all rfl,
   C3_capacity exW3 true true
     [(1, ⟨6120, 6140, some "M", "P", 20, 1, false, "Production", "1st"⟩)]
     (by decide) (by decide) (by decide) (by with_unfolding_all rfl)
     "M" 6120⟩

end Aurora
